import Mathlib

/-!
Verification of the loxrt tree-walking Lox interpreter (Rust).

This file gives a shallow embedding of the interpreter's data model and
operations, translated from the repository sources:
  src/tokens.rs, src/ast.rs, src/environment.rs, src/error.rs,
  src/interpreter.rs, src/resolver.rs, src/parser.rs, src/scanner.rs,
  src/main.rs
and proves properties of the embedded definitions.

Modelling conventions:
* Rust's shared mutable references (Rc<RefCell<...>>) are modelled with an
  explicit store: environment frames and class instances live in lists inside
  an Interp state, and a "reference" is an index into those lists.
* Rust HashMap is modelled as an association list where insertion conses a
  pair at the front and lookup takes the first match (observably equivalent:
  insert replaces, lookup finds the latest binding).
* f64 is modelled by the type F64 below: NaN, signed infinities, and finite
  values as rationals.  This keeps the IEEE-754 facts the code relies on
  (NaN is not equal to anything including itself, comparisons with NaN are
  false, division by zero yields an infinity or NaN) while collapsing the
  bit-level details the code never observes (a single NaN, no negative zero).
* Rust panics (unreachable!, todo!, failed unwrap, out-of-bounds index) are
  modelled as the Fail.panicked outcome; recursion that Rust runs unboundedly
  is given a fuel parameter, and exhausted fuel is the Fail.outOfFuel
  outcome, distinct from every outcome the Rust code can produce.
* The snapshot's files come from different stages of the repository's
  history: src/ast.rs lacks the This/Super expressions and the superclass
  field of Class statements although src/resolver.rs and src/interpreter.rs
  match on them, and src/tokens.rs names the lexeme field _lexeme although
  the parser and interpreter read .lexeme.  The embedding uses the union of
  the variants and fields that the source files actually use.
-/

/-- Token kinds, from src/tokens.rs (enum TokenType).  Keyword names are
prefixed with kw because several of them are Lean keywords. -/
inductive TokenType where
  | leftParen | rightParen | leftBrace | rightBrace | comma | dot
  | minus | plus | semicolon | slash | star
  | bang | bangEqual | equal | equalEqual
  | greater | greaterEqual | less | lessEqual
  | identifier (s : String)
  | str (s : String)
  | number (n : Rat)
  | kwAnd | kwClass | kwElse | kwFalse | kwFun | kwFor | kwIf | kwNil
  | kwOr | kwPrint | kwReturn | kwSuper | kwThis | kwTrue | kwVar | kwWhile
  | eof
deriving DecidableEq, Repr

/-- PartialEq for TokenType from src/tokens.rs: two token types are equal
when their variants match, ignoring the payload of Identifier, Str and
Number (the source compares (Identifier(_), Identifier(_)) and so on). -/
def TokenType.peq : TokenType → TokenType → Bool
  | .leftParen, .leftParen => true
  | .rightParen, .rightParen => true
  | .leftBrace, .leftBrace => true
  | .rightBrace, .rightBrace => true
  | .comma, .comma => true
  | .dot, .dot => true
  | .minus, .minus => true
  | .plus, .plus => true
  | .semicolon, .semicolon => true
  | .slash, .slash => true
  | .star, .star => true
  | .bang, .bang => true
  | .bangEqual, .bangEqual => true
  | .equal, .equal => true
  | .equalEqual, .equalEqual => true
  | .greater, .greater => true
  | .greaterEqual, .greaterEqual => true
  | .less, .less => true
  | .lessEqual, .lessEqual => true
  | .identifier _, .identifier _ => true
  | .str _, .str _ => true
  | .number _, .number _ => true
  | .kwAnd, .kwAnd => true
  | .kwClass, .kwClass => true
  | .kwElse, .kwElse => true
  | .kwFalse, .kwFalse => true
  | .kwFun, .kwFun => true
  | .kwFor, .kwFor => true
  | .kwIf, .kwIf => true
  | .kwNil, .kwNil => true
  | .kwOr, .kwOr => true
  | .kwPrint, .kwPrint => true
  | .kwReturn, .kwReturn => true
  | .kwSuper, .kwSuper => true
  | .kwThis, .kwThis => true
  | .kwTrue, .kwTrue => true
  | .kwVar, .kwVar => true
  | .kwWhile, .kwWhile => true
  | .eof, .eof => true
  | _, _ => false

/-- Rendering of a token kind; mirrors Rust's derive(Debug) output that the
Display impl of Token forwards to (write!(f, "{:?}", self.tok_typ)).
Numbers are rendered through Rat; the exact digits differ from Rust's f64
debug output but the rendering stays injective on values, which is all that
the string-keyed side tables rely on. -/
def TokenType.debugRender : TokenType → String
  | .leftParen => "LeftParen"
  | .rightParen => "RightParen"
  | .leftBrace => "LeftBrace"
  | .rightBrace => "RightBrace"
  | .comma => "Comma"
  | .dot => "Dot"
  | .minus => "Minus"
  | .plus => "Plus"
  | .semicolon => "Semicolon"
  | .slash => "Slash"
  | .star => "Star"
  | .bang => "Bang"
  | .bangEqual => "BangEqual"
  | .equal => "Equal"
  | .equalEqual => "EqualEqual"
  | .greater => "Greater"
  | .greaterEqual => "GreaterEqual"
  | .less => "Less"
  | .lessEqual => "LessEqual"
  | .identifier s => "Identifier(\"" ++ s ++ "\")"
  | .str s => "Str(\"" ++ s ++ "\")"
  | .number n => "Number(" ++ toString n ++ ")"
  | .kwAnd => "And"
  | .kwClass => "Class"
  | .kwElse => "Else"
  | .kwFalse => "False"
  | .kwFun => "Fun"
  | .kwFor => "For"
  | .kwIf => "If"
  | .kwNil => "Nil"
  | .kwOr => "Or"
  | .kwPrint => "Print"
  | .kwReturn => "Return"
  | .kwSuper => "Super"
  | .kwThis => "This"
  | .kwTrue => "True"
  | .kwVar => "Var"
  | .kwWhile => "While"
  | .eof => "EoF"

/-- Token from src/tokens.rs: kind, lexeme text, 1-based line.  tokens.rs in
the snapshot names the lexeme field _lexeme; the parser and interpreter
access it as .lexeme, the name used here. -/
structure Token where
  tok_typ : TokenType
  lexeme : String
  line : Nat
deriving DecidableEq, Repr

/-- Display for Token (src/tokens.rs) writes the debug form of tok_typ. -/
def Token.render (t : Token) : String := t.tok_typ.debugRender

mutual
/-- Expressions, from src/ast.rs (enum Expr), extended with the This and
Super variants that src/resolver.rs and src/interpreter.rs match on (the
snapshot's ast.rs predates them). -/
inductive Expr where
  | binary (left : Expr) (operator : Token) (right : Expr)
  | unary (operator : Token) (right : Expr)
  | grouping (expr : Expr)
  | literal (value : Token)
  | variable (name : Token)
  | assignment (name : Token) (value : Expr)
  | logical (left : Expr) (operator : Token) (right : Expr)
  | call (callee : Expr) (paren : Token) (arguments : List Expr)
  | get (object : Expr) (name : Token)
  | set (object : Expr) (name : Token) (value : Expr)
  | thisE (keyword : Token)
  | superE (keyword : Token) (method : Token)

/-- Statements, from src/ast.rs (enum Stmt); the Class variant carries the
optional superclass expression that src/resolver.rs and src/interpreter.rs
destructure (the snapshot's ast.rs predates it). -/
inductive Stmt where
  | sExpr (expr : Expr)
  | sPrint (expr : Expr)
  | sVar (name : Token) (expr : Option Expr)
  | sBlock (stmts : List Stmt)
  | sIf (condition : Expr) (then_branch : Stmt) (else_branch : Option Stmt)
  | sWhile (condition : Expr) (body : Stmt)
  | sFunction (name : Token) (params : List Token) (body : List Stmt)
  | sReturn (keyword : Token) (value : Option Expr)
  | sClass (name : Token) (superclass : Option Expr) (methods : List Stmt)
end

mutual
/-- Expr::to_string from src/ast.rs, the stringification the resolver and
interpreter use as the key of the locals side table.  The This/Super arms
are absent from the snapshot's ast.rs; like the Variable arm they render
the keyword token's debug form. -/
def Expr.toStringR : Expr → String
  | .binary l op r => "(" ++ l.toStringR ++ " " ++ op.render ++ " " ++ r.toStringR ++ ")"
  | .logical l op r => "(" ++ l.toStringR ++ " " ++ op.render ++ " " ++ r.toStringR ++ ")"
  | .unary op r => "(" ++ op.render ++ " " ++ r.toStringR ++ ")"
  | .grouping e => "(group " ++ e.toStringR ++ ")"
  | .literal v => v.render
  | .variable n => n.render
  | .assignment n v => n.render ++ " = " ++ v.toStringR ++ " "
  | .call callee _ args => callee.toStringR ++ "( " ++ Expr.argsString args ++ ")"
  | .get obj _ => "(get " ++ obj.toStringR ++ ")"
  | .set obj _ v => "(set " ++ obj.toStringR ++ " <- " ++ v.toStringR ++ ")"
  | .thisE kw => kw.render
  | .superE kw _ => kw.render

/-- The argument part of Expr::to_string's Call arm: each argument rendered
and followed by a space. -/
def Expr.argsString : List Expr → String
  | [] => ""
  | a :: rest => a.toStringR ++ " " ++ Expr.argsString rest
end

/-- Model of f64: a single NaN, two infinities, and finite values as
rationals (negative zero collapsed into zero). -/
inductive F64 where
  | nan
  | inf (neg : Bool)
  | num (q : Rat)
deriving DecidableEq, Repr

/-- IEEE equality on F64: NaN equals nothing (itself included); infinities
compare by sign; finite values by rational value. -/
def F64.feq : F64 → F64 → Bool
  | .num a, .num b => decide (a = b)
  | .inf a, .inf b => decide (a = b)
  | _, _ => false

/-- IEEE negation. -/
def F64.fneg : F64 → F64
  | .nan => .nan
  | .inf s => .inf (!s)
  | .num q => .num (-q)

/-- IEEE addition (up to the modelling conventions above). -/
def F64.fadd : F64 → F64 → F64
  | .nan, _ => .nan
  | _, .nan => .nan
  | .inf a, .inf b => if a = b then .inf a else .nan
  | .inf a, .num _ => .inf a
  | .num _, .inf b => .inf b
  | .num a, .num b => .num (a + b)

/-- IEEE subtraction: x - y = x + (-y). -/
def F64.fsub (a b : F64) : F64 := a.fadd b.fneg

/-- IEEE multiplication. -/
def F64.fmul : F64 → F64 → F64
  | .nan, _ => .nan
  | _, .nan => .nan
  | .inf a, .inf b => .inf (a != b)
  | .inf a, .num q => if q = 0 then .nan else .inf (a != decide (q < 0))
  | .num q, .inf b => if q = 0 then .nan else .inf (b != decide (q < 0))
  | .num a, .num b => .num (a * b)

/-- IEEE division. -/
def F64.fdiv : F64 → F64 → F64
  | .nan, _ => .nan
  | _, .nan => .nan
  | .inf _, .inf _ => .nan
  | .inf a, .num q => .inf (a != decide (q < 0))
  | .num _, .inf _ => .num 0
  | .num a, .num b =>
    if b = 0 then (if a = 0 then .nan else .inf (decide (a < 0))) else .num (a / b)

/-- IEEE strict less-than: false whenever NaN is involved. -/
def F64.flt : F64 → F64 → Bool
  | .nan, _ => false
  | _, .nan => false
  | .inf a, .inf b => a && !b
  | .inf a, .num _ => a
  | .num _, .inf b => !b
  | .num a, .num b => decide (a < b)

/-- IEEE less-or-equal: false whenever NaN is involved. -/
def F64.fle : F64 → F64 → Bool
  | .nan, _ => false
  | _, .nan => false
  | .inf a, .inf b => a == b || (a && !b)
  | .inf a, .num _ => a
  | .num _, .inf b => !b
  | .num a, .num b => decide (a ≤ b)

/-- Rendering of an F64 through Rust's f64 Display: integral values print
without a fractional part.  Only an approximation of the digit sequence;
nothing proved here depends on it. -/
def F64.render : F64 → String
  | .nan => "NaN"
  | .inf b => if b then "-inf" else "inf"
  | .num q => if q.den = 1 then toString q.num else toString q

/-- Association-list lookup standing in for HashMap::get: first match wins
(insertion conses, so the first match is the latest insert). -/
def lookupVals {α : Type} : List (String × α) → String → Option α
  | [], _ => none
  | (k, v) :: rest, key => if k = key then some v else lookupVals rest key

/-- Association-list insert standing in for HashMap::insert. -/
def insertVal {α : Type} (m : List (String × α)) (k : String) (v : α) :
    List (String × α) := (k, v) :: m

mutual
/-- Runtime values, from src/interpreter.rs (enum Types).  ClassInstance's
Rc<RefCell<LoxClassInstance>> is an index into Interp.insts; NativeFunc
keeps only an identifier (the sole native is clock). -/
inductive Types where
  | number (n : F64)
  | str (s : String)
  | bool (b : Bool)
  | nativeFunc (id : Nat)
  | callable (f : LoxFunction)
  | classV (c : LoxClass)
  | classInstance (r : Nat)
  | nil

/-- LoxFunction from src/interpreter.rs: declaration parts, the closure
(an environment reference), and the is_initializer flag. -/
inductive LoxFunction where
  | mk (name : Token) (params : List Token) (body : List Stmt)
      (closure : Nat) (is_initializer : Bool)

/-- LoxClass from src/interpreter.rs: name, method table, and an optional
superclass held by value (the Rust field is Option<Box<LoxClass>> and is
built from a clone). -/
inductive LoxClass where
  | mk (name : String) (methods : List (String × Types))
      (superclass : Option LoxClass)
end

def LoxFunction.name : LoxFunction → Token
  | .mk n _ _ _ _ => n

def LoxFunction.params : LoxFunction → List Token
  | .mk _ p _ _ _ => p

def LoxFunction.body : LoxFunction → List Stmt
  | .mk _ _ b _ _ => b

def LoxFunction.closure : LoxFunction → Nat
  | .mk _ _ _ c _ => c

def LoxFunction.is_initializer : LoxFunction → Bool
  | .mk _ _ _ _ i => i

def LoxClass.name : LoxClass → String
  | .mk n _ _ => n

def LoxClass.methods : LoxClass → List (String × Types)
  | .mk _ m _ => m

def LoxClass.superclass : LoxClass → Option LoxClass
  | .mk _ _ s => s

/-- Callable::to_string for LoxClass from src/interpreter.rs. -/
def LoxClass.toStringR (c : LoxClass) : String := "<class " ++ c.name ++ ">"

/-- Callable::to_string for LoxFunction from src/interpreter.rs. -/
def LoxFunction.toStringR (f : LoxFunction) : String := "<fn " ++ f.name.lexeme ++ ">"

/-- Types::is_truty from src/interpreter.rs: Nil and false are falsy,
everything else is truthy. -/
def Types.is_truty : Types → Bool
  | .nil => false
  | .bool b => b
  | _ => true

/-- PartialEq for Types from src/interpreter.rs: Nil, String, Number and
Bool compare structurally (numbers by f64 equality); every other pair of
values — including a function, class, native function or instance compared
with itself — falls into the catch-all and is not equal. -/
def Types.peq : Types → Types → Bool
  | .nil, .nil => true
  | .str s1, .str s2 => decide (s1 = s2)
  | .number n1, .number n2 => n1.feq n2
  | .bool b1, .bool b2 => decide (b1 = b2)
  | _, _ => false

/-- LoxClassInstance from src/interpreter.rs: the owning class (held by
value, cloned at construction) and the mutable field map. -/
structure InstData where
  base : LoxClass
  fields : List (String × Types)

/-- Display for Types from src/interpreter.rs (instances defer to the class
Callable::to_string; Nil prints as the capitalised "Nil" in this source). -/
def Types.render (insts : List InstData) : Types → String
  | .number n => n.render
  | .str s => s
  | .bool b => if b then "true" else "false"
  | .classV c => c.toStringR
  | .classInstance r =>
    match insts.get? r with
    | some i => "instance of " ++ i.base.toStringR
    | none => "instance of <dangling>"
  | .callable f => f.toStringR
  | .nativeFunc _ => "<native function>"
  | .nil => "Nil"

/-- LoxErrorContainer from src/error.rs: a 1-based line and a message. -/
structure LoxErrorContainer where
  line : Nat
  message : String
deriving DecidableEq, Repr

/-- LoxError from src/error.rs: the four user-visible error kinds plus the
internal Return signal carrying a value. -/
inductive LoxError where
  | scannerError (e : LoxErrorContainer)
  | parserErrors (es : List LoxErrorContainer)
  | resolutionError (e : LoxErrorContainer)
  | runtimeError (e : LoxErrorContainer)
  | returnError (v : Types)

/-- LoxError::code from src/error.rs: the per-phase process exit code.
The source panics on ReturnError ("Shouldn't try to exit on a return
error"); the panic is modelled as none. -/
def LoxError.code : LoxError → Option Nat
  | .scannerError _ => some 1
  | .parserErrors _ => some 2
  | .runtimeError _ => some 3
  | .resolutionError _ => some 4
  | .returnError _ => none

/-- Abnormal outcome of an embedded computation: either a LoxError the Rust
code constructs, a Rust panic, or exhaustion of the embedding's fuel (an
artifact no Rust execution corresponds to). -/
inductive Fail where
  | lox (e : LoxError)
  | panicked (msg : String)
  | outOfFuel

/-- Shorthand for LoxError::new_runtime's payload. -/
def Fail.runtime (line : Nat) (msg : String) : Fail :=
  .lox (.runtimeError ⟨line, msg⟩)

/-- Shorthand for LoxError::new_resolution's payload. -/
def Fail.resolution (line : Nat) (msg : String) : Fail :=
  .lox (.resolutionError ⟨line, msg⟩)

/-- Shorthand for LoxError::new_parser's payload (a one-element ParserErrors
aggregate, as in src/error.rs). -/
def Fail.parser (line : Nat) (msg : String) : Fail :=
  .lox (.parserErrors [⟨line, msg⟩])

/-- Environment from src/environment.rs: one scope frame, a name-to-value
map plus an optional parent reference.  Rc<RefCell<Environment>> is an index
into the heap list of an Interp state. -/
structure EnvFrame where
  values : List (String × Types)
  parent : Option Nat

/-- In-place update of one list element (the RefCell borrow_mut of the
frame at the given index); out-of-range updates leave the list unchanged
(they correspond to dangling references the Rust code cannot form). -/
def listModify {α : Type} (l : List α) (i : Nat) (f : α → α) : List α :=
  match l.get? i with
  | some x => l.set i (f x)
  | none => l

/-- Environment::define from src/environment.rs: unconditional insert into
the one frame. -/
def Environment.define (h : List EnvFrame) (ref : Nat) (name : String)
    (v : Types) : List EnvFrame :=
  listModify h ref (fun f => { f with values := insertVal f.values name v })

/-- Environment::get from src/environment.rs: look up in this frame, else
delegate to the parent, else fail with the undefined-variable runtime error.
The fuel bounds the parent chase; ref + 1 is enough whenever parents sit
below their children in the heap, which every frame the interpreter
allocates satisfies. -/
def Environment.get (h : List EnvFrame) (tok : Token) : Nat → Nat → Except Fail Types
  | 0, _ => .error .outOfFuel
  | fuel + 1, ref =>
    match h.get? ref with
    | none => .error (.panicked "dangling environment reference")
    | some f =>
      match lookupVals f.values tok.lexeme with
      | some v => .ok v
      | none =>
        match f.parent with
        | some p => Environment.get h tok fuel p
        | none =>
          .error (.runtime tok.line
            ("Failed to get undefined variable `" ++ tok.lexeme ++ "`."))

/-- Environment::get_at from src/environment.rs: depth 0 performs this
frame's get (which itself delegates to parents on miss); positive depth
steps to the parent, failing with the bad-depth runtime error when there is
none. -/
def Environment.get_at (h : List EnvFrame) (tok : Token) (ref : Nat) :
    Nat → Except Fail Types
  | 0 => Environment.get h tok (ref + 1) ref
  | d + 1 =>
    match h.get? ref with
    | none => .error (.panicked "dangling environment reference")
    | some f =>
      match f.parent with
      | some p => Environment.get_at h tok p d
      | none =>
        .error (.runtime tok.line
          ("Bad depth. Looking for depth " ++ toString (d + 1) ++ ", but no parent found."))

/-- Environment::set from src/environment.rs: overwrite in the first frame
of the chain that holds the name, else fail with the undefined-variable
runtime error.  Returns the updated heap. -/
def Environment.set (h : List EnvFrame) (tok : Token) (v : Types) :
    Nat → Nat → Except Fail (List EnvFrame)
  | 0, _ => .error .outOfFuel
  | fuel + 1, ref =>
    match h.get? ref with
    | none => .error (.panicked "dangling environment reference")
    | some f =>
      if (lookupVals f.values tok.lexeme).isSome then
        .ok (Environment.define h ref tok.lexeme v)
      else
        match f.parent with
        | some p => Environment.set h tok v fuel p
        | none =>
          .error (.runtime tok.line
            ("Failed to set undefined variable: `" ++ tok.lexeme ++ "`."))

/-- Environment::set_at from src/environment.rs: depth 0 performs this
frame's set (which itself delegates to parents on miss); positive depth
steps to the parent, failing with the bad-depth runtime error when there is
none. -/
def Environment.set_at (h : List EnvFrame) (tok : Token) (v : Types) (ref : Nat) :
    Nat → Except Fail (List EnvFrame)
  | 0 => Environment.set h tok v (ref + 1) ref
  | d + 1 =>
    match h.get? ref with
    | none => .error (.panicked "dangling environment reference")
    | some f =>
      match f.parent with
      | some p => Environment.set_at h tok v p d
      | none =>
        .error (.runtime tok.line
          ("Bad depth. Looking for depth " ++ toString (d + 1) ++ ", but no parent found."))

/-- The frame reached from ref after following exactly d parent links, when
the chain is long enough.  Specification helper for the get_at/set_at
theorems; not part of the source. -/
def ancestorRef (h : List EnvFrame) : Nat → Nat → Option Nat
  | ref, 0 => some ref
  | ref, d + 1 =>
    match h.get? ref with
    | none => none
    | some f =>
      match f.parent with
      | some p => ancestorRef h p d
      | none => none

/-- Interpreter state from src/interpreter.rs (struct Interpreter), together
with the stores that back the Rc<RefCell<...>> references and the stdout
stream: heap holds every environment frame, insts every class instance;
global_env and environment are frame references; locals is the resolver's
side table keyed by Expr::to_string; clockNow models the wall clock read by
the native clock function. -/
structure Interp where
  heap : List EnvFrame
  insts : List InstData
  global_env : Nat
  environment : Nat
  locals : List (String × Nat)
  output : List String
  clockNow : Rat

/-- Interpreter::new from src/interpreter.rs: one root frame holding the
clock native, used as both the global and the current environment. -/
def Interp.new (clockNow : Rat) : Interp :=
  { heap := [⟨[("clock", Types.nativeFunc 0)], none⟩]
    insts := []
    global_env := 0
    environment := 0
    locals := []
    output := []
    clockNow := clockNow }

/-- Interpreter::resolve from src/interpreter.rs: record a depth in the
locals side table under the expression's stringification. -/
def Interp.resolve (st : Interp) (e : Expr) (depth : Nat) : Interp :=
  { st with locals := insertVal st.locals e.toStringR depth }

/-- Interpreter::lookup_variable from src/interpreter.rs: a site present in
the locals table reads at the recorded depth from the current environment;
an absent site reads from the global frame. -/
def Interp.lookup_variable (st : Interp) (tok : Token) (e : Expr) :
    Except Fail Types :=
  match lookupVals st.locals e.toStringR with
  | some dist => Environment.get_at st.heap tok st.environment dist
  | none => Environment.get st.heap tok (st.global_env + 1) st.global_env

/-- The synthesized this token the interpreter builds for initializer
returns and super lookups (src/interpreter.rs). -/
def thisToken : Token := ⟨.identifier "this", "this", 0⟩

/-- The synthesized super token the interpreter builds when evaluating a
Super expression (src/interpreter.rs). -/
def superToken : Token := ⟨.identifier "super", "super", 0⟩

/-- LoxClass::find_method from src/interpreter.rs: look in this class's
method table, then recursively in the superclass chain.  The none/some
superclass cases are split at the pattern level (Lean's equation generator
rejects the directly nested match); the logic is the source's: a hit in the
own table wins, otherwise the superclass, if any, is searched. -/
def LoxClass.find_method : LoxClass → String → Option Types
  | .mk _ methods none, m =>
    lookupVals methods m
  | .mk _ methods (some sc), m =>
    match lookupVals methods m with
    | some v => some v
    | none => sc.find_method m

/-- Types::number from src/interpreter.rs: coerce to a number or fail with
the expected-Number runtime error (whose message renders the value). -/
def Types.numberCoerce (insts : List InstData) (v : Types) (tok : Token) :
    Except Fail F64 :=
  match v with
  | .number f => .ok f
  | _ => .error (.runtime tok.line ("Expected Number but found " ++ v.render insts))

/-- Dispatch target of Types::callable from src/interpreter.rs: the three
callable variants behind the trait object. -/
inductive CallTarget where
  | ctFunc (f : LoxFunction)
  | ctClass (c : LoxClass)
  | ctNative (id : Nat)

/-- Types::callable from src/interpreter.rs: functions, classes and natives
are callable; anything else fails with the expected-Callable runtime
error. -/
def Types.callableCoerce (insts : List InstData) (v : Types) (tok : Token) :
    Except Fail CallTarget :=
  match v with
  | .callable c => .ok (.ctFunc c)
  | .classV c => .ok (.ctClass c)
  | .nativeFunc f => .ok (.ctNative f)
  | _ => .error (.runtime tok.line ("Expected Callable but found " ++ v.render insts))

/-- Callable::airity from src/interpreter.rs: a function's parameter count;
a class's init arity (0 when there is no init method); 0 for the native
clock. -/
def CallTarget.airity : CallTarget → Nat
  | .ctFunc f => f.params.length
  | .ctClass c =>
    match c.find_method "init" with
    | some (.callable i) => i.params.length
    | _ => 0
  | .ctNative _ => 0

/-- LoxFunction::bind from src/interpreter.rs: allocate a child frame of the
function's closure defining this to the instance, and return the function
re-closed over it. -/
def LoxFunction.bind (st : Interp) (f : LoxFunction) (receiver : Types) :
    Types × Interp :=
  let ref := st.heap.length
  (Types.callable (.mk f.name f.params f.body ref f.is_initializer),
    { st with heap := st.heap ++ [⟨[("this", receiver)], some f.closure⟩] })

/-- LoxClass::new_instance from src/interpreter.rs: allocate an instance
whose base is a clone of the class and whose field map is empty. -/
def LoxClass.new_instance (st : Interp) (c : LoxClass) : Types × Interp :=
  (Types.classInstance st.insts.length, { st with insts := st.insts ++ [⟨c, []⟩] })

/-- LoxClassInstance::get from src/interpreter.rs: the field map first; on
miss the instance's own class method table (not find_method: the superclass
chain is not consulted), binding a found method to the instance; otherwise
the doesn't-have-a-field runtime error. -/
def LoxClassInstance.get (st : Interp) (r : Nat) (field : Token) :
    Except Fail Types × Interp :=
  match st.insts.get? r with
  | none => (.error (.panicked "dangling instance reference"), st)
  | some inst =>
    match lookupVals inst.fields field.lexeme with
    | some v => (.ok v, st)
    | none =>
      match lookupVals inst.base.methods field.lexeme with
      | some (.callable mf) =>
        let (bound, st') := LoxFunction.bind st mf (.classInstance r)
        (.ok bound, st')
      | some _ => (.error (.panicked "unreachable"), st)
      | none =>
        (.error (.runtime field.line
          ("Instance of " ++ inst.base.toStringR ++ " doesn't have a field `"
            ++ field.lexeme ++ "`")), st)

/-- LoxClassInstance::set_property from src/interpreter.rs: insert into the
instance's field map. -/
def LoxClassInstance.set_property (st : Interp) (r : Nat) (field : Token)
    (v : Types) : Interp :=
  let upd := fun (i : InstData) => { i with fields := insertVal i.fields field.lexeme v }
  { st with insts := listModify st.insts r upd }

/-- The argument-binding loop of LoxFunction::call: define each argument
under the parameter at the same index; an argument past the end of the
parameter list is the Rust index-out-of-bounds panic. -/
def bindParams : List Token → List Types → List (String × Types) →
    Except Fail (List (String × Types))
  | _, [], vals => .ok vals
  | [], _ :: _, _ => .error (.panicked "index out of bounds")
  | p :: ps, a :: rest, vals => bindParams ps rest (insertVal vals p.lexeme a)

/-- The method-table loop of the Stmt::Class arm of Interpreter::execute:
each method statement must be a Function (anything else is unreachable!),
and becomes a LoxFunction closed over the given environment, an initializer
exactly when it is named init. -/
def buildMethods (closure : Nat) : List Stmt → List (String × Types) →
    Except Fail (List (String × Types))
  | [], acc => .ok acc
  | m :: rest, acc =>
    match m with
    | .sFunction nm params body =>
      buildMethods closure rest
        (insertVal acc nm.lexeme
          (Types.callable (.mk nm params body closure (decide (nm.lexeme = "init")))))
    | _ => .error (.panicked "unreachable")

/-- The final assignment of the Stmt::Class arm: write the finished class
over the Nil placeholder with Environment::set. -/
def classSet (st : Interp) (name : Token) (cls : Types) :
    Except Fail Unit × Interp :=
  match Environment.set st.heap name cls (st.environment + 1) st.environment with
  | .ok h => (.ok (), { st with heap := h })
  | .error e => (.error e, st)

/-- The tail of the Stmt::Class arm of Interpreter::execute after the
superclass has been evaluated: build the method table over the current
environment, pop the super frame when one was pushed (the parent unwrap), and
assign the class back to its name. -/
def classRest (st : Interp) (name : Token) (superclass : Option LoxClass)
    (methods : List Stmt) : Except Fail Unit × Interp :=
  match buildMethods st.environment methods [] with
  | .error e => (.error e, st)
  | .ok mtds =>
    let cls := Types.classV (.mk name.lexeme mtds superclass)
    if superclass.isSome then
      match (st.heap.get? st.environment).bind (fun f => f.parent) with
      | some p => classSet { st with environment := p } name cls
      | none => (.error (.panicked "parent unwrap"), st)
    else
      classSet st name cls

/-- The operator dispatch of the Expr::Binary arm of Interpreter::evaulate,
applied after both operands are evaluated (left first). -/
def evalBinary (insts : List InstData) (lv : Types) (op : Token) (rv : Types) :
    Except Fail Types :=
  match op.tok_typ with
  | .minus => do
    let a ← Types.numberCoerce insts lv op
    let b ← Types.numberCoerce insts rv op
    .ok (.number (a.fsub b))
  | .plus =>
    match lv, rv with
    | .number a, .number b => .ok (.number (a.fadd b))
    | .str a, .str b => .ok (.str (a ++ b))
    | _, _ =>
      .error (.runtime op.line
        ("Invalid operands for operator `+`.\n\tCannot add `" ++ lv.render insts
          ++ "` with `" ++ rv.render insts ++ "`"))
  | .slash => do
    let a ← Types.numberCoerce insts lv op
    let b ← Types.numberCoerce insts rv op
    .ok (.number (a.fdiv b))
  | .star => do
    let a ← Types.numberCoerce insts lv op
    let b ← Types.numberCoerce insts rv op
    .ok (.number (a.fmul b))
  | .greater => do
    let a ← Types.numberCoerce insts lv op
    let b ← Types.numberCoerce insts rv op
    .ok (.bool (F64.flt b a))
  | .greaterEqual => do
    let a ← Types.numberCoerce insts lv op
    let b ← Types.numberCoerce insts rv op
    .ok (.bool (F64.fle b a))
  | .less => do
    let a ← Types.numberCoerce insts lv op
    let b ← Types.numberCoerce insts rv op
    .ok (.bool (F64.flt a b))
  | .lessEqual => do
    let a ← Types.numberCoerce insts lv op
    let b ← Types.numberCoerce insts rv op
    .ok (.bool (F64.fle a b))
  | .equalEqual => .ok (.bool (rv.peq lv))
  | .bangEqual => .ok (.bool (!(rv.peq lv)))
  | _ => .error (.runtime op.line ("Bad binary operator: " ++ op.render))

mutual
/-- Interpreter::execute from src/interpreter.rs, one statement.  The fuel
decreases on every nested call; the Rust code has no such bound. -/
def execute : Nat → Interp → Stmt → Except Fail Unit × Interp
  | 0, st, _ => (.error .outOfFuel, st)
  | fuel + 1, st, stmt =>
    match stmt with
    | .sExpr e =>
      match evaluate fuel st e with
      | (.ok _, st') => (.ok (), st')
      | (.error err, st') => (.error err, st')
    | .sPrint e =>
      match evaluate fuel st e with
      | (.ok v, st') =>
        (.ok (), { st' with output := st'.output ++ [v.render st'.insts] })
      | (.error err, st') => (.error err, st')
    | .sVar name init =>
      match (match init with
             | some e => evaluate fuel st e
             | none => (.ok Types.nil, st)) with
      | (.ok v, st') =>
        match name.tok_typ with
        | .identifier n =>
          (.ok (), { st' with heap := Environment.define st'.heap st'.environment n v })
        | _ => (.error (.panicked "unreachable"), st')
      | (.error err, st') => (.error err, st')
    | .sBlock stmts =>
      let prev := st.environment
      let child := st.heap.length
      let st1 := { st with heap := st.heap ++ [⟨[], some prev⟩], environment := child }
      match executeSeq fuel st1 stmts with
      | (out, st2) => (out, { st2 with environment := prev })
    | .sIf c t e =>
      match evaluate fuel st c with
      | (.ok v, st1) =>
        if v.is_truty then execute fuel st1 t
        else
          match e with
          | some b => execute fuel st1 b
          | none => (.ok (), st1)
      | (.error err, st1) => (.error err, st1)
    | .sWhile c b =>
      match evaluate fuel st c with
      | (.ok v, st1) =>
        if v.is_truty then
          match execute fuel st1 b with
          | (.ok _, st2) => execute fuel st2 (.sWhile c b)
          | (.error err, st2) => (.error err, st2)
        else (.ok (), st1)
      | (.error err, st1) => (.error err, st1)
    | .sFunction name params body =>
      let func := Types.callable (.mk name params body st.environment false)
      (.ok (), { st with heap := Environment.define st.heap st.environment name.lexeme func })
    | .sReturn _ value =>
      match value with
      | some e =>
        match evaluate fuel st e with
        | (.ok v, st1) => (.error (.lox (.returnError v)), st1)
        | (.error err, st1) => (.error err, st1)
      | none => (.error (.lox (.returnError .nil)), st)
    | .sClass name superclass methods =>
      let st0 := { st with heap := Environment.define st.heap st.environment name.lexeme .nil }
      match superclass with
      | none => classRest st0 name none methods
      | some scExpr =>
        match evaluate fuel st0 scExpr with
        | (.error err, st1) => (.error err, st1)
        | (.ok sc, st1) =>
          match sc with
          | .classV c =>
            let envRef := st1.heap.length
            let st2 := { st1 with heap := st1.heap ++ [⟨[("super", Types.classV c)], some st1.environment⟩], environment := envRef }
            classRest st2 name (some c) methods
          | _ => (.error (.runtime name.line "Superclass must be a class"), st1)

/-- The statement loop shared by Interpreter::interpret, the Stmt::Block arm
and Interpreter::execute_block: run statements in order, stopping at the
first failure. -/
def executeSeq : Nat → Interp → List Stmt → Except Fail Unit × Interp
  | 0, st, _ => (.error .outOfFuel, st)
  | _ + 1, st, [] => (.ok (), st)
  | fuel + 1, st, s :: rest =>
    match execute fuel st s with
    | (.ok _, st') => executeSeq fuel st' rest
    | (.error err, st') => (.error err, st')

/-- Interpreter::execute_block from src/interpreter.rs: swap in the given
environment, run the statements, and restore the previous environment on
both the success and the failure path. -/
def executeBlock : Nat → Interp → List Stmt → Nat → Except Fail Unit × Interp
  | 0, st, _, _ => (.error .outOfFuel, st)
  | fuel + 1, st, stmts, env =>
    let prev := st.environment
    match executeSeq fuel { st with environment := env } stmts with
    | (out, st') => (out, { st' with environment := prev })

/-- Interpreter::evaulate from src/interpreter.rs (the source spells it
that way), one expression. -/
def evaluate : Nat → Interp → Expr → Except Fail Types × Interp
  | 0, st, _ => (.error .outOfFuel, st)
  | fuel + 1, st, expr =>
    match expr with
    | .binary l op r =>
      match evaluate fuel st l with
      | (.error err, st1) => (.error err, st1)
      | (.ok lv, st1) =>
        match evaluate fuel st1 r with
        | (.error err, st2) => (.error err, st2)
        | (.ok rv, st2) => (evalBinary st2.insts lv op rv, st2)
    | .unary op r =>
      match evaluate fuel st r with
      | (.error err, st1) => (.error err, st1)
      | (.ok rv, st1) =>
        match op.tok_typ with
        | .minus =>
          match rv with
          | .number n => (.ok (.number n.fneg), st1)
          | _ =>
            (.error (.runtime op.line
              ("Cannot perform Unary operator `-` on " ++ rv.render st1.insts)), st1)
        | .bang => (.ok (.bool (!rv.is_truty)), st1)
        | _ =>
          (.error (.runtime op.line
            ("Bad Unary operator " ++ op.tok_typ.debugRender)), st1)
    | .grouping e => evaluate fuel st e
    | .literal v =>
      match v.tok_typ with
      | .str s => (.ok (.str s), st)
      | .number n => (.ok (.number (.num n)), st)
      | .kwFalse => (.ok (.bool false), st)
      | .kwTrue => (.ok (.bool true), st)
      | .kwNil => (.ok .nil, st)
      | _ => (.error (.runtime v.line ("Bad Token Literal: " ++ v.render)), st)
    | .variable name => (st.lookup_variable name (.variable name), st)
    | .assignment name value =>
      match evaluate fuel st value with
      | (.error err, st1) => (.error err, st1)
      | (.ok v, st1) =>
        match lookupVals st1.locals value.toStringR with
        | some dist =>
          match Environment.set_at st1.heap name v st1.environment dist with
          | .ok h => (.ok v, { st1 with heap := h })
          | .error err => (.error err, st1)
        | none =>
          match Environment.set st1.heap name v (st1.global_env + 1) st1.global_env with
          | .ok h => (.ok v, { st1 with heap := h })
          | .error err => (.error err, st1)
    | .logical l op r =>
      match evaluate fuel st l with
      | (.error err, st1) => (.error err, st1)
      | (.ok lv, st1) =>
        match op.tok_typ with
        | .kwOr => if lv.is_truty then (.ok lv, st1) else evaluate fuel st1 r
        | .kwAnd => if !lv.is_truty then (.ok lv, st1) else evaluate fuel st1 r
        | _ => (.error (.runtime op.line ("Bad operator: " ++ op.render)), st1)
    | .call callee paren arguments =>
      match evaluate fuel st callee with
      | (.error err, st1) => (.error err, st1)
      | (.ok cv, st1) =>
        match evalArgs fuel st1 arguments with
        | (.error err, st2) => (.error err, st2)
        | (.ok args, st2) =>
          match Types.callableCoerce st2.insts cv paren with
          | .error err => (.error err, st2)
          | .ok target =>
            if target.airity ≠ args.length then
              (.error (.runtime paren.line
                ("Expected " ++ toString target.airity ++ " arguments, but got "
                  ++ toString args.length)), st2)
            else callTarget fuel st2 target args
    | .get object name =>
      match evaluate fuel st object with
      | (.error err, st1) => (.error err, st1)
      | (.ok obj, st1) =>
        match obj with
        | .classInstance r => LoxClassInstance.get st1 r name
        | _ => (.error (.runtime name.line "Only instance have properties."), st1)
    | .set object name value =>
      match evaluate fuel st object with
      | (.error err, st1) => (.error err, st1)
      | (.ok obj, st1) =>
        match obj with
        | .classInstance r =>
          match evaluate fuel st1 value with
          | (.error err, st2) => (.error err, st2)
          | (.ok v, st2) => (.ok .nil, LoxClassInstance.set_property st2 r name v)
        | _ => (.error (.panicked "not yet implemented"), st1)
    | .thisE keyword => (st.lookup_variable keyword (.thisE keyword), st)
    | .superE keyword method =>
      match lookupVals st.locals (Expr.superE keyword method).toStringR with
      | none => (.error (.panicked "locals unwrap"), st)
      | some dist =>
        match Environment.get_at st.heap superToken st.environment dist with
        | .error err => (.error err, st)
        | .ok scv =>
          match scv with
          | .classV sc =>
            if dist = 0 then (.error (.panicked "usize underflow in dist - 1"), st)
            else
              match Environment.get_at st.heap thisToken st.environment (dist - 1) with
              | .error err => (.error err, st)
              | .ok thisv =>
                match sc.find_method method.lexeme with
                | some (.callable m) =>
                  let (bound, st1) := LoxFunction.bind st m thisv
                  (.ok bound, st1)
                | _ =>
                  (.error (.runtime method.line
                    ("Undefined property `" ++ method.lexeme ++ "`.")), st)
          | _ => (.error (.panicked "unreachable"), st)

/-- The argument loop of the Expr::Call arm: evaluate arguments left to
right, stopping at the first failure. -/
def evalArgs : Nat → Interp → List Expr → Except Fail (List Types) × Interp
  | 0, st, _ => (.error .outOfFuel, st)
  | _ + 1, st, [] => (.ok [], st)
  | fuel + 1, st, a :: rest =>
    match evaluate fuel st a with
    | (.error err, st1) => (.error err, st1)
    | (.ok v, st1) =>
      match evalArgs fuel st1 rest with
      | (.error err, st2) => (.error err, st2)
      | (.ok vs, st2) => (.ok (v :: vs), st2)

/-- Dispatch of Callable::call over the three callable variants; the native
arm is clock, which reads the modelled wall clock from the state. -/
def callTarget : Nat → Interp → CallTarget → List Types → Except Fail Types × Interp
  | 0, st, _, _ => (.error .outOfFuel, st)
  | fuel + 1, st, t, args =>
    match t with
    | .ctFunc f => callFunction fuel st f args
    | .ctClass c => callClass fuel st c args
    | .ctNative _ => (.ok (.number (.num st.clockNow)), st)

/-- LoxFunction::call from src/interpreter.rs: run the body in a fresh child
of the closure holding the arguments; intercept the Return signal; for an
initializer, a fall-through or a Nil return yields the closure's this at
depth 0, and a non-Nil return value is passed through as-is. -/
def callFunction : Nat → Interp → LoxFunction → List Types → Except Fail Types × Interp
  | 0, st, _, _ => (.error .outOfFuel, st)
  | fuel + 1, st, f, args =>
    let envRef := st.heap.length
    match bindParams f.params args [] with
    | .error err => (.error err, st)
    | .ok vals =>
      let st1 := { st with heap := st.heap ++ [⟨vals, some f.closure⟩] }
      match executeBlock fuel st1 f.body envRef with
      | (.error (.lox (.returnError typ)), st2) =>
        if f.is_initializer && typ.peq .nil then
          (Environment.get_at st2.heap thisToken f.closure 0, st2)
        else (.ok typ, st2)
      | (.error err, st2) => (.error err, st2)
      | (.ok _, st2) =>
        if f.is_initializer then
          (Environment.get_at st2.heap thisToken f.closure 0, st2)
        else (.ok .nil, st2)

/-- LoxClass::call from src/interpreter.rs: allocate a fresh instance; when
an init method exists on the chain, bind it to the instance and call it with
the arguments; otherwise the result is the instance. -/
def callClass : Nat → Interp → LoxClass → List Types → Except Fail Types × Interp
  | 0, st, _, _ => (.error .outOfFuel, st)
  | fuel + 1, st, c, args =>
    let (inst, st1) := LoxClass.new_instance st c
    match c.find_method "init" with
    | some (.callable initializer) =>
      let (bound, st2) := LoxFunction.bind st1 initializer inst
      match bound with
      | .callable b => callFunction fuel st2 b args
      | _ => (.error (.panicked "unreachable"), st2)
    | _ => (.ok inst, st1)
end

/-- Interpreter::interpret from src/interpreter.rs: execute the statements
in order, stopping at the first failure. -/
def interpret (fuel : Nat) (st : Interp) (stmts : List Stmt) :
    Except Fail Unit × Interp :=
  executeSeq fuel st stmts

/-- FunctionKind from src/resolver.rs. -/
inductive FunctionKind where
  | fNone | fFunction | fMethod | fInitializer
deriving DecidableEq, Repr

/-- ClassKind from src/resolver.rs. -/
inductive ClassKind where
  | cNone | cClass | cSubClass
deriving DecidableEq, Repr

/-- Resolver state from src/resolver.rs: the stack of block scopes (head is
the innermost), the two nesting kinds, and the interpreter's locals side
table that Interpreter::resolve writes into.  Resolver functions return the
new state on success only: an error aborts the whole resolution pass, after
which the state is never read again. -/
structure RState where
  scopes : List (List (String × Bool))
  function_kind : FunctionKind
  class_kind : ClassKind
  locals : List (String × Nat)

/-- Resolver::new over a fresh interpreter side table. -/
def RState.initial : RState := ⟨[], .fNone, .cNone, []⟩

/-- Resolver::begin_scope: push an empty innermost scope. -/
def Resolver.beginScope (st : RState) : RState :=
  { st with scopes := [] :: st.scopes }

/-- Resolver::end_scope: pop the innermost scope (Vec::pop is a no-op on an
empty stack). -/
def Resolver.endScope (st : RState) : RState :=
  { st with scopes := st.scopes.tail }

/-- Resolver::declare from src/resolver.rs: in the innermost scope insert
name -> false, failing when the scope already holds the name; with no open
scope (the global context) do nothing. -/
def Resolver.declare (st : RState) (name : Token) : Except Fail RState :=
  match st.scopes with
  | [] => .ok st
  | scope :: rest =>
    if (lookupVals scope name.lexeme).isSome then
      .error (.resolution name.line
        ("A variable with name `" ++ name.lexeme ++ "` already exists within this scope"))
    else
      .ok { st with scopes := insertVal scope name.lexeme false :: rest }

/-- Resolver::define from src/resolver.rs: flip the innermost entry to
true; with no open scope do nothing. -/
def Resolver.define (st : RState) (name : Token) : RState :=
  match st.scopes with
  | [] => st
  | scope :: rest => { st with scopes := insertVal scope name.lexeme true :: rest }

/-- Direct insert into the innermost scope (the scopes.last_mut().unwrap()
inserts of the Class arm); always called right after begin_scope, so the
stack is never empty there. -/
def scopeInsert (st : RState) (name : String) (b : Bool) : RState :=
  match st.scopes with
  | [] => st
  | scope :: rest => { st with scopes := insertVal scope name b :: rest }

/-- The loop of Resolver::resolve_local from src/resolver.rs: walk the
scopes from the innermost outward and, at EVERY scope containing the name,
record the depth for the expression via Interpreter::resolve — there is no
early return, so a later (outer) hit overwrites an earlier (inner) one in
the side table. -/
def resolveLocalGo (e : Expr) (lexeme : String) :
    List (List (String × Bool)) → Nat → List (String × Nat) → List (String × Nat)
  | [], _, locals => locals
  | scope :: rest, i, locals =>
    resolveLocalGo e lexeme rest (i + 1)
      (if (lookupVals scope lexeme).isSome then insertVal locals e.toStringR i else locals)

/-- Resolver::resolve_local from src/resolver.rs. -/
def Resolver.resolve_local (st : RState) (e : Expr) (name : Token) : RState :=
  { st with locals := resolveLocalGo e name.lexeme st.scopes 0 st.locals }

/-- The parameter loop of Resolver::resolve_function: declare and define
each parameter in the function's fresh scope. -/
def declareParams : RState → List Token → Except Fail RState
  | st, [] => .ok st
  | st, p :: rest => do
    let st1 ← Resolver.declare st p
    declareParams (Resolver.define st1 p) rest

mutual
/-- Resolver::resolve_stmt from src/resolver.rs. -/
def resolveStmt : Nat → RState → Stmt → Except Fail RState
  | 0, _, _ => .error .outOfFuel
  | fuel + 1, st, stmt =>
    match stmt with
    | .sFunction name params body => do
      let st1 ← Resolver.declare st name
      let st2 := Resolver.define st1 name
      resolveFunction fuel st2 params body .fFunction
    | .sExpr e => resolveExpr fuel st e
    | .sIf c t e => do
      let st1 ← resolveExpr fuel st c
      let st2 ← resolveStmt fuel st1 t
      match e with
      | some b => resolveStmt fuel st2 b
      | none => .ok st2
    | .sPrint e => resolveExpr fuel st e
    | .sReturn keyword value =>
      match st.function_kind with
      | .fNone =>
        .error (.resolution keyword.line "Can't return from top-level code.")
      | .fInitializer =>
        if value.isSome then
          .error (.resolution keyword.line "Cannot return a value from an initializer")
        else .ok st
      | _ =>
        match value with
        | some v => resolveExpr fuel st v
        | none => .ok st
    | .sWhile c b => do
      let st1 ← resolveExpr fuel st c
      resolveStmt fuel st1 b
    | .sVar name expr => do
      let st1 ← Resolver.declare st name
      let st2 ← (match expr with
                 | some init => resolveExpr fuel st1 init
                 | none => .ok st1)
      .ok (Resolver.define st2 name)
    | .sBlock stmts => do
      let st1 ← resolveStmts fuel (Resolver.beginScope st) stmts
      .ok (Resolver.endScope st1)
    | .sClass name superclass methods => do
      let enclosing := st.class_kind
      let st1 := { st with class_kind := .cClass }
      let st2 ← Resolver.declare st1 name
      let st3 := Resolver.define st2 name
      let st5 ← (match superclass with
        | none => .ok st3
        | some sc =>
          match sc with
          | .variable scName =>
            if name.lexeme = scName.lexeme then
              .error (.resolution name.line "A class can't inherit from itself.")
            else do
              let st4 ← resolveExpr fuel { st3 with class_kind := .cSubClass } sc
              .ok (scopeInsert (Resolver.beginScope st4) "super" true)
          | _ => .error (.panicked "unreachable"))
      let st6 := scopeInsert (Resolver.beginScope st5) "this" true
      let st7 ← resolveMethods fuel st6 methods
      let st8 := Resolver.endScope st7
      let st9 := if superclass.isSome then Resolver.endScope st8 else st8
      .ok { st9 with class_kind := enclosing }

/-- The statement loop of Resolver::resolve. -/
def resolveStmts : Nat → RState → List Stmt → Except Fail RState
  | 0, _, _ => .error .outOfFuel
  | _ + 1, st, [] => .ok st
  | fuel + 1, st, s :: rest => do
    let st1 ← resolveStmt fuel st s
    resolveStmts fuel st1 rest

/-- Resolver::resolve_expr from src/resolver.rs. -/
def resolveExpr : Nat → RState → Expr → Except Fail RState
  | 0, _, _ => .error .outOfFuel
  | fuel + 1, st, e =>
    match e with
    | .variable name =>
      match st.scopes.head? with
      | some scope =>
        match lookupVals scope name.lexeme with
        | some b =>
          if !b then
            .error (.resolution name.line "Can't read local var in it's own initializer")
          else .ok (Resolver.resolve_local st e name)
        | none => .ok (Resolver.resolve_local st e name)
      | none => .ok (Resolver.resolve_local st e name)
    | .assignment name value => do
      let st1 ← resolveExpr fuel st value
      .ok (Resolver.resolve_local st1 value name)
    | .binary l _ r => do
      let st1 ← resolveExpr fuel st l
      resolveExpr fuel st1 r
    | .logical l _ r => do
      let st1 ← resolveExpr fuel st l
      resolveExpr fuel st1 r
    | .call callee _ args => do
      let st1 ← resolveExpr fuel st callee
      resolveExprs fuel st1 args
    | .grouping g => resolveExpr fuel st g
    | .literal _ => .ok st
    | .unary _ r => resolveExpr fuel st r
    | .get obj _ => resolveExpr fuel st obj
    | .set obj _ v => do
      let st1 ← resolveExpr fuel st obj
      resolveExpr fuel st1 v
    | .thisE keyword =>
      match st.class_kind with
      | .cNone =>
        .error (.resolution keyword.line "Cannot use `this` outside of a class.")
      | _ => .ok (Resolver.resolve_local st e keyword)
    | .superE keyword _ =>
      match st.class_kind with
      | .cNone =>
        .error (.resolution keyword.line "Can't use `super` outside of a class.")
      | .cClass =>
        .error (.resolution keyword.line "Can't use `super` in a class with no superclass.")
      | .cSubClass => .ok (Resolver.resolve_local st e keyword)

/-- The argument loop of the Call arm of Resolver::resolve_expr. -/
def resolveExprs : Nat → RState → List Expr → Except Fail RState
  | 0, _, _ => .error .outOfFuel
  | _ + 1, st, [] => .ok st
  | fuel + 1, st, e :: rest => do
    let st1 ← resolveExpr fuel st e
    resolveExprs fuel st1 rest

/-- The method loop of the Class arm of Resolver::resolve_stmt: each method
resolves as an Initializer when named init and as a Method otherwise. -/
def resolveMethods : Nat → RState → List Stmt → Except Fail RState
  | 0, _, _ => .error .outOfFuel
  | _ + 1, st, [] => .ok st
  | fuel + 1, st, m :: rest =>
    match m with
    | .sFunction mname params body => do
      let kind := if mname.lexeme = "init" then FunctionKind.fInitializer else .fMethod
      let st1 ← resolveFunction fuel st params body kind
      resolveMethods fuel st1 rest
    | _ => .error (.panicked "unreachable")

/-- Resolver::resolve_function from src/resolver.rs: save the function
kind, open the parameter scope, resolve the body, close the scope and
restore the kind (the restoration is skipped when an inner step fails,
matching the source's early returns). -/
def resolveFunction : Nat → RState → List Token → List Stmt → FunctionKind →
    Except Fail RState
  | 0, _, _, _, _ => .error .outOfFuel
  | fuel + 1, st, params, body, kind => do
    let prev := st.function_kind
    let st1 := Resolver.beginScope { st with function_kind := kind }
    let st2 ← declareParams st1 params
    let st3 ← resolveStmts fuel st2 body
    let st4 := Resolver.endScope st3
    .ok { st4 with function_kind := prev }
end

/-- Resolver::resolve from src/resolver.rs, the whole pre-pass. -/
def Resolver.run (fuel : Nat) (st : RState) (stmts : List Stmt) :
    Except Fail RState :=
  resolveStmts fuel st stmts

/-- Parser state from src/parser.rs: the token vector and the cursor. -/
structure PState where
  tokens : List Token
  current : Nat
deriving DecidableEq, Repr

/-- Fallback token for out-of-range reads; the Rust indexing would panic,
but every token vector the scanner produces ends in EoF and the parser
never steps past it. -/
def dummyToken : Token := ⟨.eof, "", 0⟩

/-- Parser::is_at_end: the current token is EoF. -/
def PState.is_at_end (st : PState) : Bool :=
  match st.tokens.get? st.current with
  | some t => TokenType.peq t.tok_typ .eof
  | none => true

/-- Parser::peek. -/
def PState.peek (st : PState) : Token :=
  (st.tokens.get? st.current).getD dummyToken

/-- Parser::previous. -/
def PState.previous (st : PState) : Token :=
  (st.tokens.get? (st.current - 1)).getD dummyToken

/-- Parser::advance: step the cursor unless at end, and return the token
just passed. -/
def PState.advance (st : PState) : Token × PState :=
  let st' := if st.is_at_end then st else { st with current := st.current + 1 }
  (st'.previous, st')

/-- Parser::revert. -/
def PState.revert (st : PState) : PState := { st with current := st.current - 1 }

/-- Parser::check: kind-equality against the current token, false at end. -/
def PState.check (st : PState) (typ : TokenType) : Bool :=
  if st.is_at_end then false else TokenType.peq st.peek.tok_typ typ

/-- Parser::matches: advance past the first kind of the list that checks. -/
def PState.pmatches (st : PState) : List TokenType → Bool × PState
  | [] => (false, st)
  | typ :: rest =>
    if st.check typ then (true, (st.advance).2) else st.pmatches rest

/-- Parser computations: state-threading over PState where an error also
carries the cursor position, as Rust's &mut self does (panic-mode recovery
resumes from it). -/
abbrev PM (α : Type) : Type := EStateM Fail PState α

/-- Lift of PState.advance. -/
def pAdvanceM : PM Token := fun st =>
  let p := st.advance
  .ok p.1 p.2

/-- Lift of PState.pmatches. -/
def pMatchesM (types : List TokenType) : PM Bool := fun st =>
  let p := st.pmatches types
  .ok p.1 p.2

/-- Lift of PState.previous. -/
def pPreviousM : PM Token := fun st => .ok st.previous st

/-- Lift of PState.peek. -/
def pPeekM : PM Token := fun st => .ok st.peek st

/-- Lift of PState.check. -/
def pCheckM (typ : TokenType) : PM Bool := fun st => .ok (st.check typ) st

/-- Lift of PState.is_at_end. -/
def pAtEndM : PM Bool := fun st => .ok st.is_at_end st

/-- Lift of PState.revert. -/
def pRevertM : PM Unit := fun st => .ok () st.revert

/-- Failure with a single parser error, as LoxError::new_parser builds it. -/
def pFailM {α : Type} (line : Nat) (msg : String) : PM α := fun st =>
  .error (.parser line msg) st

/-- Parser::consume: advance past a token of the expected kind or fail with
a parser error at the previous token's line. -/
def pConsumeM (typ : TokenType) (msg : String) : PM Token := fun st =>
  if st.check typ then
    let p := st.advance
    .ok p.1 p.2
  else
    .error (.parser st.previous.line msg) st

/-- The assembly of the parsed for parts at the end of Parser::for_statement
(src/parser.rs lines 178-196): wrap the body with the increment when
present, with the While only when a condition is present (an absent
condition produces no loop at all), and with the initializer block when
present. -/
def forAssemble (initializer : Option Stmt) (condition : Option Expr)
    (increment : Option Expr) (body : Stmt) : Stmt :=
  let body1 :=
    match increment with
    | some inc => Stmt.sBlock [body, .sExpr inc]
    | none => body
  let body2 :=
    match condition with
    | some c => Stmt.sWhile c body1
    | none => body1
  match initializer with
  | some i => Stmt.sBlock [i, body2]
  | none => body2

/-- Parser::syncronize from src/parser.rs (panic-mode recovery): discard
tokens until just past a semicolon or at a statement-start keyword.  The
fuel is an embedding artifact; the Rust loop always terminates because it
advances or returns. -/
def pSynchronize : Nat → PState → PState
  | 0, st => st
  | fuel + 1, st =>
    if st.is_at_end then st
    else if TokenType.peq st.previous.tok_typ .semicolon then st
    else
      match st.peek.tok_typ with
      | .kwClass | .kwFun | .kwVar | .kwFor | .kwIf | .kwWhile | .kwPrint
      | .kwReturn => st
      | _ => pSynchronize fuel (st.advance).2

mutual
/-- Parser::declaration from src/parser.rs. -/
def pDeclaration : Nat → PM Stmt
  | 0 => fun st => .error .outOfFuel st
  | fuel + 1 => do
    if (← pMatchesM [.kwVar]) then pVarDeclaration fuel
    else if (← pMatchesM [.kwFun]) then pFunction fuel "function"
    else pStatement fuel

/-- Parser::function from src/parser.rs.  The final consume's message is the
source's plain (unformatted) string literal, braces and all. -/
def pFunction : Nat → String → PM Stmt
  | 0, _ => fun st => .error .outOfFuel st
  | fuel + 1, kind => do
    let name ← pConsumeM (.identifier "") ("Expected " ++ kind ++ " name.")
    let _ ← pConsumeM .leftParen ("Expected `(` after " ++ kind ++ " name.")
    let params ←
      (do if (← pCheckM .rightParen) then pure [] else pParamsLoop fuel [])
    let _ ← pConsumeM .rightParen "Expected `)` after parameters."
    let _ ← pConsumeM .leftBrace "Expected `\x7b` before \x7bkind\x7d body."
    let body ← pBlock fuel
    pure (.sFunction name params body)

/-- The parameter do-while of Parser::function: the 255 check precedes each
parameter, and the loop continues while a comma follows. -/
def pParamsLoop : Nat → List Token → PM (List Token)
  | 0, _ => fun st => .error .outOfFuel st
  | fuel + 1, params => do
    if params.length ≥ 255 then
      let tok ← pPeekM
      pFailM tok.line "Cannot have more than 255 parameters."
    else
      let pk ← pPeekM
      let p ← pConsumeM (.identifier "") ("Expected parameter name. Found " ++ pk.render)
      if (← pMatchesM [.comma]) then pParamsLoop fuel (params ++ [p])
      else pure (params ++ [p])

/-- Parser::var_declaration from src/parser.rs. -/
def pVarDeclaration : Nat → PM Stmt
  | 0 => fun st => .error .outOfFuel st
  | fuel + 1 => do
    let name ← pConsumeM (.identifier "") "Expected variable name"
    let exprOpt ←
      (do if (← pMatchesM [.equal]) then
            let e ← pExpression fuel
            pure (some e)
          else pure none)
    let _ ← pConsumeM .semicolon "Expected `;` after variable declaration"
    pure (.sVar name exprOpt)

/-- Parser::statement from src/parser.rs: dispatch on the advanced token,
reverting for an expression statement. -/
def pStatement : Nat → PM Stmt
  | 0 => fun st => .error .outOfFuel st
  | fuel + 1 => do
    let tok ← pAdvanceM
    match tok.tok_typ with
    | .kwPrint => pPrintStatement fuel
    | .kwReturn => pReturnStatement fuel
    | .leftBrace => do
      let stmts ← pBlock fuel
      pure (.sBlock stmts)
    | .kwIf => pIfStatement fuel
    | .kwWhile => pWhileStatement fuel
    | .kwFor => pForStatement fuel
    | _ => do
      pRevertM
      pExpressionStatement fuel

/-- Parser::return_statement from src/parser.rs. -/
def pReturnStatement : Nat → PM Stmt
  | 0 => fun st => .error .outOfFuel st
  | fuel + 1 => do
    let keyword ← pPreviousM
    let value ←
      (do if (← pCheckM .semicolon) then pure none
          else do
            let e ← pExpression fuel
            pure (some e))
    let _ ← pConsumeM .semicolon "Expect `;` after return value."
    pure (.sReturn keyword value)

/-- Parser::for_statement from src/parser.rs.  Note the increment clause:
the source checks for a semicolon (not the closing parenthesis) to decide
whether an increment is present, so an empty increment slot proceeds to
parse an expression at the rightParen and fails. -/
def pForStatement : Nat → PM Stmt
  | 0 => fun st => .error .outOfFuel st
  | fuel + 1 => do
    let _ ← pConsumeM .leftParen "Expected `(` after `for`."
    let tok ← pAdvanceM
    let initializer ←
      (match tok.tok_typ with
       | .semicolon => pure none
       | .kwVar => do
         let s ← pVarDeclaration fuel
         pure (some s)
       | _ => do
         pRevertM
         let s ← pExpressionStatement fuel
         pure (some s))
    let condition ←
      (do if (← pCheckM .semicolon) then pure none
          else do
            let e ← pExpression fuel
            pure (some e))
    let _ ← pConsumeM .semicolon "Expect `;` after loop condition."
    let increment ←
      (do if (← pCheckM .semicolon) then pure none
          else do
            let e ← pExpression fuel
            pure (some e))
    let _ ← pConsumeM .rightParen "Expect `)` after for clauses."
    let body ← pStatement fuel
    pure (forAssemble initializer condition increment body)

/-- Parser::while_statement from src/parser.rs. -/
def pWhileStatement : Nat → PM Stmt
  | 0 => fun st => .error .outOfFuel st
  | fuel + 1 => do
    let _ ← pConsumeM .leftParen "Expected `(` after `while`."
    let condition ← pExpression fuel
    let _ ← pConsumeM .rightParen "Expected `)` after condition"
    let body ← pStatement fuel
    pure (.sWhile condition body)

/-- Parser::if_statement from src/parser.rs. -/
def pIfStatement : Nat → PM Stmt
  | 0 => fun st => .error .outOfFuel st
  | fuel + 1 => do
    let _ ← pConsumeM .leftParen "Expected `(` after `if`."
    let condition ← pExpression fuel
    let _ ← pConsumeM .rightParen "Expected `)` after if condition."
    let then_branch ← pStatement fuel
    let else_branch ←
      (do if (← pMatchesM [.kwElse]) then
            let b ← pStatement fuel
            pure (some b)
          else pure none)
    pure (.sIf condition then_branch else_branch)

/-- Parser::print_statement from src/parser.rs. -/
def pPrintStatement : Nat → PM Stmt
  | 0 => fun st => .error .outOfFuel st
  | fuel + 1 => do
    let e ← pExpression fuel
    let _ ← pConsumeM .semicolon "Expected `;` after value."
    pure (.sPrint e)

/-- Parser::block from src/parser.rs. -/
def pBlock : Nat → PM (List Stmt)
  | 0 => fun st => .error .outOfFuel st
  | fuel + 1 => do
    if !(← pCheckM .rightBrace) && !(← pAtEndM) then
      let s ← pDeclaration fuel
      let rest ← pBlock fuel
      pure (s :: rest)
    else do
      let _ ← pConsumeM .rightBrace "Expected `\x7d` at end of block."
      pure []

/-- Parser::expression_statement from src/parser.rs. -/
def pExpressionStatement : Nat → PM Stmt
  | 0 => fun st => .error .outOfFuel st
  | fuel + 1 => do
    let e ← pExpression fuel
    let _ ← pConsumeM .semicolon "Expected `;` after expression."
    pure (.sExpr e)

/-- Parser::expression from src/parser.rs. -/
def pExpression : Nat → PM Expr
  | 0 => fun st => .error .outOfFuel st
  | fuel + 1 => pAssignment fuel

/-- Parser::assignment from src/parser.rs: parse an or-expression; when an
equal sign follows, parse the right side recursively and re-interpret the
left side — only a Variable becomes an Assignment, every other left side
fails with a parser error at the equal token's line (there is no Get-to-Set
arm in this source). -/
def pAssignment : Nat → PM Expr
  | 0 => fun st => .error .outOfFuel st
  | fuel + 1 => do
    let expr ← pOr fuel
    if (← pMatchesM [.equal]) then do
      let equals ← pPreviousM
      let rhs ← pAssignment fuel
      match expr with
      | .variable name => pure (.assignment name rhs)
      | _ => pFailM equals.line ("Invalid assignment target: " ++ expr.toStringR)
    else
      pure expr

/-- Parser::or from src/parser.rs. -/
def pOr : Nat → PM Expr
  | 0 => fun st => .error .outOfFuel st
  | fuel + 1 => do
    let e ← pAnd fuel
    pOrLoop fuel e

/-- The operator loop of Parser::or. -/
def pOrLoop : Nat → Expr → PM Expr
  | 0, _ => fun st => .error .outOfFuel st
  | fuel + 1, expr => do
    if (← pMatchesM [.kwOr]) then
      let op ← pPreviousM
      let right ← pAnd fuel
      pOrLoop fuel (.logical expr op right)
    else pure expr

/-- Parser::and from src/parser.rs. -/
def pAnd : Nat → PM Expr
  | 0 => fun st => .error .outOfFuel st
  | fuel + 1 => do
    let e ← pEquality fuel
    pAndLoop fuel e

/-- The operator loop of Parser::and. -/
def pAndLoop : Nat → Expr → PM Expr
  | 0, _ => fun st => .error .outOfFuel st
  | fuel + 1, expr => do
    if (← pMatchesM [.kwAnd]) then
      let op ← pPreviousM
      let right ← pEquality fuel
      pAndLoop fuel (.logical expr op right)
    else pure expr

/-- Parser::equality from src/parser.rs. -/
def pEquality : Nat → PM Expr
  | 0 => fun st => .error .outOfFuel st
  | fuel + 1 => do
    let e ← pComparison fuel
    pEqualityLoop fuel e

/-- The operator loop of Parser::equality. -/
def pEqualityLoop : Nat → Expr → PM Expr
  | 0, _ => fun st => .error .outOfFuel st
  | fuel + 1, expr => do
    if (← pMatchesM [.bangEqual, .equalEqual]) then
      let op ← pPreviousM
      let right ← pComparison fuel
      pEqualityLoop fuel (.binary expr op right)
    else pure expr

/-- Parser::comparison from src/parser.rs. -/
def pComparison : Nat → PM Expr
  | 0 => fun st => .error .outOfFuel st
  | fuel + 1 => do
    let e ← pTerm fuel
    pComparisonLoop fuel e

/-- The operator loop of Parser::comparison. -/
def pComparisonLoop : Nat → Expr → PM Expr
  | 0, _ => fun st => .error .outOfFuel st
  | fuel + 1, expr => do
    if (← pMatchesM [.greater, .greaterEqual, .less, .lessEqual]) then
      let op ← pPreviousM
      let right ← pTerm fuel
      pComparisonLoop fuel (.binary expr op right)
    else pure expr

/-- Parser::term from src/parser.rs. -/
def pTerm : Nat → PM Expr
  | 0 => fun st => .error .outOfFuel st
  | fuel + 1 => do
    let e ← pFactor fuel
    pTermLoop fuel e

/-- The operator loop of Parser::term. -/
def pTermLoop : Nat → Expr → PM Expr
  | 0, _ => fun st => .error .outOfFuel st
  | fuel + 1, expr => do
    if (← pMatchesM [.minus, .plus]) then
      let op ← pPreviousM
      let right ← pFactor fuel
      pTermLoop fuel (.binary expr op right)
    else pure expr

/-- Parser::factor from src/parser.rs. -/
def pFactor : Nat → PM Expr
  | 0 => fun st => .error .outOfFuel st
  | fuel + 1 => do
    let e ← pUnary fuel
    pFactorLoop fuel e

/-- The operator loop of Parser::factor. -/
def pFactorLoop : Nat → Expr → PM Expr
  | 0, _ => fun st => .error .outOfFuel st
  | fuel + 1, expr => do
    if (← pMatchesM [.slash, .star]) then
      let op ← pPreviousM
      let right ← pUnary fuel
      pFactorLoop fuel (.binary expr op right)
    else pure expr

/-- Parser::unary from src/parser.rs. -/
def pUnary : Nat → PM Expr
  | 0 => fun st => .error .outOfFuel st
  | fuel + 1 => do
    if (← pMatchesM [.bang, .minus]) then
      let op ← pPreviousM
      let right ← pUnary fuel
      pure (.unary op right)
    else pCall fuel

/-- Parser::call from src/parser.rs: a primary followed by any number of
argument lists.  There is no Dot arm: property access is not parsed. -/
def pCall : Nat → PM Expr
  | 0 => fun st => .error .outOfFuel st
  | fuel + 1 => do
    let e ← pPrimary fuel
    pCallLoop fuel e

/-- The chaining loop of Parser::call: only a left parenthesis continues
the chain. -/
def pCallLoop : Nat → Expr → PM Expr
  | 0, _ => fun st => .error .outOfFuel st
  | fuel + 1, expr => do
    if (← pMatchesM [.leftParen]) then
      let e2 ← pFinishCall fuel expr
      pCallLoop fuel e2
    else pure expr

/-- Parser::finish_call from src/parser.rs. -/
def pFinishCall : Nat → Expr → PM Expr
  | 0, _ => fun st => .error .outOfFuel st
  | fuel + 1, callee => do
    let args ←
      (do if (← pCheckM .rightParen) then pure [] else pArgsLoop fuel [])
    let paren ← pConsumeM .rightParen "Expected `)` after arguments."
    pure (.call callee paren args)

/-- The argument do-while of Parser::finish_call (the source spells the
255-limit message with three n's). -/
def pArgsLoop : Nat → List Expr → PM (List Expr)
  | 0, _ => fun st => .error .outOfFuel st
  | fuel + 1, args => do
    if args.length ≥ 255 then
      let tok ← pPeekM
      pFailM tok.line "Cannnot have more than 255 arguments"
    else
      let e ← pExpression fuel
      if (← pMatchesM [.comma]) then pArgsLoop fuel (args ++ [e])
      else pure (args ++ [e])

/-- Parser::primary from src/parser.rs: literals, a parenthesized grouping,
or a variable; no this, super, or other token is accepted. -/
def pPrimary : Nat → PM Expr
  | 0 => fun st => .error .outOfFuel st
  | fuel + 1 => do
    let tok ← pAdvanceM
    match tok.tok_typ with
    | .kwFalse | .kwTrue | .kwNil | .number _ | .str _ => pure (.literal tok)
    | .leftParen => do
      let e ← pExpression fuel
      let _ ← pConsumeM .rightParen "Expected `)` after expression"
      pure (.grouping e)
    | .identifier _ => pure (.variable tok)
    | _ => pFailM tok.line ("Unexpected Token: " ++ tok.render)
end

/-- The main loop of Parser::parse: collect declarations; a ParserErrors
failure is accumulated and recovery synchronizes; any other failure aborts;
at the end the collected errors, if any, fail together. -/
def pParseLoop : Nat → List Stmt → List LoxErrorContainer → PM (List Stmt)
  | 0, _, _ => fun st => .error .outOfFuel st
  | fuel + 1, stmts, errors => fun st =>
    if st.is_at_end then
      if errors.length > 0 then .error (.lox (.parserErrors errors)) st
      else .ok stmts st
    else
      match pDeclaration fuel st with
      | .ok s st1 => pParseLoop fuel (stmts ++ [s]) errors st1
      | .error (.lox (.parserErrors es)) st1 =>
        pParseLoop fuel stmts (errors ++ es) (pSynchronize fuel st1)
      | .error e st1 => .error e st1

/-- Parser::parse from src/parser.rs over a fresh parser (Parser::new). -/
def Parser.parse (fuel : Nat) (tokens : List Token) : Except Fail (List Stmt) :=
  match pParseLoop fuel [] [] ⟨tokens, 0⟩ with
  | .ok stmts _ => .ok stmts
  | .error e _ => .error e

/-- Scanner state from src/scanner.rs. -/
structure SState where
  source : List Char
  tokens : List Token
  start : Nat
  current : Nat
  line : Nat

/-- Scanner::is_at_end. -/
def SState.s_at_end (st : SState) : Bool := decide (st.current ≥ st.source.length)

/-- Scanner::advance: read the current character and step past it (the
Rust unwrap cannot fail because every call is guarded by is_at_end). -/
def SState.advanceS (st : SState) : Char × SState :=
  ((st.source.get? st.current).getD '\x00', { st with current := st.current + 1 })

/-- The substring(start, current) slices of src/scanner.rs. -/
def substringS (cs : List Char) (a b : Nat) : String := String.mk ((cs.drop a).take (b - a))

/-- Scanner::add_token: push a token carrying the current lexeme slice. -/
def SState.add_token (st : SState) (typ : TokenType) : SState :=
  { st with tokens := st.tokens ++ [⟨typ, substringS st.source st.start st.current, st.line⟩] }

/-- Scanner::matches. -/
def SState.matchesS (st : SState) (expected : Char) : Bool × SState :=
  if st.s_at_end then (false, st)
  else if (st.source.get? st.current).getD '\x00' ≠ expected then (false, st)
  else (true, { st with current := st.current + 1 })

/-- Scanner::peek with offset; out of range yields the NUL sentinel exactly
as the source's unwrap_or. -/
def SState.peekS (st : SState) (offset : Nat) : Char :=
  (st.source.get? (st.current + offset)).getD '\x00'

/-- The line-comment loop of Scanner::scan_token. -/
def commentLoop : Nat → SState → SState
  | 0, st => st
  | fuel + 1, st =>
    if st.peekS 0 ≠ '\n' && !st.s_at_end then commentLoop fuel (st.advanceS).2 else st

/-- The body loop of Scanner::string: consume up to the closing quote,
counting newlines. -/
def stringLoop : Nat → SState → SState
  | 0, st => st
  | fuel + 1, st =>
    if st.peekS 0 ≠ '"' && !st.s_at_end then
      let st1 := if st.peekS 0 = '\n' then { st with line := st.line + 1 } else st
      stringLoop fuel (st1.advanceS).2
    else st

/-- Scanner::string from src/scanner.rs: an unterminated literal is a
scanner error at the line reached; otherwise the token's payload drops the
quotes while its lexeme keeps them. -/
def scanString (fuel : Nat) (st : SState) : Except Fail SState :=
  let st1 := stringLoop fuel st
  if st1.s_at_end then .error (.lox (.scannerError ⟨st1.line, "Unterminated String"⟩))
  else
    let st2 := (st1.advanceS).2
    .ok { st2 with tokens := st2.tokens ++ [⟨.str (substringS st2.source (st2.start + 1) (st2.current - 1)), substringS st2.source st2.start st2.current, st2.line⟩] }

/-- The digit loops of Scanner::number. -/
def digitsLoop : Nat → SState → SState
  | 0, st => st
  | fuel + 1, st =>
    if (st.peekS 0).isDigit then digitsLoop fuel (st.advanceS).2 else st

/-- Accumulator for a digit run's value. -/
def digitsVal : List Char → Nat → Nat
  | [], acc => acc
  | c :: rest, acc => digitsVal rest (acc * 10 + (c.toNat - 48))

/-- The numeric value of a scanned literal (digits with an optional
fraction), exact where Rust's parse::<f64> rounds to the nearest double;
the parse failure branch of Scanner::number is unreachable for slices of
this shape and is not modelled. -/
def parseRatNum (cs : List Char) : Rat :=
  let intPart := cs.takeWhile Char.isDigit
  let rest := cs.dropWhile Char.isDigit
  match rest with
  | '.' :: frac =>
    (digitsVal intPart 0 : Rat) + (digitsVal frac 0 : Rat) / ((10 : Rat) ^ frac.length)
  | _ => (digitsVal intPart 0 : Rat)

/-- Scanner::number from src/scanner.rs. -/
def scanNumber (fuel : Nat) (st : SState) : SState :=
  let st1 := digitsLoop fuel st
  let st2 :=
    if st1.peekS 0 = '.' && (st1.peekS 1).isDigit then digitsLoop fuel (st1.advanceS).2
    else st1
  st2.add_token (.number (parseRatNum ((st2.source.drop st2.start).take (st2.current - st2.start))))

/-- Token::keywords from src/tokens.rs: the 16 reserved words. -/
def keywordLookup : String → Option TokenType
  | "and" => some .kwAnd
  | "class" => some .kwClass
  | "else" => some .kwElse
  | "false" => some .kwFalse
  | "fun" => some .kwFun
  | "for" => some .kwFor
  | "if" => some .kwIf
  | "nil" => some .kwNil
  | "or" => some .kwOr
  | "print" => some .kwPrint
  | "return" => some .kwReturn
  | "super" => some .kwSuper
  | "this" => some .kwThis
  | "true" => some .kwTrue
  | "var" => some .kwVar
  | "while" => some .kwWhile
  | _ => none

/-- The identifier loop of Scanner::identifier (alphanumeric or
underscore). -/
def identLoop : Nat → SState → SState
  | 0, st => st
  | fuel + 1, st =>
    if (st.peekS 0).isAlphanum || st.peekS 0 = '_' then identLoop fuel (st.advanceS).2
    else st

/-- Scanner::identifier from src/scanner.rs. -/
def scanIdentifier (fuel : Nat) (st : SState) : SState :=
  let st1 := identLoop fuel st
  let ident := substringS st1.source st1.start st1.current
  match keywordLookup ident with
  | some kw => st1.add_token kw
  | none => st1.add_token (.identifier ident)

/-- Scanner::scan_token from src/scanner.rs.  The source signals errors
through its era's Vec<LoxError> channel with code ScannerError; they are
modelled as the scannerError variant of src/error.rs.  Rust's Unicode
char::is_alphabetic is narrowed to ASCII letters. -/
def scanToken (fuel : Nat) (st : SState) : Except Fail SState :=
  let (c, st1) := st.advanceS
  match c with
  | '(' => .ok (st1.add_token .leftParen)
  | ')' => .ok (st1.add_token .rightParen)
  | '{' => .ok (st1.add_token .leftBrace)
  | '}' => .ok (st1.add_token .rightBrace)
  | ',' => .ok (st1.add_token .comma)
  | '.' => .ok (st1.add_token .dot)
  | '-' => .ok (st1.add_token .minus)
  | '+' => .ok (st1.add_token .plus)
  | ';' => .ok (st1.add_token .semicolon)
  | '*' => .ok (st1.add_token .star)
  | '!' =>
    let (m, st2) := st1.matchesS '='
    .ok (st2.add_token (if m then .bangEqual else .bang))
  | '=' =>
    let (m, st2) := st1.matchesS '='
    .ok (st2.add_token (if m then .equalEqual else .equal))
  | '<' =>
    let (m, st2) := st1.matchesS '='
    .ok (st2.add_token (if m then .lessEqual else .less))
  | '>' =>
    let (m, st2) := st1.matchesS '='
    .ok (st2.add_token (if m then .greaterEqual else .greater))
  | '/' =>
    let (m, st2) := st1.matchesS '/'
    if m then .ok (commentLoop fuel st2) else .ok (st2.add_token .slash)
  | ' ' => .ok st1
  | '\t' => .ok st1
  | '\r' => .ok st1
  | '\n' => .ok { st1 with line := st1.line + 1 }
  | '"' => scanString fuel st1
  | c =>
    if c.isDigit then .ok (scanNumber fuel st1)
    else if c.isAlpha then .ok (scanIdentifier fuel st1)
    else
      .error (.lox (.scannerError
        ⟨st1.line, "Unexpected character `" ++ String.mk [c] ++ "`"⟩))

/-- The main loop of Scanner::scan_tokens. -/
def scanLoop : Nat → SState → Except Fail SState
  | 0, _ => .error .outOfFuel
  | fuel + 1, st =>
    if !st.s_at_end then
      match scanToken fuel { st with start := st.current } with
      | .ok st1 => scanLoop fuel st1
      | .error e => .error e
    else .ok st

/-- Scanner::scan_tokens from src/scanner.rs over Scanner::new: scan every
lexeme and append the final EoF token. -/
def Scanner.scan_tokens (fuel : Nat) (source : String) : Except Fail (List Token) :=
  match scanLoop fuel ⟨source.data, [], 0, 0, 1⟩ with
  | .ok st => .ok (st.tokens ++ [⟨.eof, "", st.line⟩])
  | .error e => .error e

/-- The driver from src/main.rs: Lox::run scans and parses the source and
prints the tree; Lox::run_file converts any failure into a String error and
fn main exits 1 on it, 0 otherwise.  Neither the resolver nor the
interpreter is invoked, and LoxError::exit (the per-phase code) is never
called.  The snapshot's main.rs does not compile against the other modules
(its error types and module list are from an earlier stage); the embedding
keeps its visible control flow: every failure, of either phase, exits 1. -/
def mainExitCode (fuel : Nat) (source : String) : Nat :=
  match Scanner.scan_tokens fuel source with
  | .error _ => 1
  | .ok tokens =>
    match Parser.parse fuel tokens with
    | .error _ => 1
    | .ok _ => 0

/-! Theorems about the embedded definitions. -/

/-- Method used in the C1 inheritance demonstration. -/
def c1Method : LoxFunction := .mk ⟨.identifier "method", "method", 1⟩ [] [] 0 false

/-- Class A with one method, for the C1 demonstration. -/
def c1ClassA : LoxClass := .mk "A" [("method", .callable c1Method)] none

/-- Class B inheriting from A and declaring no method of its own. -/
def c1ClassB : LoxClass := .mk "B" [] (some c1ClassA)

/-- State holding one instance of B. -/
def c1State : Interp := { Interp.new 0 with insts := [⟨c1ClassB, []⟩] }

/-- The property token of the C1 access. -/
def c1Field : Token := ⟨.identifier "method", "method", 5⟩

/-- Claim C1: reading obj.method on an instance of B, where the field map is
empty and method is declared only on the superclass A, is claimed to walk
the superclass chain and return the method bound to obj.  The embedded
LoxClassInstance::get instead consults only B's own method table and fails
with the doesn't-have-a-field runtime error, even though find_method — which
the same file uses for init and super lookups — does find the method on the
chain. -/
theorem c1_get_ignores_superclass_chain :
    LoxClassInstance.get c1State 0 c1Field =
      (.error (.runtime 5 "Instance of <class B> doesn't have a field `method`"), c1State)
    ∧ c1ClassB.find_method "method" = some (.callable c1Method) := by
  exact ⟨rfl, rfl⟩

/-- The token of the variable a in the C3 demonstration. -/
def c3aTok : Token := ⟨.identifier "a", "a", 1⟩

/-- The C3 program: a block declaring a = 1, containing a block declaring
a = 2 and printing a.  The inner (innermost-declaring) scope is at depth 0
from the print site; Lox semantics require printing 2. -/
def c3Program : List Stmt :=
  [.sBlock [.sVar c3aTok (some (.literal ⟨.number 1, "1", 1⟩)),
            .sBlock [.sVar c3aTok (some (.literal ⟨.number 2, "2", 1⟩)),
                     .sPrint (.variable c3aTok)]]]

/-- The side table the resolver produces for c3Program, installed in a fresh
interpreter. -/
def c3Interp : Interp :=
  { Interp.new 0 with locals := [("Identifier(\"a\")", 1), ("Identifier(\"a\")", 0)] }

/-- Claim C3: the resolver is claimed to record, for each use site, the
depth of the innermost enclosing scope declaring the name.  On c3Program the
print site's innermost declaring scope is the inner block (depth 0), but
resolve_local walks every scope with no early return and each outer hit
overwrites the table entry: the final entry for the a-site key is depth 1
(the outermost declaring scope).  Running the program under that table
prints the outer value 1 where Lox scoping requires 2. -/
theorem c3_resolver_records_outermost_depth :
    Resolver.run 99 RState.initial c3Program =
      .ok ⟨[], .fNone, .cNone, [("Identifier(\"a\")", 1), ("Identifier(\"a\")", 0)]⟩
    ∧ lookupVals [("Identifier(\"a\")", 1), ("Identifier(\"a\")", 0)] "Identifier(\"a\")" = some 1
    ∧ (interpret 99 c3Interp c3Program).1 = .ok ()
    ∧ (interpret 99 c3Interp c3Program).2.output = ["1"] := by
  exact ⟨rfl, rfl, rfl, rfl⟩

/-- Heap for the C4 counterexample: frame 0 holds x, frame 1 (empty) has
parent 0, frame 2 has parent 1. -/
def c4Heap : List EnvFrame :=
  [⟨[("x", .number (.num 1))], none⟩, ⟨[], some 0⟩, ⟨[], some 1⟩]

/-- The token of the C4 lookups. -/
def c4xTok : Token := ⟨.identifier "x", "x", 1⟩

/-- Claim C4 counterexample: get_at from frame 2 at depth 1 lands on frame
1, which does not contain x; the claim says the operation is frame-local and
must fail there, but the embedded get_at delegates to the chained get and
succeeds with the value of x found in frame 1's parent. -/
theorem c4_counterexample :
    ancestorRef c4Heap 2 1 = some 1
    ∧ (c4Heap.get? 1).map (fun f => lookupVals f.values "x") = some none
    ∧ Environment.get_at c4Heap c4xTok 2 1 = .ok (.number (.num 1))
    ∧ Environment.set_at c4Heap c4xTok (.number (.num 9)) 2 1 =
        .ok [⟨[("x", .number (.num 9)), ("x", .number (.num 1))], none⟩, ⟨[], some 0⟩, ⟨[], some 1⟩] := by
  exact ⟨rfl, rfl, rfl, rfl⟩

/-- Claim C4 amended: get_at and set_at skip exactly depth parent links
(depth 0 is the current frame) and then run the frame's chained get/set,
which continues into that frame's parents on miss and succeeds exactly when
some frame of the remaining chain holds the name. -/
theorem c4_amended :
    (∀ (h : List EnvFrame) (tok : Token) (ref : Nat),
      Environment.get_at h tok ref 0 = Environment.get h tok (ref + 1) ref)
    ∧ (∀ (h : List EnvFrame) (tok : Token) (d ref r : Nat),
        ancestorRef h ref d = some r →
        Environment.get_at h tok ref d = Environment.get h tok (r + 1) r)
    ∧ (∀ (h : List EnvFrame) (tok : Token) (v : Types) (d ref r : Nat),
        ancestorRef h ref d = some r →
        Environment.set_at h tok v ref d = Environment.set h tok v (r + 1) r)
    ∧ (∀ (h : List EnvFrame) (tok : Token) (fuel ref : Nat) (f : EnvFrame) (p : Nat),
        h.get? ref = some f → lookupVals f.values tok.lexeme = none → f.parent = some p →
        Environment.get h tok (fuel + 1) ref = Environment.get h tok fuel p)
    ∧ (∀ (h : List EnvFrame) (tok : Token) (fuel ref : Nat) (f : EnvFrame) (v : Types),
        h.get? ref = some f → lookupVals f.values tok.lexeme = some v →
        Environment.get h tok (fuel + 1) ref = .ok v) := by
  refine ⟨fun h tok ref => rfl, ?_, ?_, ?_, ?_⟩
  · intro h tok d
    induction d with
    | zero =>
      intro ref r ha
      simp only [ancestorRef, Option.some.injEq] at ha
      subst ha; rfl
    | succ d ih =>
      intro ref r ha
      simp only [ancestorRef] at ha
      simp only [Environment.get_at]
      split at ha
      · exact Option.noConfusion ha
      · split at ha
        · next p hp => exact ih p r ha
        · exact Option.noConfusion ha
  · intro h tok v d
    induction d with
    | zero =>
      intro ref r ha
      simp only [ancestorRef, Option.some.injEq] at ha
      subst ha; rfl
    | succ d ih =>
      intro ref r ha
      simp only [ancestorRef] at ha
      simp only [Environment.set_at]
      split at ha
      · exact Option.noConfusion ha
      · split at ha
        · next p hp => exact ih p r ha
        · exact Option.noConfusion ha
  · intro h tok fuel ref f p hf hl hp
    simp only [Environment.get, hf, hl, hp]
  · intro h tok fuel ref f v hf hl
    simp only [Environment.get, hf, hl]

/-- Witness for c4_amended at the c4 heap: skipping one link from frame 2
lands on frame 1 and the lookup equals the chained get from there, which
continues into frame 0 and finds x. -/
theorem c4_amended_witness :
    Environment.get_at c4Heap c4xTok 2 1 = Environment.get c4Heap c4xTok 2 1
    ∧ Environment.get c4Heap c4xTok 2 1 = Environment.get c4Heap c4xTok 1 0
    ∧ Environment.get c4Heap c4xTok 1 0 = .ok (.number (.num 1)) := by
  refine ⟨c4_amended.2.1 c4Heap c4xTok 1 2 1 rfl, ?_, ?_⟩
  · exact c4_amended.2.2.2.1 c4Heap c4xTok 1 1 ⟨[], some 0⟩ 0 rfl rfl rfl
  · exact c4_amended.2.2.2.2 c4Heap c4xTok 0 0 ⟨[("x", .number (.num 1))], none⟩
      (.number (.num 1)) rfl rfl

/-- Function value used in the C7 counterexample. -/
def c7Fn : LoxFunction := .mk ⟨.identifier "f", "f", 1⟩ [] [] 0 false

/-- Claim C7 counterexample: equality is claimed reflexive for every
non-NaN value including functions (by reference identity); the embedded
PartialEq sends every function pair — here a function compared with
itself — to the catch-all false arm. -/
theorem c7_counterexample :
    Types.peq (.callable c7Fn) (.callable c7Fn) = false := rfl

/-- Constructor discriminant of a runtime value (specification helper for
the cross-kind clause). -/
def Types.ctorIdx : Types → Nat
  | .number _ => 0
  | .str _ => 1
  | .bool _ => 2
  | .nativeFunc _ => 3
  | .callable _ => 4
  | .classV _ => 5
  | .classInstance _ => 6
  | .nil => 7

/-- Claim C7 amended: Lox value equality is symmetric for all pairs, false
across differing kinds, and reflexive for the non-NaN primitives (finite
numbers, infinities, strings, booleans, nil); function, class, instance and
native values fall into the catch-all arm and compare false against every
value, themselves included — there is no reference-identity equality. -/
theorem c7_amended :
    (∀ a b : Types, Types.peq a b = Types.peq b a)
    ∧ (∀ q : Rat, Types.peq (.number (.num q)) (.number (.num q)) = true)
    ∧ (∀ s : Bool, Types.peq (.number (.inf s)) (.number (.inf s)) = true)
    ∧ (∀ s : String, Types.peq (.str s) (.str s) = true)
    ∧ (∀ b : Bool, Types.peq (.bool b) (.bool b) = true)
    ∧ Types.peq .nil .nil = true
    ∧ Types.peq (.number .nan) (.number .nan) = false
    ∧ (∀ f : LoxFunction, Types.peq (.callable f) (.callable f) = false)
    ∧ (∀ c : LoxClass, Types.peq (.classV c) (.classV c) = false)
    ∧ (∀ r : Nat, Types.peq (.classInstance r) (.classInstance r) = false)
    ∧ (∀ i : Nat, Types.peq (.nativeFunc i) (.nativeFunc i) = false)
    ∧ (∀ a b : Types, Types.ctorIdx a ≠ Types.ctorIdx b → Types.peq a b = false) := by
  refine ⟨?_, ?_, ?_, ?_, ?_, rfl, rfl, fun f => rfl, fun c => rfl, fun r => rfl, fun i => rfl, ?_⟩
  · intro a b
    cases a <;> cases b <;> simp [Types.peq, F64.feq]
    case number.number n1 n2 => cases n1 <;> cases n2 <;> simp [F64.feq, eq_comm]
    case str.str s1 s2 => exact (by simp [eq_comm])
    case bool.bool b1 b2 => exact (by simp [eq_comm])
  · intro q; simp [Types.peq, F64.feq]
  · intro s; simp [Types.peq, F64.feq]
  · intro s; simp [Types.peq]
  · intro b; simp [Types.peq]
  · intro a b hne
    cases a <;> cases b <;> first
      | rfl
      | exact absurd rfl hne

/-- The token stream of the source text a.b = c; (as the scanner produces
it). -/
def c2Tokens : List Token :=
  [⟨.identifier "a", "a", 1⟩, ⟨.dot, ".", 1⟩, ⟨.identifier "b", "b", 1⟩,
   ⟨.equal, "=", 1⟩, ⟨.identifier "c", "c", 1⟩, ⟨.semicolon, ";", 1⟩, ⟨.eof, "", 1⟩]

/-- Claim C2 counterexample: the claim says a.b = c; parses into a Set
statement.  The embedded parser has no Dot handling in the call chain and
no Get-to-Set arm in assignment: the statement fails to parse — the
expression ends at the variable a and the expected-semicolon error is
reported. -/
theorem c2_counterexample :
    Scanner.scan_tokens 99 "a.b = c;" = .ok c2Tokens
    ∧ Parser.parse 99 c2Tokens =
        .error (.lox (.parserErrors [⟨1, "Expected `;` after expression."⟩])) := by
  exact ⟨rfl, rfl⟩

/-- Claim C2 amended: when a parsed call-precedence expression is followed
by an equal sign, only a Variable left side is re-interpreted (into an
Assignment); every other left side is a parser error at the equal token's
line whose message renders the expression — there is no Get-to-Set
re-interpretation, and the call level chains only parenthesized argument
lists (a primary not followed by a left parenthesis is returned as-is, so
property access never parses and a.b = c; is a parse error). -/
theorem c2_amended :
    (∀ (fuel : Nat) (st st1 st3 : PState) (name : Token) (rhs : Expr),
      pOr fuel st = .ok (.variable name) st1 →
      st1.check .equal = true →
      pAssignment fuel (st1.advance).2 = .ok rhs st3 →
      pAssignment (fuel + 1) st = .ok (.assignment name rhs) st3)
    ∧ (∀ (fuel : Nat) (st st1 st3 : PState) (e rhs : Expr),
        pOr fuel st = .ok e st1 →
        (∀ nm, e ≠ .variable nm) →
        st1.check .equal = true →
        pAssignment fuel (st1.advance).2 = .ok rhs st3 →
        pAssignment (fuel + 1) st =
          .error (.parser ((st1.advance).2).previous.line
            ("Invalid assignment target: " ++ e.toStringR)) st3)
    ∧ (∀ (fuel : Nat) (st st1 : PState) (e : Expr),
        pOr fuel st = .ok e st1 →
        st1.check .equal = false →
        pAssignment (fuel + 1) st = .ok e st1)
    ∧ (∀ (fuel : Nat) (st st1 : PState) (e : Expr),
        pPrimary (fuel + 1) st = .ok e st1 →
        st1.check .leftParen = false →
        pCall (fuel + 2) st = .ok e st1) := by
  refine ⟨?_, ?_, ?_, ?_⟩
  · intro fuel st st1 st3 name rhs hor heq hrhs
    simp only [pAssignment, bind, EStateM.bind, hor, pMatchesM, PState.pmatches, heq,
      if_true, pPreviousM, hrhs, pure, EStateM.pure]
  · intro fuel st st1 st3 e rhs hor hnv heq hrhs
    simp only [pAssignment, bind, EStateM.bind, hor, pMatchesM, PState.pmatches, heq,
      if_true, pPreviousM, hrhs, pure, EStateM.pure, pFailM]
  · intro fuel st st1 e hor heq
    simp [pAssignment, bind, EStateM.bind, hor, pMatchesM, PState.pmatches, heq,
      pure, EStateM.pure]
  · intro fuel st st1 e hp heq
    simp [pCall, bind, EStateM.bind, hp, pCallLoop, pMatchesM, PState.pmatches, heq,
      pure, EStateM.pure]

/-- Token stream a = c; for the witness. -/
def c2w1 : List Token :=
  [⟨.identifier "a", "a", 1⟩, ⟨.equal, "=", 1⟩, ⟨.identifier "c", "c", 1⟩,
   ⟨.semicolon, ";", 1⟩, ⟨.eof, "", 1⟩]

/-- Token stream 1 = 2; (the equal on line 2) for the witness. -/
def c2w2 : List Token :=
  [⟨.number 1, "1", 1⟩, ⟨.equal, "=", 2⟩, ⟨.number 2, "2", 1⟩,
   ⟨.semicolon, ";", 1⟩, ⟨.eof, "", 1⟩]

/-- Token stream a; for the witness. -/
def c2w3 : List Token :=
  [⟨.identifier "a", "a", 1⟩, ⟨.semicolon, ";", 1⟩, ⟨.eof, "", 1⟩]

/-- Token stream a. for the witness. -/
def c2w4 : List Token :=
  [⟨.identifier "a", "a", 1⟩, ⟨.dot, ".", 1⟩, ⟨.eof, "", 1⟩]

/-- Witness for c2_amended on concrete token streams: a = c; rewrites into
an Assignment; 1 = 2; is the invalid-target parser error at the equal
token's line; a; stays a plain variable; and after the primary a with a dot
following, the call level returns the variable without consuming the dot. -/
theorem c2_amended_witness :
    pAssignment 30 ⟨c2w1, 0⟩ =
      .ok (.assignment ⟨.identifier "a", "a", 1⟩ (.variable ⟨.identifier "c", "c", 1⟩)) ⟨c2w1, 3⟩
    ∧ pAssignment 30 ⟨c2w2, 0⟩ =
      .error (.parser 2 "Invalid assignment target: Number(1)") ⟨c2w2, 3⟩
    ∧ pAssignment 30 ⟨c2w3, 0⟩ = .ok (.variable ⟨.identifier "a", "a", 1⟩) ⟨c2w3, 1⟩
    ∧ pCall 30 ⟨c2w4, 0⟩ = .ok (.variable ⟨.identifier "a", "a", 1⟩) ⟨c2w4, 1⟩ := by
  refine ⟨?_, ?_, ?_, ?_⟩
  · exact c2_amended.1 29 ⟨c2w1, 0⟩ ⟨c2w1, 1⟩ ⟨c2w1, 3⟩ ⟨.identifier "a", "a", 1⟩
      (.variable ⟨.identifier "c", "c", 1⟩) (by rfl) (by rfl) (by rfl)
  · exact c2_amended.2.1 29 ⟨c2w2, 0⟩ ⟨c2w2, 1⟩ ⟨c2w2, 3⟩ (.literal ⟨.number 1, "1", 1⟩)
      (.literal ⟨.number 2, "2", 1⟩) (by rfl) (fun nm h => Expr.noConfusion h) (by rfl) (by rfl)
  · exact c2_amended.2.2.1 29 ⟨c2w3, 0⟩ ⟨c2w3, 1⟩ (.variable ⟨.identifier "a", "a", 1⟩) (by rfl) (by rfl)
  · exact c2_amended.2.2.2 28 ⟨c2w4, 0⟩ ⟨c2w4, 1⟩ (.variable ⟨.identifier "a", "a", 1⟩) (by rfl) (by rfl)

mutual
/-- Whether a statement tree contains a While node anywhere (specification
helper for the C6 counterexample). -/
def stmtHasWhile : Stmt → Bool
  | .sWhile _ _ => true
  | .sBlock ss => stmtsHaveWhile ss
  | .sIf _ t e =>
    stmtHasWhile t || (match e with | some b => stmtHasWhile b | none => false)
  | .sFunction _ _ b => stmtsHaveWhile b
  | .sClass _ _ ms => stmtsHaveWhile ms
  | _ => false

/-- List version of stmtHasWhile. -/
def stmtsHaveWhile : List Stmt → Bool
  | [] => false
  | s :: rest => stmtHasWhile s || stmtsHaveWhile rest
end

/-- The token stream of for (;;1) print 2; (as the scanner produces it). -/
def c6Tokens : List Token :=
  [⟨.kwFor, "for", 1⟩, ⟨.leftParen, "(", 1⟩, ⟨.semicolon, ";", 1⟩,
   ⟨.semicolon, ";", 1⟩, ⟨.number 1, "1", 1⟩, ⟨.rightParen, ")", 1⟩,
   ⟨.kwPrint, "print", 1⟩, ⟨.number 2, "2", 1⟩, ⟨.semicolon, ";", 1⟩, ⟨.eof, "", 1⟩]

/-- The tree the parser actually produces for for (;;1) print 2;. -/
def c6Parsed : Stmt :=
  .sBlock [.sPrint (.literal ⟨.number 2, "2", 1⟩), .sExpr (.literal ⟨.number 1, "1", 1⟩)]

/-- Claim C6 counterexample: for a for statement with the condition omitted
the claim requires While(true, ...); the embedded parser instead drops the
While layer altogether — for (;;1) print 2; parses into a plain block that
runs the body once, with no While node anywhere in the tree. -/
theorem c6_counterexample :
    Scanner.scan_tokens 99 "for (;;1) print 2;" = .ok c6Tokens
    ∧ Parser.parse 99 c6Tokens = .ok [c6Parsed]
    ∧ stmtHasWhile c6Parsed = false := by
  exact ⟨rfl, rfl, rfl⟩

/-- The token stream of for (; true; ) print 1;. -/
def c6bTokens : List Token :=
  [⟨.kwFor, "for", 1⟩, ⟨.leftParen, "(", 1⟩, ⟨.semicolon, ";", 1⟩,
   ⟨.kwTrue, "true", 1⟩, ⟨.semicolon, ";", 1⟩, ⟨.rightParen, ")", 1⟩,
   ⟨.kwPrint, "print", 1⟩, ⟨.number 1, "1", 1⟩, ⟨.semicolon, ";", 1⟩, ⟨.eof, "", 1⟩]

/-- The token stream of for (var i = 0; i < 3; i = i + 1) print i; (the
spec's S4 scenario). -/
def c6S4Tokens : List Token :=
  [⟨.kwFor, "for", 1⟩, ⟨.leftParen, "(", 1⟩, ⟨.kwVar, "var", 1⟩,
   ⟨.identifier "i", "i", 1⟩, ⟨.equal, "=", 1⟩, ⟨.number 0, "0", 1⟩,
   ⟨.semicolon, ";", 1⟩, ⟨.identifier "i", "i", 1⟩, ⟨.less, "<", 1⟩,
   ⟨.number 3, "3", 1⟩, ⟨.semicolon, ";", 1⟩, ⟨.identifier "i", "i", 1⟩,
   ⟨.equal, "=", 1⟩, ⟨.identifier "i", "i", 1⟩, ⟨.plus, "+", 1⟩,
   ⟨.number 1, "1", 1⟩, ⟨.rightParen, ")", 1⟩, ⟨.kwPrint, "print", 1⟩,
   ⟨.identifier "i", "i", 1⟩, ⟨.semicolon, ";", 1⟩, ⟨.eof, "", 1⟩]

/-- The desugared tree of the S4 for statement. -/
def c6S4Parsed : Stmt :=
  .sBlock
    [.sVar ⟨.identifier "i", "i", 1⟩ (some (.literal ⟨.number 0, "0", 1⟩)),
     .sWhile (.binary (.variable ⟨.identifier "i", "i", 1⟩) ⟨.less, "<", 1⟩
                (.literal ⟨.number 3, "3", 1⟩))
       (.sBlock
         [.sPrint (.variable ⟨.identifier "i", "i", 1⟩),
          .sExpr (.assignment ⟨.identifier "i", "i", 1⟩
            (.binary (.variable ⟨.identifier "i", "i", 1⟩) ⟨.plus, "+", 1⟩
              (.literal ⟨.number 1, "1", 1⟩)))])]

/-- Claim C6 amended: with a condition present the for statement desugars
into Block(init?, While(cond, Block(body, Expression(incr)))) as claimed;
but an omitted condition produces no While node at all (no literal-true
default), and an omitted increment is itself a parse error, because the
parser tests the increment slot for a semicolon instead of the closing
parenthesis and then tries to parse an expression at the parenthesis. -/
theorem c6_amended :
    (∀ (i : Stmt) (c x : Expr) (b : Stmt),
      forAssemble (some i) (some c) (some x) b =
        .sBlock [i, .sWhile c (.sBlock [b, .sExpr x])])
    ∧ (∀ (c x : Expr) (b : Stmt),
        forAssemble none (some c) (some x) b = .sWhile c (.sBlock [b, .sExpr x]))
    ∧ (∀ (i : Stmt) (c : Expr) (b : Stmt),
        forAssemble (some i) (some c) none b = .sBlock [i, .sWhile c b])
    ∧ (∀ (i : Stmt) (x : Expr) (b : Stmt),
        forAssemble (some i) none (some x) b = .sBlock [i, .sBlock [b, .sExpr x]])
    ∧ (∀ (x : Expr) (b : Stmt),
        forAssemble none none (some x) b = .sBlock [b, .sExpr x])
    ∧ Parser.parse 99 c6S4Tokens = .ok [c6S4Parsed]
    ∧ Parser.parse 99 c6bTokens =
        .error (.lox (.parserErrors [⟨1, "Unexpected Token: RightParen"⟩])) := by
  exact ⟨fun i c x b => rfl, fun c x b => rfl, fun i c b => rfl, fun i x b => rfl,
    fun x b => rfl, rfl, rfl⟩

/-- The token stream of var; . -/
def c8Tokens : List Token :=
  [⟨.kwVar, "var", 1⟩, ⟨.semicolon, ";", 1⟩, ⟨.eof, "", 1⟩]

/-- Claim C8: LoxError::code does implement the claimed phase mapping —
scanner 1, parser 2, runtime 3, resolution 4 — but the driver in
src/main.rs never calls it: it runs only the scanner and the parser,
converts any failure into a generic error and exits 1.  On the source file
var; the parser fails with a ParserErrors whose code would be 2, yet the
process exit code is 1; runtime and resolution errors can never surface at
all. -/
theorem c8_exit_codes :
    (∀ e, LoxError.code (.scannerError e) = some 1)
    ∧ (∀ es, LoxError.code (.parserErrors es) = some 2)
    ∧ (∀ e, LoxError.code (.runtimeError e) = some 3)
    ∧ (∀ e, LoxError.code (.resolutionError e) = some 4)
    ∧ Scanner.scan_tokens 99 "var;" = .ok c8Tokens
    ∧ Parser.parse 99 c8Tokens =
        .error (.lox (.parserErrors [⟨1, "Expected variable name"⟩]))
    ∧ LoxError.code (.parserErrors [⟨1, "Expected variable name"⟩]) = some 2
    ∧ mainExitCode 99 "var;" = 1 := by
  exact ⟨fun e => rfl, fun es => rfl, fun e => rfl, fun e => rfl, rfl, rfl, rfl, rfl⟩

/-- Claim C9: evaluating a Set expression on an instance stores the value in
the instance's field map but yields Nil to the surrounding expression,
whereas an Assignment expression yields the assigned value. -/
theorem c9_set_yields_nil_assignment_yields_value :
    (∀ (fuel : Nat) (st : Interp) (o : Expr) (n : Token) (valE : Expr)
      (out : Types) (st' : Interp),
      evaluate (fuel + 1) st (.set o n valE) = (.ok out, st') → out = .nil)
    ∧ (∀ (fuel : Nat) (st : Interp) (nameTok : Token) (valE : Expr) (v : Types)
        (st1 : Interp) (w : Types) (st2 : Interp),
        evaluate fuel st valE = (.ok v, st1) →
        evaluate (fuel + 1) st (.assignment nameTok valE) = (.ok w, st2) →
        w = v) := by
  constructor
  · intro fuel st o n valE out st' h
    simp only [evaluate] at h
    split at h
    · exact absurd h (by simp)
    · split at h
      · split at h
        · exact absurd h (by simp)
        · simp only [Prod.mk.injEq] at h
          exact (Except.ok.inj h.1).symm
      · exact absurd h (by simp)
  · intro fuel st nameTok valE v st1 w st2 hv h
    simp only [evaluate, hv] at h
    split at h
    · split at h
      · simp only [Prod.mk.injEq] at h
        exact (Except.ok.inj h.1).symm
      · exact absurd h (by simp)
    · split at h
      · simp only [Prod.mk.injEq] at h
        exact (Except.ok.inj h.1).symm
      · exact absurd h (by simp)

/-- The init function of the C9 witness class. -/
def c9InitFn : LoxFunction := .mk ⟨.identifier "init", "init", 1⟩ [] [] 0 true

/-- The class of the C9 witness instance. -/
def c9Class : LoxClass := .mk "Foo" [("init", .callable c9InitFn)] none

/-- State for the C9 witness: one root frame binding obj to an instance and
x to 7. -/
def c9State : Interp :=
  { heap := [⟨[("obj", .classInstance 0), ("x", .number (.num 7))], none⟩]
    insts := [⟨c9Class, []⟩]
    global_env := 0
    environment := 0
    locals := []
    output := []
    clockNow := 0 }

/-- The Set expression obj.f = 9 of the C9 witness. -/
def c9SetExpr : Expr :=
  .set (.variable ⟨.identifier "obj", "obj", 1⟩) ⟨.identifier "f", "f", 1⟩
    (.literal ⟨.number 9, "9", 1⟩)

/-- The Assignment expression x = 9 of the C9 witness. -/
def c9AsgExpr : Expr :=
  .assignment ⟨.identifier "x", "x", 1⟩ (.literal ⟨.number 9, "9", 1⟩)

/-- State after the C9 Set: the field is stored, the expression stepped to
Nil. -/
def c9AfterSet : Interp :=
  { c9State with insts := [⟨c9Class, [("f", .number (.num 9))]⟩] }

/-- State after the C9 Assignment: the root frame's map gains the new
binding in front. -/
def c9AfterAsg : Interp :=
  { c9State with heap := [⟨[("x", .number (.num 9)), ("obj", .classInstance 0), ("x", .number (.num 7))], none⟩] }

/-- Witness for c9_set_yields_nil_assignment_yields_value: on the concrete
state, obj.f = 9 stores the field and evaluates to Nil, and x = 9 evaluates
to 9. -/
theorem c9_witness :
    evaluate 100 c9State c9SetExpr = (.ok .nil, c9AfterSet)
    ∧ Types.nil = Types.nil
    ∧ evaluate 99 c9State (.literal ⟨.number 9, "9", 1⟩) =
        (.ok (.number (.num 9)), c9State)
    ∧ evaluate 100 c9State c9AsgExpr = (.ok (.number (.num 9)), c9AfterAsg)
    ∧ Types.number (.num 9) = Types.number (.num 9) := by
  refine ⟨by rfl, ?_, by rfl, by rfl, ?_⟩
  · exact c9_set_yields_nil_assignment_yields_value.1 99 c9State
      (.variable ⟨.identifier "obj", "obj", 1⟩) ⟨.identifier "f", "f", 1⟩
      (.literal ⟨.number 9, "9", 1⟩) .nil c9AfterSet (by rfl)
  · exact c9_set_yields_nil_assignment_yields_value.2 99 c9State
      ⟨.identifier "x", "x", 1⟩ (.literal ⟨.number 9, "9", 1⟩)
      (.number (.num 9)) c9State (.number (.num 9)) c9AfterAsg (by rfl) (by rfl)

/-- The length of a list is unchanged by listModify. -/
theorem listModify_length {α : Type} (l : List α) (i : Nat) (f : α → α) :
    (listModify l i f).length = l.length := by
  unfold listModify
  split
  · exact List.length_set l i _
  · rfl

/-- Reading back the modified position of listModify. -/
theorem listModify_get_self {α : Type} (l : List α) (i : Nat) (f : α → α)
    (x : α) (hx : l.get? i = some x) :
    (listModify l i f).get? i = some (f x) := by
  unfold listModify
  rw [hx]
  rw [List.get?_eq_getElem?] at hx ⊢
  rw [List.getElem?_set_self', hx]
  rfl

/-- Reading back the key just inserted into the association-list map. -/
theorem lookupVals_insert {α : Type} (m : List (String × α)) (k : String) (v : α) :
    lookupVals (insertVal m k v) k = some v := by
  simp [insertVal, lookupVals]

/-- Claim C10: executing a class declaration whose superclass expression (a
Variable, the only shape the resolver admits) evaluates to a non-class value
fails with the superclass-must-be-a-class runtime error after the class
name was already defined as Nil in the current frame; the resulting state is
exactly the post-define state — the Nil binding stays in place, no super
frame was allocated (the heap length is unchanged) and the current
environment reference is untouched. -/
theorem c10_nonclass_superclass_error_keeps_nil_binding :
    ∀ (fuel : Nat) (st : Interp) (name scTok : Token) (ms : List Stmt) (v : Types),
      Interp.lookup_variable
          { st with heap := Environment.define st.heap st.environment name.lexeme Types.nil }
          scTok (.variable scTok) = .ok v →
      (∀ c, v ≠ .classV c) →
      st.environment < st.heap.length →
      execute (fuel + 2) st (.sClass name (some (.variable scTok)) ms) =
        (.error (.runtime name.line "Superclass must be a class"),
          { st with heap := Environment.define st.heap st.environment name.lexeme Types.nil })
      ∧ ((Environment.define st.heap st.environment name.lexeme Types.nil).get?
            st.environment).map (fun f => lookupVals f.values name.lexeme) =
          some (some Types.nil)
      ∧ (Environment.define st.heap st.environment name.lexeme Types.nil).length
          = st.heap.length := by
  intro fuel st name scTok ms v h1 h2 h3
  refine ⟨?_, ?_, listModify_length _ _ _⟩
  · simp only [execute, evaluate, h1]
  · obtain ⟨f, hf⟩ : ∃ f, st.heap.get? st.environment = some f := by
      rw [List.get?_eq_getElem?]
      exact Option.isSome_iff_exists.mp (by simp [h3])
    rw [Environment.define, listModify_get_self st.heap st.environment _ f hf]
    simp [lookupVals_insert]

/-- State for the C10 witness: a root frame binding NotAClass to a number. -/
def c10State : Interp :=
  { heap := [⟨[("NotAClass", .number (.num 1))], none⟩]
    insts := []
    global_env := 0
    environment := 0
    locals := []
    output := []
    clockNow := 0 }

/-- Witness for c10_nonclass_superclass_error_keeps_nil_binding: declaring
class D < NotAClass in the concrete state errors, leaves D bound to Nil in
the current frame and allocates nothing. -/
theorem c10_witness :
    execute 50 c10State
        (.sClass ⟨.identifier "D", "D", 3⟩ (some (.variable ⟨.identifier "NotAClass", "NotAClass", 3⟩)) []) =
      (.error (.runtime 3 "Superclass must be a class"),
        { c10State with heap := Environment.define c10State.heap 0 "D" Types.nil })
    ∧ ((Environment.define c10State.heap 0 "D" Types.nil).get? 0).map
        (fun f => lookupVals f.values "D") = some (some Types.nil)
    ∧ (Environment.define c10State.heap 0 "D" Types.nil).length = c10State.heap.length := by
  exact c10_nonclass_superclass_error_keeps_nil_binding 48 c10State
    ⟨.identifier "D", "D", 3⟩ ⟨.identifier "NotAClass", "NotAClass", 3⟩ []
    (.number (.num 1)) (by rfl) (fun c h => Types.noConfusion h) (by decide)

/-- Witness for c7_amended: a number and a string (differing kinds) compare
false, and reflexivity holds at the concrete number 1. -/
theorem c7_amended_witness :
    Types.ctorIdx (.number (.num 1)) ≠ Types.ctorIdx (.str "x")
    ∧ Types.peq (.number (.num 1)) (.str "x") = false
    ∧ Types.peq (.number (.num 1)) (.number (.num 1)) = true := by
  refine ⟨by decide, ?_, c7_amended.2.1 1⟩
  exact c7_amended.2.2.2.2.2.2.2.2.2.2.2 (.number (.num 1)) (.str "x") (by decide)

/-- Whether a token is not an identifier spelled this (side condition for
declared variable names). -/
def tokNotThis (t : Token) : Bool :=
  match t.tok_typ with
  | .identifier s => decide (s ≠ "this")
  | _ => true

mutual
/-- Syntactic side condition for the preservation results: the expression
never uses this as an assignment target.  Every expression the scanner and
parser can produce satisfies it, because the scanner turns the word this
into the This keyword token, never into an Identifier. -/
def exprOK : Expr → Bool
  | .binary l _ r => exprOK l && exprOK r
  | .unary _ r => exprOK r
  | .grouping e => exprOK e
  | .literal _ => true
  | .variable _ => true
  | .assignment n v => decide (n.lexeme ≠ "this") && exprOK v
  | .logical l _ r => exprOK l && exprOK r
  | .call c _ args => exprOK c && exprsOK args
  | .get o _ => exprOK o
  | .set o _ v => exprOK o && exprOK v
  | .thisE _ => true
  | .superE _ _ => true

/-- List version of exprOK. -/
def exprsOK : List Expr → Bool
  | [] => true
  | e :: rest => exprOK e && exprsOK rest

/-- Option version of exprOK (an absent expression is fine). -/
def optExprOK : Option Expr → Bool
  | some e => exprOK e
  | none => true

/-- Syntactic side condition for the preservation results: no statement of
the tree declares or assigns a name spelled this (scanner-produced trees
always satisfy it). -/
def stmtOK : Stmt → Bool
  | .sExpr e => exprOK e
  | .sPrint e => exprOK e
  | .sVar n e => tokNotThis n && optExprOK e
  | .sBlock ss => stmtsOK ss
  | .sIf c t e => exprOK c && stmtOK t && optStmtOK e
  | .sWhile c b => exprOK c && stmtOK b
  | .sFunction n _ body => decide (n.lexeme ≠ "this") && stmtsOK body
  | .sReturn _ v => optExprOK v
  | .sClass n sup ms => decide (n.lexeme ≠ "this") && optExprOK sup && stmtsOK ms

/-- Option version of stmtOK (an absent branch is fine). -/
def optStmtOK : Option Stmt → Bool
  | some s => stmtOK s
  | none => true

/-- List version of stmtOK. -/
def stmtsOK : List Stmt → Bool
  | [] => true
  | s :: rest => stmtOK s && stmtsOK rest
end

/-- A declared name that is an identifier and passes tokNotThis is not
spelled this. -/
theorem tokNotThis_id (t : Token) (n : String) (h : t.tok_typ = .identifier n)
    (hh : tokNotThis t = true) : n ≠ "this" := by
  unfold tokNotThis at hh
  rw [h] at hh
  exact of_decide_eq_true hh

mutual
/-- Whether every return statement reachable in this statement without
crossing a function or class boundary is a bare return; (what the resolver
enforces for the direct body of an init method). -/
def bareTop : Stmt → Bool
  | .sExpr _ => true
  | .sPrint _ => true
  | .sVar _ _ => true
  | .sBlock ss => bareTopList ss
  | .sIf _ t e => bareTop t && optBareTop e
  | .sWhile _ b => bareTop b
  | .sFunction _ _ _ => true
  | .sReturn _ v => v.isNone
  | .sClass _ _ _ => true

/-- Option version of bareTop (an absent branch is fine). -/
def optBareTop : Option Stmt → Bool
  | some s => bareTop s
  | none => true

/-- List version of bareTop. -/
def bareTopList : List Stmt → Bool
  | [] => true
  | s :: rest => bareTop s && bareTopList rest
end

mutual
/-- Well-formedness of a runtime value: every function body embedded in it
satisfies stmtOK (recursively through classes and their superclasses). -/
def typesOK : Types → Bool
  | .callable f => funcOK f
  | .classV c => classOK c
  | _ => true

/-- Well-formedness of a function value. -/
def funcOK : LoxFunction → Bool
  | .mk _ _ body _ _ => stmtsOK body

/-- Well-formedness of a class value. -/
def classOK : LoxClass → Bool
  | .mk _ ms sup =>
    methodsOK ms && (match sup with | some s => classOK s | none => true)

/-- Well-formedness of a method table. -/
def methodsOK : List (String × Types) → Bool
  | [] => true
  | (_, t) :: rest => typesOK t && methodsOK rest
end

/-- Every value of a frame map is well-formed. -/
def frameValsOK (vals : List (String × Types)) : Prop :=
  ∀ p ∈ vals, typesOK p.2 = true

/-- Well-formedness of a heap: every frame's values are well-formed. -/
def heapOK (h : List EnvFrame) : Prop := ∀ f ∈ h, frameValsOK f.values

/-- Well-formedness of the instance store. -/
def instsOK (l : List InstData) : Prop :=
  ∀ i ∈ l, classOK i.base = true ∧ frameValsOK i.fields

/-- Well-formedness of a whole interpreter state: every value reachable in
the heap and the instance store is well-formed. -/
def storeOK (st : Interp) : Prop := heapOK st.heap ∧ instsOK st.insts

/-- The this binding of frame i in a heap (inner none when the frame has no
such key, outer none when the frame does not exist). -/
def thisLook (h : List EnvFrame) (i : Nat) : Option (Option Types) :=
  (h.get? i).map (fun f => lookupVals f.values "this")

/-- Evolution relation on heaps: every frame's existing this binding is
preserved exactly. -/
def heapThisPres (h h' : List EnvFrame) : Prop :=
  ∀ i v, thisLook h i = some (some v) → thisLook h' i = some (some v)

/-- Evolution relation on states: every frame's existing this binding is
preserved exactly. -/
def ThisPres (st st' : Interp) : Prop := heapThisPres st.heap st'.heap

/-- ThisPres is reflexive. -/
theorem ThisPres.refl (st : Interp) : ThisPres st st := fun _ _ h => h

/-- ThisPres between states with equal heaps. -/
theorem ThisPres.of_heap_eq {st st' : Interp} (h : st.heap = st'.heap) :
    ThisPres st st' := fun i v hv => h ▸ hv

/-- ThisPres is transitive. -/
theorem ThisPres.trans {a b c : Interp} (h1 : ThisPres a b) (h2 : ThisPres b c) :
    ThisPres a c := fun i v h => h2 i v (h1 i v h)

/-- heapThisPres is transitive. -/
theorem heapThisPres_trans {a b c : List EnvFrame} (h1 : heapThisPres a b)
    (h2 : heapThisPres b c) : heapThisPres a c := fun i v h => h2 i v (h1 i v h)

/-- Lookup skips an insert under a different key. -/
theorem lookupVals_insert_ne {α : Type} (m : List (String × α)) (k key : String)
    (v : α) (hne : k ≠ key) : lookupVals (insertVal m k v) key = lookupVals m key := by
  simp [insertVal, lookupVals, hne]

/-- A lookup hit is a member of the association list. -/
theorem lookupVals_mem {α : Type} :
    ∀ (m : List (String × α)) (k : String) (v : α),
      lookupVals m k = some v → (k, v) ∈ m := by
  intro m k v
  induction m with
  | nil => intro h; exact Option.noConfusion h
  | cons p rest ih =>
    intro h
    by_cases hk : p.1 = k
    · simp only [lookupVals] at h
      rw [if_pos hk] at h
      cases p
      cases hk
      cases h
      exact List.mem_cons_self _ _
    · simp only [lookupVals] at h
      rw [if_neg hk] at h
      exact List.mem_cons_of_mem _ (ih h)

/-- Unmodified positions of listModify. -/
theorem listModify_get_ne {α : Type} (l : List α) (i j : Nat) (f : α → α)
    (hne : i ≠ j) : (listModify l i f).get? j = l.get? j := by
  unfold listModify
  split
  · rw [List.get?_eq_getElem?, List.get?_eq_getElem?, List.getElem?_set_ne hne]
  · rfl

/-- Every element of listModify l i f is an element of l or the image of
one. -/
theorem listModify_mem {α : Type} (l : List α) (i : Nat) (f : α → α) :
    ∀ y ∈ listModify l i f, y ∈ l ∨ ∃ x ∈ l, y = f x := by
  unfold listModify
  split
  · next x hx =>
    intro y hy
    rcases List.mem_or_eq_of_mem_set hy with h | h
    · exact Or.inl h
    · refine Or.inr ⟨x, ?_, h⟩
      rw [List.get?_eq_getElem?] at hx
      exact List.getElem?_mem hx
  · intro y hy; exact Or.inl hy

/-- Inserting a well-formed value keeps a frame map well-formed. -/
theorem frameValsOK_insert {vals : List (String × Types)} {k : String} {v : Types}
    (h : frameValsOK vals) (hv : typesOK v = true) :
    frameValsOK (insertVal vals k v) := by
  intro p hp
  rcases List.mem_cons.mp hp with h1 | h1
  · cases h1; exact hv
  · exact h p h1

/-- Environment.define under a key other than this preserves every frame's
this binding. -/
theorem heapThisPres_define (h : List EnvFrame) (ref : Nat) (k : String)
    (v : Types) (hk : k ≠ "this") :
    heapThisPres h (Environment.define h ref k v) := by
  intro i w hw
  unfold Environment.define
  by_cases hi : ref = i
  · subst hi
    unfold thisLook at hw ⊢
    cases hf : h.get? ref with
    | none => rw [hf] at hw; exact Option.noConfusion hw
    | some f =>
      rw [hf] at hw
      rw [listModify_get_self h ref _ f hf]
      simpa [lookupVals_insert_ne _ _ _ _ hk] using hw
  · unfold thisLook at hw ⊢
    rw [listModify_get_ne _ _ _ _ hi]
    exact hw

/-- Environment.define with a well-formed value preserves heap
well-formedness. -/
theorem heapOK_define {h : List EnvFrame} {ref : Nat} {k : String} {v : Types}
    (hh : heapOK h) (hv : typesOK v = true) :
    heapOK (Environment.define h ref k v) := by
  intro f hf
  rcases listModify_mem _ _ _ f hf with h1 | ⟨x, hx, rfl⟩
  · exact hh f h1
  · exact frameValsOK_insert (hh x hx) hv

/-- Appending a frame preserves every existing frame's this binding. -/
theorem heapThisPres_append (h : List EnvFrame) (fr : EnvFrame) :
    heapThisPres h (h ++ [fr]) := by
  intro i w hw
  unfold thisLook at hw ⊢
  cases hf : h.get? i with
  | none => rw [hf] at hw; exact Option.noConfusion hw
  | some f =>
    rw [hf] at hw
    rw [List.get?_eq_getElem?] at hf ⊢
    have hi : i < h.length := by
      by_contra hc
      rw [List.getElem?_eq_none (Nat.le_of_not_lt hc)] at hf
      exact Option.noConfusion hf
    rw [List.getElem?_append, if_pos hi, hf]
    exact hw

/-- Appending a well-formed frame preserves heap well-formedness. -/
theorem heapOK_append {h : List EnvFrame} {fr : EnvFrame}
    (hh : heapOK h) (hfr : frameValsOK fr.values) : heapOK (h ++ [fr]) := by
  intro f hf
  rcases List.mem_append.mp hf with h1 | h1
  · exact hh f h1
  · rcases List.mem_singleton.mp h1 with rfl
    exact hfr

/-- Appending a well-formed instance preserves instance-store
well-formedness. -/
theorem instsOK_append {l : List InstData} {i : InstData}
    (hl : instsOK l) (hc : classOK i.base = true) (hf : frameValsOK i.fields) :
    instsOK (l ++ [i]) := by
  intro j hj
  rcases List.mem_append.mp hj with h1 | h1
  · exact hl j h1
  · rcases List.mem_singleton.mp h1 with rfl
    exact ⟨hc, hf⟩

/-- Environment.set under a key other than this preserves every frame's
this binding and (for a well-formed value) heap well-formedness. -/
theorem setPres :
    ∀ (fuel : Nat) (h : List EnvFrame) (tok : Token) (v : Types) (ref : Nat)
      (h' : List EnvFrame),
      Environment.set h tok v fuel ref = .ok h' →
      tok.lexeme ≠ "this" →
      heapThisPres h h' ∧ (heapOK h → typesOK v = true → heapOK h') := by
  intro fuel
  induction fuel with
  | zero => intro h tok v ref h' hs _; exact Except.noConfusion hs
  | succ fuel ih =>
    intro h tok v ref h' hs hne
    simp only [Environment.set] at hs
    split at hs
    · exact Except.noConfusion hs
    · split at hs
      · cases Except.ok.inj hs
        exact ⟨heapThisPres_define _ _ _ _ hne,
          fun hh hv => heapOK_define hh hv⟩
      · split at hs
        · exact ih h tok v _ h' hs hne
        · exact Except.noConfusion hs

/-- Environment.set_at under a key other than this preserves every frame's
this binding and heap well-formedness. -/
theorem setAtPres :
    ∀ (d : Nat) (h : List EnvFrame) (tok : Token) (v : Types) (ref : Nat)
      (h' : List EnvFrame),
      Environment.set_at h tok v ref d = .ok h' →
      tok.lexeme ≠ "this" →
      heapThisPres h h' ∧ (heapOK h → typesOK v = true → heapOK h') := by
  intro d
  induction d with
  | zero => intro h tok v ref h' hs hne; exact setPres _ h tok v ref h' hs hne
  | succ d ih =>
    intro h tok v ref h' hs hne
    simp only [Environment.set_at] at hs
    split at hs
    · exact Except.noConfusion hs
    · split at hs
      · next p hp => exact ih h tok v p h' hs hne
      · exact Except.noConfusion hs

/-- Values read through Environment.get out of a well-formed heap are
well-formed. -/
theorem getOK :
    ∀ (fuel : Nat) (h : List EnvFrame) (tok : Token) (ref : Nat) (v : Types),
      heapOK h → Environment.get h tok fuel ref = .ok v → typesOK v = true := by
  intro fuel
  induction fuel with
  | zero => intro h tok ref v _ hg; exact Except.noConfusion hg
  | succ fuel ih =>
    intro h tok ref v hh hg
    simp only [Environment.get] at hg
    split at hg
    · exact Except.noConfusion hg
    · next f hf =>
      split at hg
      · next w hw =>
        cases Except.ok.inj hg
        have hmem : f ∈ h := by
          rw [List.get?_eq_getElem?] at hf
          exact List.getElem?_mem hf
        exact hh f hmem _ (lookupVals_mem _ _ _ hw)
      · split at hg
        · next p hp => exact ih h tok p v hh hg
        · exact Except.noConfusion hg

/-- Values read through Environment.get_at out of a well-formed heap are
well-formed. -/
theorem getAtOK :
    ∀ (d : Nat) (h : List EnvFrame) (tok : Token) (ref : Nat) (v : Types),
      heapOK h → Environment.get_at h tok ref d = .ok v → typesOK v = true := by
  intro d
  induction d with
  | zero => intro h tok ref v hh hg; exact getOK _ h tok ref v hh hg
  | succ d ih =>
    intro h tok ref v hh hg
    simp only [Environment.get_at] at hg
    split at hg
    · exact Except.noConfusion hg
    · split at hg
      · next p hp => exact ih h tok p v hh hg
      · exact Except.noConfusion hg

/-- A hit in a well-formed method table is well-formed. -/
theorem methodsOK_lookup :
    ∀ (ms : List (String × Types)) (k : String) (t : Types),
      methodsOK ms = true → lookupVals ms k = some t → typesOK t = true := by
  intro ms
  induction ms with
  | nil => intro k t _ hl; exact Option.noConfusion hl
  | cons p rest ih =>
    intro k t hm hl
    obtain ⟨k0, t0⟩ := p
    simp only [methodsOK, Bool.and_eq_true] at hm
    simp only [lookupVals] at hl
    split at hl
    · cases hl; exact hm.1
    · exact ih k t hm.2 hl

/-- Unfolding of classOK at a constructor. -/
theorem classOK_mk (n : String) (ms : List (String × Types)) (sup : Option LoxClass) :
    classOK (.mk n ms sup) =
      (methodsOK ms && (match sup with | some s => classOK s | none => true)) := by
  rw [classOK.eq_def]

/-- Unfolding of find_method at a constructor. -/
theorem find_method_mk (n : String) (ms : List (String × Types))
    (sup : Option LoxClass) (k : String) :
    LoxClass.find_method (.mk n ms sup) k =
      (match lookupVals ms k with
       | some v => some v
       | none => match sup with | some sc => sc.find_method k | none => none) := by
  cases sup with
  | none => cases hl : lookupVals ms k <;> simp [LoxClass.find_method, hl]
  | some sc => cases hl : lookupVals ms k <;> simp [LoxClass.find_method, hl]

/-- A method found anywhere on a well-formed class's superclass chain is
well-formed. -/
theorem findMethodOK :
    ∀ (c : LoxClass), classOK c = true →
      ∀ (k : String) (t : Types), LoxClass.find_method c k = some t → typesOK t = true
  | .mk n ms sup => by
    intro hc k t hf
    simp only [classOK_mk, Bool.and_eq_true] at hc
    simp only [find_method_mk] at hf
    cases hl : lookupVals ms k with
    | some w =>
      simp only [hl] at hf
      cases hf
      exact methodsOK_lookup ms k t hc.1 hl
    | none =>
      simp only [hl] at hf
      cases hsup : sup with
      | some sc =>
        simp only [hsup] at hf
        refine findMethodOK sc ?_ k t hf
        simp only [hsup] at hc
        exact hc.2
      | none => simp only [hsup] at hf; exact Option.noConfusion hf

/-- Binding well-formed arguments into a well-formed frame map keeps it
well-formed. -/
theorem bindParamsOK :
    ∀ (args : List Types) (params : List Token) (vals vals' : List (String × Types)),
      (∀ a ∈ args, typesOK a = true) → frameValsOK vals →
      bindParams params args vals = .ok vals' → frameValsOK vals' := by
  intro args
  induction args with
  | nil =>
    intro params vals vals' _ hv hb
    cases params <;> {cases Except.ok.inj hb; exact hv}
  | cons a rest ih =>
    intro params vals vals' ha hv hb
    cases params with
    | nil => exact Except.noConfusion hb
    | cons p ps =>
      exact ih ps _ vals' (fun x hx => ha x (List.mem_cons_of_mem a hx))
        (frameValsOK_insert hv (ha a (List.mem_cons_self a rest))) hb

/-- The method table built by the Stmt::Class arm from well-formed method
statements is well-formed. -/
theorem buildMethodsOK :
    ∀ (ms : List Stmt) (closure : Nat) (acc m' : List (String × Types)),
      stmtsOK ms = true → methodsOK acc = true →
      buildMethods closure ms acc = .ok m' → methodsOK m' = true := by
  intro ms
  induction ms with
  | nil => intro closure acc m' _ ha hb; cases Except.ok.inj hb; exact ha
  | cons m rest ih =>
    intro closure acc m' hs ha hb
    simp only [stmtsOK, Bool.and_eq_true] at hs
    cases m with
    | sFunction nm params body =>
      simp only [buildMethods] at hb
      refine ih closure _ m' hs.2 ?_ hb
      have hbody : stmtsOK body = true := by
        have := hs.1
        simp only [stmtOK, Bool.and_eq_true] at this
        exact this.2
      simpa [methodsOK, insertVal, typesOK, funcOK] using ⟨hbody, ha⟩
    | sExpr e => exact Except.noConfusion hb
    | sPrint e => exact Except.noConfusion hb
    | sVar n e => exact Except.noConfusion hb
    | sBlock ss => exact Except.noConfusion hb
    | sIf c t e => exact Except.noConfusion hb
    | sWhile c b => exact Except.noConfusion hb
    | sReturn k v => exact Except.noConfusion hb
    | sClass n s mm => exact Except.noConfusion hb

/-- Environment.get never fails with the Return signal. -/
theorem getNoReturn :
    ∀ (fuel : Nat) (h : List EnvFrame) (tok : Token) (ref : Nat) (v : Types),
      Environment.get h tok fuel ref ≠ .error (.lox (.returnError v)) := by
  intro fuel
  induction fuel with
  | zero => intro h tok ref v hg; exact Fail.noConfusion (Except.error.inj hg)
  | succ fuel ih =>
    intro h tok ref v hg
    simp only [Environment.get] at hg
    split at hg
    · exact Fail.noConfusion (Except.error.inj hg)
    · split at hg
      · exact Except.noConfusion hg
      · split at hg
        · next p hp => exact ih h tok p v hg
        · exact LoxError.noConfusion (Fail.lox.inj (Except.error.inj hg))

/-- Environment.get_at never fails with the Return signal. -/
theorem getAtNoReturn :
    ∀ (d : Nat) (h : List EnvFrame) (tok : Token) (ref : Nat) (v : Types),
      Environment.get_at h tok ref d ≠ .error (.lox (.returnError v)) := by
  intro d
  induction d with
  | zero => intro h tok ref v hg; exact getNoReturn _ h tok ref v hg
  | succ d ih =>
    intro h tok ref v hg
    simp only [Environment.get_at] at hg
    split at hg
    · exact Fail.noConfusion (Except.error.inj hg)
    · split at hg
      · next p hp => exact ih h tok p v hg
      · exact LoxError.noConfusion (Fail.lox.inj (Except.error.inj hg))

/-- Environment.set never fails with the Return signal. -/
theorem setNoReturn :
    ∀ (fuel : Nat) (h : List EnvFrame) (tok : Token) (w : Types) (ref : Nat) (v : Types),
      Environment.set h tok w fuel ref ≠ .error (.lox (.returnError v)) := by
  intro fuel
  induction fuel with
  | zero => intro h tok w ref v hg; exact Fail.noConfusion (Except.error.inj hg)
  | succ fuel ih =>
    intro h tok w ref v hg
    simp only [Environment.set] at hg
    split at hg
    · exact Fail.noConfusion (Except.error.inj hg)
    · split at hg
      · exact Except.noConfusion hg
      · split at hg
        · next p hp => exact ih h tok w p v hg
        · exact LoxError.noConfusion (Fail.lox.inj (Except.error.inj hg))

/-- Environment.set_at never fails with the Return signal. -/
theorem setAtNoReturn :
    ∀ (d : Nat) (h : List EnvFrame) (tok : Token) (w : Types) (ref : Nat) (v : Types),
      Environment.set_at h tok w ref d ≠ .error (.lox (.returnError v)) := by
  intro d
  induction d with
  | zero => intro h tok w ref v hg; exact setNoReturn _ h tok w ref v hg
  | succ d ih =>
    intro h tok w ref v hg
    simp only [Environment.set_at] at hg
    split at hg
    · exact Fail.noConfusion (Except.error.inj hg)
    · split at hg
      · next p hp => exact ih h tok w p v hg
      · exact LoxError.noConfusion (Fail.lox.inj (Except.error.inj hg))

/-- Interp.lookup_variable: results are well-formed and never the Return
signal. -/
theorem lookupVariablePres (st : Interp) (tok : Token) (e : Expr) :
    storeOK st →
      (∀ v, st.lookup_variable tok e = .ok v → typesOK v = true)
      ∧ (∀ v, st.lookup_variable tok e ≠ .error (.lox (.returnError v))) := by
  intro hst
  unfold Interp.lookup_variable
  constructor
  · intro v hv
    split at hv
    · exact getAtOK _ _ _ _ _ hst.1 hv
    · exact getOK _ _ _ _ _ hst.1 hv
  · intro v hv
    split at hv
    · exact getAtNoReturn _ _ _ _ _ hv
    · exact getNoReturn _ _ _ _ _ hv

/-- Unfolding of funcOK through the accessors. -/
theorem funcOK_body (f : LoxFunction) : funcOK f = stmtsOK f.body := by
  cases f with
  | mk n p b c i => simp [funcOK, LoxFunction.body]

/-- typesOK at each constructor. -/
theorem typesOK_simp :
    (∀ f, typesOK (.callable f) = funcOK f)
    ∧ (∀ c, typesOK (.classV c) = classOK c)
    ∧ (∀ n, typesOK (.number n) = true)
    ∧ (∀ s, typesOK (.str s) = true)
    ∧ (∀ b, typesOK (.bool b) = true)
    ∧ (∀ i, typesOK (.nativeFunc i) = true)
    ∧ (∀ r, typesOK (.classInstance r) = true)
    ∧ typesOK .nil = true := by
  refine ⟨fun f => by simp [typesOK], fun c => by simp [typesOK], fun n => by simp [typesOK],
    fun s => by simp [typesOK], fun b => by simp [typesOK], fun i => by simp [typesOK],
    fun r => by simp [typesOK], by simp [typesOK]⟩

/-- classOK implies a well-formed method table. -/
theorem classOK_methods (c : LoxClass) (hc : classOK c = true) :
    methodsOK c.methods = true := by
  cases c with
  | mk n ms sup =>
    rw [classOK_mk, Bool.and_eq_true] at hc
    simpa [LoxClass.methods] using hc.1

/-- set_property keeps the instance store well-formed and the heap
untouched. -/
theorem setPropertyPres (st : Interp) (r : Nat) (field : Token) (v : Types)
    (hst : storeOK st) (hv : typesOK v = true) :
    (LoxClassInstance.set_property st r field v).heap = st.heap
    ∧ storeOK (LoxClassInstance.set_property st r field v) := by
  refine ⟨rfl, hst.1, ?_⟩
  intro i hi
  rcases listModify_mem _ _ _ i hi with h1 | ⟨x, hx, rfl⟩
  · exact hst.2 i h1
  · exact ⟨(hst.2 x hx).1, frameValsOK_insert (hst.2 x hx).2 hv⟩

/-- LoxClassInstance.get: preserves this bindings and the store, yields
well-formed values, and never the Return signal. -/
theorem instanceGetPres (st : Interp) (r : Nat) (field : Token)
    (out : Except Fail Types) (st' : Interp)
    (hst : storeOK st) (hg : LoxClassInstance.get st r field = (out, st')) :
    ThisPres st st' ∧ storeOK st'
    ∧ (∀ v, out = .ok v → typesOK v = true)
    ∧ (∀ v, out ≠ .error (.lox (.returnError v))) := by
  unfold LoxClassInstance.get at hg
  split at hg
  · cases hg
    exact ⟨ThisPres.refl st, hst, fun v hv => Except.noConfusion hv,
      fun v hv => Fail.noConfusion (Except.error.inj hv)⟩
  · next inst hinst =>
    have hmem : inst ∈ st.insts := by
      rw [List.get?_eq_getElem?] at hinst
      exact List.getElem?_mem hinst
    split at hg
    · next v hv =>
      cases hg
      exact ⟨ThisPres.refl st, hst, fun w hw => by cases hw; exact (hst.2 inst hmem).2 _ (lookupVals_mem _ _ _ hv),
        fun w hw => Except.noConfusion hw⟩
    · split at hg
      · next mf hmf =>
        simp only [LoxFunction.bind] at hg
        cases hg
        refine ⟨heapThisPres_append _ _, ⟨heapOK_append hst.1 ?_, hst.2⟩, ?_, ?_⟩
        · intro p hp
          rcases List.mem_singleton.mp hp with rfl
          simp [typesOK]
        · intro w hw
          cases hw
          have hfm : typesOK (.callable mf) = true :=
            methodsOK_lookup _ _ _ (classOK_methods _ (hst.2 inst hmem).1) hmf
          rw [typesOK_simp.1, funcOK_body] at hfm
          rw [typesOK_simp.1]
          simpa [funcOK] using hfm
        · intro w hw
          exact Except.noConfusion hw
      · next hmf =>
        cases hg
        exact ⟨ThisPres.refl st, hst, fun v hv => Except.noConfusion hv,
          fun v hv => Fail.noConfusion (Except.error.inj hv)⟩
      · next hmf =>
        cases hg
        exact ⟨ThisPres.refl st, hst, fun v hv => Except.noConfusion hv,
          fun v hv => LoxError.noConfusion (Fail.lox.inj (Except.error.inj hv))⟩

/-- Types.numberCoerce yields only numbers or a runtime error. -/
theorem numberCoercePres (insts : List InstData) (v : Types) (tok : Token) :
    (∀ n, Types.numberCoerce insts v tok = .ok n → typesOK (.number n) = true)
    ∧ (∀ e, Types.numberCoerce insts v tok = .error e →
        ∀ w, e ≠ .lox (.returnError w)) := by
  constructor
  · intro n _; exact typesOK_simp.2.2.1 n
  · intro e he w
    unfold Types.numberCoerce at he
    split at he
    · exact Except.noConfusion he
    · cases Except.error.inj he
      intro hc
      exact LoxError.noConfusion (Fail.lox.inj hc)

/-- The two-number do-pattern of evalBinary: result shape and failure
shape. -/
theorem binArithPres (insts : List InstData) (lv : Types) (op : Token) (rv : Types)
    (k : F64 → F64 → Types) (hk : ∀ a b, typesOK (k a b) = true) :
    (∀ v, (do
        let a ← Types.numberCoerce insts lv op
        let b ← Types.numberCoerce insts rv op
        Except.ok (k a b)) = Except.ok v → typesOK v = true)
    ∧ (∀ w, (do
        let a ← Types.numberCoerce insts lv op
        let b ← Types.numberCoerce insts rv op
        Except.ok (k a b)) ≠ Except.error (Fail.lox (.returnError w))) := by
  constructor
  · intro v hv
    simp only [bind, Except.bind] at hv
    split at hv
    · exact Except.noConfusion hv
    · split at hv
      · exact Except.noConfusion hv
      · cases Except.ok.inj hv; exact hk _ _
  · intro w hv
    simp only [bind, Except.bind] at hv
    split at hv
    · next e he => exact (numberCoercePres insts lv op).2 e he w (Except.error.inj hv)
    · split at hv
      · next e he => exact (numberCoercePres insts rv op).2 e he w (Except.error.inj hv)
      · exact Except.noConfusion hv

/-- evalBinary yields well-formed values and never the Return signal. -/
theorem evalBinaryPres (insts : List InstData) (lv : Types) (op : Token) (rv : Types) :
    (∀ v, evalBinary insts lv op rv = .ok v → typesOK v = true)
    ∧ (∀ w, evalBinary insts lv op rv ≠ .error (.lox (.returnError w))) := by
  have hnum : ∀ n : F64, typesOK (Types.number n) = true := typesOK_simp.2.2.1
  have hbool : ∀ b : Bool, typesOK (Types.bool b) = true := typesOK_simp.2.2.2.2.1
  constructor
  · intro v hv
    unfold evalBinary at hv
    split at hv
    · exact (binArithPres insts lv op rv _ (fun a b => hnum _)).1 v hv
    · split at hv
      · cases Except.ok.inj hv; exact hnum _
      · cases Except.ok.inj hv; exact typesOK_simp.2.2.2.1 _
      · exact Except.noConfusion hv
    · exact (binArithPres insts lv op rv _ (fun a b => hnum _)).1 v hv
    · exact (binArithPres insts lv op rv _ (fun a b => hnum _)).1 v hv
    · exact (binArithPres insts lv op rv _ (fun a b => hbool _)).1 v hv
    · exact (binArithPres insts lv op rv _ (fun a b => hbool _)).1 v hv
    · exact (binArithPres insts lv op rv _ (fun a b => hbool _)).1 v hv
    · exact (binArithPres insts lv op rv _ (fun a b => hbool _)).1 v hv
    · cases Except.ok.inj hv; exact hbool _
    · cases Except.ok.inj hv; exact hbool _
    · exact Except.noConfusion hv
  · intro w hv
    unfold evalBinary at hv
    split at hv
    · exact (binArithPres insts lv op rv _ (fun a b => hnum _)).2 w hv
    · split at hv
      · exact Except.noConfusion hv
      · exact Except.noConfusion hv
      · exact LoxError.noConfusion (Fail.lox.inj (Except.error.inj hv))
    · exact (binArithPres insts lv op rv _ (fun a b => hnum _)).2 w hv
    · exact (binArithPres insts lv op rv _ (fun a b => hnum _)).2 w hv
    · exact (binArithPres insts lv op rv _ (fun a b => hbool _)).2 w hv
    · exact (binArithPres insts lv op rv _ (fun a b => hbool _)).2 w hv
    · exact (binArithPres insts lv op rv _ (fun a b => hbool _)).2 w hv
    · exact (binArithPres insts lv op rv _ (fun a b => hbool _)).2 w hv
    · exact Except.noConfusion hv
    · exact Except.noConfusion hv
    · exact LoxError.noConfusion (Fail.lox.inj (Except.error.inj hv))

/-- Side condition for dispatch targets. -/
def ctOK : CallTarget → Bool
  | .ctFunc f => funcOK f
  | .ctClass c => classOK c
  | .ctNative _ => true

/-- Types.callableCoerce sends well-formed values to well-formed targets
and fails only with a runtime error. -/
theorem callableCoercePres (insts : List InstData) (v : Types) (tok : Token) :
    (typesOK v = true → ∀ t, Types.callableCoerce insts v tok = .ok t → ctOK t = true)
    ∧ (∀ e, Types.callableCoerce insts v tok = .error e → ∀ w, e ≠ .lox (.returnError w)) := by
  constructor
  · intro hv t ht
    unfold Types.callableCoerce at ht
    split at ht
    · cases Except.ok.inj ht
      next c => rw [typesOK_simp.1] at hv; simpa [ctOK] using hv
    · cases Except.ok.inj ht
      next c => rw [typesOK_simp.2.1] at hv; simpa [ctOK] using hv
    · cases Except.ok.inj ht
      simp [ctOK]
    · exact Except.noConfusion ht
  · intro e he w
    unfold Types.callableCoerce at he
    split at he
    · exact Except.noConfusion he
    · exact Except.noConfusion he
    · exact Except.noConfusion he
    · cases Except.error.inj he
      intro hc
      exact LoxError.noConfusion (Fail.lox.inj hc)

/-- classSet preserves this bindings and (for a well-formed class value)
store well-formedness. -/
theorem classSetPres (st : Interp) (name : Token) (cls : Types)
    (out : Except Fail Unit) (st' : Interp)
    (hcs : classSet st name cls = (out, st')) (hne : name.lexeme ≠ "this") :
    ThisPres st st' ∧ (storeOK st → typesOK cls = true → storeOK st') := by
  unfold classSet at hcs
  split at hcs
  · next h hs =>
    cases hcs
    have := setPres _ _ _ _ _ _ hs hne
    exact ⟨this.1, fun hst hc => ⟨this.2 hst.1 hc, hst.2⟩⟩
  · cases hcs
    exact ⟨ThisPres.refl st, fun hst _ => hst⟩

/-- classRest preserves this bindings and store well-formedness. -/
theorem classRestPres (st : Interp) (name : Token) (sup : Option LoxClass)
    (ms : List Stmt) (out : Except Fail Unit) (st' : Interp)
    (hcr : classRest st name sup ms = (out, st')) (hne : name.lexeme ≠ "this")
    (hms : stmtsOK ms = true)
    (hsup : (match sup with | some c => classOK c | none => true) = true) :
    ThisPres st st' ∧ (storeOK st → storeOK st') := by
  unfold classRest at hcr
  split at hcr
  · cases hcr
    exact ⟨ThisPres.refl st, fun hst => hst⟩
  · next mtds hbm =>
    have hmtds : methodsOK mtds = true :=
      buildMethodsOK ms st.environment [] mtds hms (by simp [methodsOK]) hbm
    have hcls : typesOK (Types.classV (.mk name.lexeme mtds sup)) = true := by
      rw [typesOK_simp.2.1, classOK_mk, Bool.and_eq_true]
      refine ⟨hmtds, ?_⟩
      cases sup with
      | none => rfl
      | some c => exact hsup
    split at hcr
    · split at hcr
      · next p hp =>
        have := classSetPres _ _ _ _ _ hcr hne
        exact ⟨this.1, fun hst => this.2 ⟨hst.1, hst.2⟩ hcls⟩
      · cases hcr
        exact ⟨ThisPres.refl st, fun hst => hst⟩
    · have := classSetPres _ _ _ _ _ hcr hne
      exact ⟨this.1, fun hst => this.2 hst hcls⟩

/-- classSet never fails with the Return signal. -/
theorem classSetNoReturn (st : Interp) (name : Token) (cls : Types)
    (out : Except Fail Unit) (st' : Interp)
    (hcs : classSet st name cls = (out, st')) :
    ∀ w, out ≠ .error (.lox (.returnError w)) := by
  intro w hw
  subst hw
  unfold classSet at hcs
  split at hcs
  · exact Except.noConfusion (congrArg Prod.fst hcs)
  · next e he =>
    rw [Except.error.inj (congrArg Prod.fst hcs)] at he
    exact setNoReturn _ _ _ _ _ _ he

/-- buildMethods never fails with the Return signal. -/
theorem buildMethodsNoReturn :
    ∀ (ms : List Stmt) (closure : Nat) (acc : List (String × Types)) (w : Types),
      buildMethods closure ms acc ≠ .error (.lox (.returnError w)) := by
  intro ms
  induction ms with
  | nil =>
    intro closure acc w hb
    simp only [buildMethods] at hb
    exact Except.noConfusion hb
  | cons m rest ih =>
    intro closure acc w hb
    cases m with
    | sFunction nm params body =>
      simp only [buildMethods] at hb
      exact ih closure _ w hb
    | sExpr e =>
      simp only [buildMethods] at hb
      exact Fail.noConfusion (Except.error.inj hb)
    | sPrint e =>
      simp only [buildMethods] at hb
      exact Fail.noConfusion (Except.error.inj hb)
    | sVar n e =>
      simp only [buildMethods] at hb
      exact Fail.noConfusion (Except.error.inj hb)
    | sBlock ss =>
      simp only [buildMethods] at hb
      exact Fail.noConfusion (Except.error.inj hb)
    | sIf c t e =>
      simp only [buildMethods] at hb
      exact Fail.noConfusion (Except.error.inj hb)
    | sWhile c b =>
      simp only [buildMethods] at hb
      exact Fail.noConfusion (Except.error.inj hb)
    | sReturn k v =>
      simp only [buildMethods] at hb
      exact Fail.noConfusion (Except.error.inj hb)
    | sClass n s mm =>
      simp only [buildMethods] at hb
      exact Fail.noConfusion (Except.error.inj hb)

/-- classRest never fails with the Return signal. -/
theorem classRestNoReturn (st : Interp) (name : Token) (sup : Option LoxClass)
    (ms : List Stmt) (out : Except Fail Unit) (st' : Interp)
    (hcr : classRest st name sup ms = (out, st')) :
    ∀ w, out ≠ .error (.lox (.returnError w)) := by
  intro w hw
  subst hw
  unfold classRest at hcr
  split at hcr
  · next e he =>
    rw [Except.error.inj (congrArg Prod.fst hcr)] at he
    exact buildMethodsNoReturn _ _ _ _ he
  · split at hcr
    · split at hcr
      · exact classSetNoReturn _ _ _ _ _ hcr w rfl
      · exact Fail.noConfusion (Except.error.inj (congrArg Prod.fst hcr))
    · exact classSetNoReturn _ _ _ _ _ hcr w rfl

/-- A frame whose this binding is known answers Environment.get for the
this token immediately. -/
theorem getThisHit (h : List EnvFrame) (ref : Nat) (t : Types) (fuel : Nat)
    (hl : thisLook h ref = some (some t)) :
    Environment.get h thisToken (fuel + 1) ref = .ok t := by
  unfold thisLook at hl
  rcases Option.map_eq_some'.mp hl with ⟨f, hf, hlv⟩
  simp only [Environment.get, hf, thisToken, hlv]

/-- get_at at depth 0 on a frame whose this binding is known answers
immediately. -/
theorem getAtThisHit (h : List EnvFrame) (ref : Nat) (t : Types)
    (hl : thisLook h ref = some (some t)) :
    Environment.get_at h thisToken ref 0 = .ok t := by
  simp only [Environment.get_at]
  exact getThisHit h ref t ref hl

/-- bindParams never fails with the Return signal. -/
theorem bindParamsNoReturn :
    ∀ (args : List Types) (params : List Token) (vals : List (String × Types)) (w : Types),
      bindParams params args vals ≠ .error (.lox (.returnError w)) := by
  intro args
  induction args with
  | nil =>
    intro params vals w hb
    cases params with
    | nil => exact Except.noConfusion hb
    | cons p ps => exact Except.noConfusion hb
  | cons a rest ih =>
    intro params vals w hb
    cases params with
    | nil => exact Fail.noConfusion (Except.error.inj hb)
    | cons p ps => exact ih ps _ w hb

/-- Induction statement for execute: preservation of this bindings and
store well-formedness, and the shape of an escaping Return signal. -/
def ExecP (fuel : Nat) : Prop :=
  ∀ st s out st', stmtOK s = true → storeOK st → execute fuel st s = (out, st') →
    ThisPres st st' ∧ storeOK st'
    ∧ ∀ w, out = .error (.lox (.returnError w)) →
        typesOK w = true ∧ (bareTop s = true → w = .nil)

/-- Induction statement for executeSeq. -/
def SeqP (fuel : Nat) : Prop :=
  ∀ st ss out st', stmtsOK ss = true → storeOK st → executeSeq fuel st ss = (out, st') →
    ThisPres st st' ∧ storeOK st'
    ∧ ∀ w, out = .error (.lox (.returnError w)) →
        typesOK w = true ∧ (bareTopList ss = true → w = .nil)

/-- Induction statement for executeBlock. -/
def BlockP (fuel : Nat) : Prop :=
  ∀ st ss env out st', stmtsOK ss = true → storeOK st →
    executeBlock fuel st ss env = (out, st') →
    ThisPres st st' ∧ storeOK st'
    ∧ ∀ w, out = .error (.lox (.returnError w)) →
        typesOK w = true ∧ (bareTopList ss = true → w = .nil)

/-- Induction statement for evaluate: preservation, well-formed results,
and no Return signal at all. -/
def EvalP (fuel : Nat) : Prop :=
  ∀ st e out st', exprOK e = true → storeOK st → evaluate fuel st e = (out, st') →
    ThisPres st st' ∧ storeOK st'
    ∧ (∀ v, out = .ok v → typesOK v = true)
    ∧ (∀ w, out ≠ .error (.lox (.returnError w)))

/-- Induction statement for evalArgs. -/
def ArgsP (fuel : Nat) : Prop :=
  ∀ st es out st', exprsOK es = true → storeOK st → evalArgs fuel st es = (out, st') →
    ThisPres st st' ∧ storeOK st'
    ∧ (∀ vs, out = .ok vs → ∀ v ∈ vs, typesOK v = true)
    ∧ (∀ w, out ≠ .error (.lox (.returnError w)))

/-- Induction statement for callTarget. -/
def CtP (fuel : Nat) : Prop :=
  ∀ st t args out st', ctOK t = true → (∀ a ∈ args, typesOK a = true) → storeOK st →
    callTarget fuel st t args = (out, st') →
    ThisPres st st' ∧ storeOK st'
    ∧ (∀ v, out = .ok v → typesOK v = true)
    ∧ (∀ w, out ≠ .error (.lox (.returnError w)))

/-- Induction statement for callFunction. -/
def CfP (fuel : Nat) : Prop :=
  ∀ st f args out st', funcOK f = true → (∀ a ∈ args, typesOK a = true) → storeOK st →
    callFunction fuel st f args = (out, st') →
    ThisPres st st' ∧ storeOK st'
    ∧ (∀ v, out = .ok v → typesOK v = true)
    ∧ (∀ w, out ≠ .error (.lox (.returnError w)))

/-- Induction statement for callClass. -/
def CcP (fuel : Nat) : Prop :=
  ∀ st c args out st', classOK c = true → (∀ a ∈ args, typesOK a = true) → storeOK st →
    callClass fuel st c args = (out, st') →
    ThisPres st st' ∧ storeOK st'
    ∧ (∀ v, out = .ok v → typesOK v = true)
    ∧ (∀ w, out ≠ .error (.lox (.returnError w)))

/-- Master preservation theorem for the interpreter: execution preserves
every frame's this binding and the well-formedness of the store; evaluate
and the call helpers never emit the Return signal, and the signal value of
a statement list whose reachable top-level returns are all bare is Nil. -/
theorem interpPres : ∀ fuel, ExecP fuel ∧ SeqP fuel ∧ BlockP fuel ∧ EvalP fuel
    ∧ ArgsP fuel ∧ CtP fuel ∧ CfP fuel ∧ CcP fuel := by
  intro fuel
  induction fuel with
  | zero =>
    refine ⟨?_, ?_, ?_, ?_, ?_, ?_, ?_, ?_⟩
    · intro st s out st' _ hst h
      simp only [execute] at h
      cases h
      exact ⟨ThisPres.refl st, hst, fun w hw => Fail.noConfusion (Except.error.inj hw)⟩
    · intro st ss out st' _ hst h
      simp only [executeSeq] at h
      cases h
      exact ⟨ThisPres.refl st, hst, fun w hw => Fail.noConfusion (Except.error.inj hw)⟩
    · intro st ss env out st' _ hst h
      simp only [executeBlock] at h
      cases h
      exact ⟨ThisPres.refl st, hst, fun w hw => Fail.noConfusion (Except.error.inj hw)⟩
    · intro st e out st' _ hst h
      simp only [evaluate] at h
      cases h
      exact ⟨ThisPres.refl st, hst, fun v hv => Except.noConfusion hv,
        fun w hw => Fail.noConfusion (Except.error.inj hw)⟩
    · intro st es out st' _ hst h
      simp only [evalArgs] at h
      cases h
      exact ⟨ThisPres.refl st, hst, fun v hv => Except.noConfusion hv,
        fun w hw => Fail.noConfusion (Except.error.inj hw)⟩
    · intro st t args out st' _ _ hst h
      simp only [callTarget] at h
      cases h
      exact ⟨ThisPres.refl st, hst, fun v hv => Except.noConfusion hv,
        fun w hw => Fail.noConfusion (Except.error.inj hw)⟩
    · intro st f args out st' _ _ hst h
      simp only [callFunction] at h
      cases h
      exact ⟨ThisPres.refl st, hst, fun v hv => Except.noConfusion hv,
        fun w hw => Fail.noConfusion (Except.error.inj hw)⟩
    · intro st c args out st' _ _ hst h
      simp only [callClass] at h
      cases h
      exact ⟨ThisPres.refl st, hst, fun v hv => Except.noConfusion hv,
        fun w hw => Fail.noConfusion (Except.error.inj hw)⟩
  | succ fuel ih =>
    obtain ⟨ihE, ihSeq, ihB, ihV, ihA, ihT, ihF, ihC⟩ := ih
    refine ⟨?_, ?_, ?_, ?_, ?_, ?_, ?_, ?_⟩
    · -- ExecP (fuel + 1)
      intro st s out st' hok hst h
      cases s with
      | sExpr e =>
        simp only [execute] at h
        simp only [stmtOK] at hok
        split at h
        · next v st1 hev =>
          cases h
          obtain ⟨h1, h2, _, _⟩ := ihV st e _ _ hok hst hev
          exact ⟨h1, h2, fun w hw => Except.noConfusion hw⟩
        · next err st1 hev =>
          cases h
          obtain ⟨h1, h2, _, h4⟩ := ihV st e _ _ hok hst hev
          exact ⟨h1, h2, fun w hw => absurd (by rw [Except.error.inj hw]) (h4 w)⟩
      | sPrint e =>
        simp only [execute] at h
        simp only [stmtOK] at hok
        split at h
        · next v st1 hev =>
          cases h
          obtain ⟨h1, h2, _, _⟩ := ihV st e _ _ hok hst hev
          exact ⟨h1.trans (ThisPres.of_heap_eq rfl), h2,
            fun w hw => Except.noConfusion hw⟩
        · next err st1 hev =>
          cases h
          obtain ⟨h1, h2, _, h4⟩ := ihV st e _ _ hok hst hev
          exact ⟨h1, h2, fun w hw => absurd (by rw [Except.error.inj hw]) (h4 w)⟩
      | sVar name init =>
        simp only [stmtOK, Bool.and_eq_true] at hok
        have hne : ∀ n, name.tok_typ = .identifier n → n ≠ "this" :=
          fun n hn => tokNotThis_id name n hn hok.1
        cases init with
        | some e0 =>
          simp only [execute] at h
          split at h
          · next v st1 hev =>
            obtain ⟨h1, h2, h3, _⟩ := ihV st e0 _ _ (by simpa [optExprOK] using hok.2) hst hev
            split at h
            · next n hn =>
              cases h
              exact ⟨h1.trans (heapThisPres_define _ _ _ _ (hne n hn)),
                ⟨heapOK_define h2.1 (h3 v rfl), h2.2⟩,
                fun w hw => Except.noConfusion hw⟩
            · cases h
              exact ⟨h1, h2, fun w hw => Fail.noConfusion (Except.error.inj hw)⟩
          · next err st1 hev =>
            cases h
            obtain ⟨h1, h2, _, h4⟩ := ihV st e0 _ _ (by simpa [optExprOK] using hok.2) hst hev
            exact ⟨h1, h2, fun w hw => absurd (by rw [Except.error.inj hw]) (h4 w)⟩
        | none =>
          simp only [execute] at h
          split at h
          · next n hn =>
            cases h
            exact ⟨heapThisPres_define _ _ _ _ (hne n hn),
              ⟨heapOK_define hst.1 typesOK_simp.2.2.2.2.2.2.2, hst.2⟩,
              fun w hw => Except.noConfusion hw⟩
          · cases h
            exact ⟨ThisPres.refl st, hst,
              fun w hw => Fail.noConfusion (Except.error.inj hw)⟩
      | sBlock stmts =>
        simp only [execute] at h
        simp only [stmtOK] at hok
        rcases hseq : executeSeq fuel { st with heap := st.heap ++ [⟨[], some st.environment⟩], environment := st.heap.length } stmts with ⟨out0, st2⟩
        rw [hseq] at h
        cases h
        have hst1 : storeOK { st with heap := st.heap ++ [⟨[], some st.environment⟩], environment := st.heap.length } :=
          ⟨heapOK_append hst.1 (fun p hp => absurd hp (List.not_mem_nil p)), hst.2⟩
        obtain ⟨s1, s2, s3⟩ := ihSeq _ stmts _ _ hok hst1 hseq
        refine ⟨heapThisPres_trans (heapThisPres_append st.heap _) s1, s2, fun w hw => ?_⟩
        obtain ⟨t1, t2⟩ := s3 w hw
        exact ⟨t1, fun hb => t2 (by simpa [bareTop] using hb)⟩
      | sIf c t e =>
        simp only [execute] at h
        simp only [stmtOK, Bool.and_eq_true] at hok
        split at h
        · next v st1 hev =>
          obtain ⟨h1, h2, _, _⟩ := ihV st c _ _ hok.1.1 hst hev
          split at h
          · obtain ⟨e1, e2, e3⟩ := ihE st1 t _ _ hok.1.2 h2 h
            refine ⟨h1.trans e1, e2, fun w hw => ?_⟩
            obtain ⟨t1, t2⟩ := e3 w hw
            refine ⟨t1, fun hb => t2 ?_⟩
            simp only [bareTop, Bool.and_eq_true] at hb
            exact hb.1
          · split at h
            · next b =>
              obtain ⟨e1, e2, e3⟩ := ihE st1 b _ _ (by simpa [optStmtOK] using hok.2) h2 h
              refine ⟨h1.trans e1, e2, fun w hw => ?_⟩
              obtain ⟨t1, t2⟩ := e3 w hw
              refine ⟨t1, fun hb => t2 ?_⟩
              simp only [bareTop, Bool.and_eq_true] at hb
              simpa [optBareTop] using hb.2
            · cases h
              exact ⟨h1, h2, fun w hw => Except.noConfusion hw⟩
        · next err st1 hev =>
          cases h
          obtain ⟨h1, h2, _, h4⟩ := ihV st c _ _ hok.1.1 hst hev
          exact ⟨h1, h2, fun w hw => absurd (by rw [Except.error.inj hw]) (h4 w)⟩
      | sWhile c b =>
        simp only [execute] at h
        have hok' := hok
        simp only [stmtOK, Bool.and_eq_true] at hok
        split at h
        · next v st1 hev =>
          obtain ⟨h1, h2, _, _⟩ := ihV st c _ _ hok.1 hst hev
          split at h
          · split at h
            · next u st2 hex =>
              obtain ⟨e1, e2, _⟩ := ihE st1 b _ _ hok.2 h2 hex
              obtain ⟨f1, f2, f3⟩ := ihE st2 (.sWhile c b) _ _ hok' e2 h
              exact ⟨(h1.trans e1).trans f1, f2, f3⟩
            · next err st2 hex =>
              cases h
              obtain ⟨e1, e2, e3⟩ := ihE st1 b _ _ hok.2 h2 hex
              refine ⟨h1.trans e1, e2, fun w hw => ?_⟩
              obtain ⟨t1, t2⟩ := e3 w hw
              refine ⟨t1, fun hb => t2 ?_⟩
              simpa [bareTop] using hb
          · cases h
            exact ⟨h1, h2, fun w hw => Except.noConfusion hw⟩
        · next err st1 hev =>
          cases h
          obtain ⟨h1, h2, _, h4⟩ := ihV st c _ _ hok.1 hst hev
          exact ⟨h1, h2, fun w hw => absurd (by rw [Except.error.inj hw]) (h4 w)⟩
      | sFunction name params body =>
        simp only [execute] at h
        simp only [stmtOK, Bool.and_eq_true] at hok
        cases h
        have hne : name.lexeme ≠ "this" := of_decide_eq_true hok.1
        refine ⟨heapThisPres_define _ _ _ _ hne,
          ⟨heapOK_define hst.1 ?_, hst.2⟩,
          fun w hw => Except.noConfusion hw⟩
        rw [typesOK_simp.1]
        simpa [funcOK] using hok.2
      | sReturn k value =>
        cases value with
        | some e0 =>
          simp only [execute] at h
          split at h
          · next v st1 hev =>
            cases h
            obtain ⟨h1, h2, h3, _⟩ :=
              ihV st e0 _ _ (by simpa [stmtOK, optExprOK] using hok) hst hev
            refine ⟨h1, h2, fun w hw => ?_⟩
            have hv : w = v :=
              (LoxError.returnError.inj (Fail.lox.inj (Except.error.inj hw))).symm
            subst hv
            exact ⟨h3 w rfl, fun hb => by simp [bareTop] at hb⟩
          · next err st1 hev =>
            cases h
            obtain ⟨h1, h2, _, h4⟩ :=
              ihV st e0 _ _ (by simpa [stmtOK, optExprOK] using hok) hst hev
            exact ⟨h1, h2, fun w hw => absurd (by rw [Except.error.inj hw]) (h4 w)⟩
        | none =>
          simp only [execute] at h
          cases h
          refine ⟨ThisPres.refl st, hst, fun w hw => ?_⟩
          have hv : w = Types.nil :=
            (LoxError.returnError.inj (Fail.lox.inj (Except.error.inj hw))).symm
          subst hv
          exact ⟨typesOK_simp.2.2.2.2.2.2.2, fun _ => rfl⟩
      | sClass name sup methods =>
        simp only [execute] at h
        simp only [stmtOK, Bool.and_eq_true] at hok
        have hne : name.lexeme ≠ "this" := of_decide_eq_true hok.1.1
        have hst0 : storeOK { st with heap := Environment.define st.heap st.environment name.lexeme .nil } :=
          ⟨heapOK_define hst.1 typesOK_simp.2.2.2.2.2.2.2, hst.2⟩
        have hthis0 : heapThisPres st.heap
            (Environment.define st.heap st.environment name.lexeme Types.nil) :=
          heapThisPres_define _ _ _ _ hne
        split at h
        · obtain ⟨r1, r2⟩ := classRestPres _ _ _ _ _ _ h hne hok.2 (by rfl)
          exact ⟨heapThisPres_trans hthis0 r1, r2 hst0,
            fun w hw => absurd hw (classRestNoReturn _ _ _ _ _ _ h w)⟩
        · next scEx =>
          split at h
          · next err st1 hev =>
            cases h
            obtain ⟨h1, h2, _, h4⟩ :=
              ihV _ scEx _ _ (by simpa [optExprOK] using hok.1.2) hst0 hev
            exact ⟨heapThisPres_trans hthis0 h1, h2,
              fun w hw => absurd (by rw [Except.error.inj hw]) (h4 w)⟩
          · next sc st1 hev =>
            obtain ⟨h1, h2, h3, h4⟩ :=
              ihV _ scEx _ _ (by simpa [optExprOK] using hok.1.2) hst0 hev
            clear h4
            split at h
            · next cc =>
              have hcOK : classOK cc = true := by
                have := h3 _ rfl
                rwa [typesOK_simp.2.1] at this
              have hst2 : storeOK { st1 with heap := st1.heap ++ [⟨[("super", Types.classV cc)], some st1.environment⟩], environment := st1.heap.length } := by
                refine ⟨heapOK_append h2.1 ?_, h2.2⟩
                intro p hp
                rcases List.mem_singleton.mp hp with rfl
                rw [typesOK_simp.2.1]
                exact hcOK
              obtain ⟨r1, r2⟩ := classRestPres _ _ _ _ _ _ h hne hok.2 hcOK
              exact ⟨heapThisPres_trans (heapThisPres_trans (heapThisPres_trans hthis0 h1) (heapThisPres_append _ _)) r1,
                r2 hst2, fun w hw => absurd hw (classRestNoReturn _ _ _ _ _ _ h w)⟩
            · cases h
              exact ⟨heapThisPres_trans hthis0 h1, h2,
                fun w hw => LoxError.noConfusion (Fail.lox.inj (Except.error.inj hw))⟩
    · -- SeqP (fuel + 1)
      intro st ss out st' hok hst h
      cases ss with
      | nil =>
        simp only [executeSeq] at h
        cases h
        exact ⟨ThisPres.refl st, hst, fun w hw => Except.noConfusion hw⟩
      | cons s rest =>
        simp only [executeSeq] at h
        simp only [stmtsOK, Bool.and_eq_true] at hok
        split at h
        · next u st1 hex =>
          obtain ⟨e1, e2, _⟩ := ihE st s _ _ hok.1 hst hex
          obtain ⟨f1, f2, f3⟩ := ihSeq st1 rest _ _ hok.2 e2 h
          refine ⟨e1.trans f1, f2, fun w hw => ?_⟩
          obtain ⟨t1, t2⟩ := f3 w hw
          refine ⟨t1, fun hb => t2 ?_⟩
          simp only [bareTopList, Bool.and_eq_true] at hb
          exact hb.2
        · next err st1 hex =>
          cases h
          obtain ⟨e1, e2, e3⟩ := ihE st s _ _ hok.1 hst hex
          refine ⟨e1, e2, fun w hw => ?_⟩
          obtain ⟨t1, t2⟩ := e3 w hw
          refine ⟨t1, fun hb => t2 ?_⟩
          simp only [bareTopList, Bool.and_eq_true] at hb
          exact hb.1
    · -- BlockP (fuel + 1)
      intro st ss env out st' hok hst h
      simp only [executeBlock] at h
      rcases hseq : executeSeq fuel { st with environment := env } ss with ⟨out0, st2⟩
      rw [hseq] at h
      cases h
      obtain ⟨s1, s2, s3⟩ := ihSeq { st with environment := env } ss _ _ hok hst hseq
      exact ⟨s1, s2, s3⟩
    · -- EvalP (fuel + 1)
      intro st e out st' hok hst h
      cases e with
      | binary l op r =>
        simp only [evaluate] at h
        simp only [exprOK, Bool.and_eq_true] at hok
        split at h
        · next err st1 hev =>
          cases h
          obtain ⟨h1, h2, _, h4⟩ := ihV st l _ _ hok.1 hst hev
          exact ⟨h1, h2, fun v hv => Except.noConfusion hv, h4⟩
        · next lv st1 hev =>
          obtain ⟨h1, h2, h3, _⟩ := ihV st l _ _ hok.1 hst hev
          split at h
          · next err st2 hev2 =>
            cases h
            obtain ⟨g1, g2, _, g4⟩ := ihV st1 r _ _ hok.2 h2 hev2
            exact ⟨h1.trans g1, g2, fun v hv => Except.noConfusion hv, g4⟩
          · next rv st2 hev2 =>
            cases h
            obtain ⟨g1, g2, _, _⟩ := ihV st1 r _ _ hok.2 h2 hev2
            exact ⟨h1.trans g1, g2, (evalBinaryPres _ lv op rv).1,
              fun w => (evalBinaryPres _ lv op rv).2 w⟩
      | unary op r =>
        simp only [evaluate] at h
        simp only [exprOK] at hok
        split at h
        · next err st1 hev =>
          cases h
          obtain ⟨h1, h2, _, h4⟩ := ihV st r _ _ hok hst hev
          exact ⟨h1, h2, fun v hv => Except.noConfusion hv, h4⟩
        · next rv st1 hev =>
          obtain ⟨h1, h2, h3, _⟩ := ihV st r _ _ hok hst hev
          split at h
          · split at h
            · next n =>
              cases h
              exact ⟨h1, h2,
                fun v hv => by cases Except.ok.inj hv; exact typesOK_simp.2.2.1 _,
                fun w hw => Except.noConfusion hw⟩
            · cases h
              exact ⟨h1, h2, fun v hv => Except.noConfusion hv,
                fun w hw => LoxError.noConfusion (Fail.lox.inj (Except.error.inj hw))⟩
          · cases h
            exact ⟨h1, h2,
              fun v hv => by cases Except.ok.inj hv; exact typesOK_simp.2.2.2.2.1 _,
              fun w hw => Except.noConfusion hw⟩
          · cases h
            exact ⟨h1, h2, fun v hv => Except.noConfusion hv,
              fun w hw => LoxError.noConfusion (Fail.lox.inj (Except.error.inj hw))⟩
      | grouping g =>
        simp only [evaluate] at h
        simp only [exprOK] at hok
        exact ihV st g _ _ hok hst h
      | literal v =>
        simp only [evaluate] at h
        split at h
        · cases h
          exact ⟨ThisPres.refl st, hst,
            fun v hv => by cases Except.ok.inj hv; exact typesOK_simp.2.2.2.1 _,
            fun w hw => Except.noConfusion hw⟩
        · cases h
          exact ⟨ThisPres.refl st, hst,
            fun v hv => by cases Except.ok.inj hv; exact typesOK_simp.2.2.1 _,
            fun w hw => Except.noConfusion hw⟩
        · cases h
          exact ⟨ThisPres.refl st, hst,
            fun v hv => by cases Except.ok.inj hv; exact typesOK_simp.2.2.2.2.1 _,
            fun w hw => Except.noConfusion hw⟩
        · cases h
          exact ⟨ThisPres.refl st, hst,
            fun v hv => by cases Except.ok.inj hv; exact typesOK_simp.2.2.2.2.1 _,
            fun w hw => Except.noConfusion hw⟩
        · cases h
          exact ⟨ThisPres.refl st, hst,
            fun v hv => by cases Except.ok.inj hv; exact typesOK_simp.2.2.2.2.2.2.2,
            fun w hw => Except.noConfusion hw⟩
        · cases h
          exact ⟨ThisPres.refl st, hst, fun v hv => Except.noConfusion hv,
            fun w hw => LoxError.noConfusion (Fail.lox.inj (Except.error.inj hw))⟩
      | «variable» name =>
        simp only [evaluate] at h
        cases h
        obtain ⟨l1, l2⟩ := lookupVariablePres st name (.variable name) hst
        exact ⟨ThisPres.refl st, hst, l1, l2⟩
      | assignment name value =>
        simp only [evaluate] at h
        simp only [exprOK, Bool.and_eq_true] at hok
        have hne : name.lexeme ≠ "this" := of_decide_eq_true hok.1
        split at h
        · next err st1 hev =>
          cases h
          obtain ⟨h1, h2, _, h4⟩ := ihV st value _ _ hok.2 hst hev
          exact ⟨h1, h2, fun v hv => Except.noConfusion hv, h4⟩
        · next v st1 hev =>
          obtain ⟨h1, h2, h3, _⟩ := ihV st value _ _ hok.2 hst hev
          split at h
          · next dist hd =>
            split at h
            · next hh hset =>
              cases h
              obtain ⟨p1, p2⟩ := setAtPres _ _ _ _ _ _ hset hne
              exact ⟨heapThisPres_trans h1 p1, ⟨p2 h2.1 (h3 v rfl), h2.2⟩,
                fun u hu => by cases Except.ok.inj hu; exact h3 v rfl,
                fun w hw => Except.noConfusion hw⟩
            · next err hset =>
              cases h
              refine ⟨h1, h2, fun u hu => Except.noConfusion hu, fun w hw => ?_⟩
              rw [Except.error.inj hw] at hset
              exact setAtNoReturn _ _ _ _ _ _ hset
          · split at h
            · next hh hset =>
              cases h
              obtain ⟨p1, p2⟩ := setPres _ _ _ _ _ _ hset hne
              exact ⟨heapThisPres_trans h1 p1, ⟨p2 h2.1 (h3 v rfl), h2.2⟩,
                fun u hu => by cases Except.ok.inj hu; exact h3 v rfl,
                fun w hw => Except.noConfusion hw⟩
            · next err hset =>
              cases h
              refine ⟨h1, h2, fun u hu => Except.noConfusion hu, fun w hw => ?_⟩
              rw [Except.error.inj hw] at hset
              exact setNoReturn _ _ _ _ _ _ hset
      | logical l op r =>
        simp only [evaluate] at h
        simp only [exprOK, Bool.and_eq_true] at hok
        split at h
        · next err st1 hev =>
          cases h
          obtain ⟨h1, h2, _, h4⟩ := ihV st l _ _ hok.1 hst hev
          exact ⟨h1, h2, fun v hv => Except.noConfusion hv, h4⟩
        · next lv st1 hev =>
          obtain ⟨h1, h2, h3, _⟩ := ihV st l _ _ hok.1 hst hev
          split at h
          · split at h
            · cases h
              exact ⟨h1, h2, fun v hv => by cases Except.ok.inj hv; exact h3 lv rfl,
                fun w hw => Except.noConfusion hw⟩
            · obtain ⟨g1, g2, g3, g4⟩ := ihV st1 r _ _ hok.2 h2 h
              exact ⟨h1.trans g1, g2, g3, g4⟩
          · split at h
            · cases h
              exact ⟨h1, h2, fun v hv => by cases Except.ok.inj hv; exact h3 lv rfl,
                fun w hw => Except.noConfusion hw⟩
            · obtain ⟨g1, g2, g3, g4⟩ := ihV st1 r _ _ hok.2 h2 h
              exact ⟨h1.trans g1, g2, g3, g4⟩
          · cases h
            exact ⟨h1, h2, fun v hv => Except.noConfusion hv,
              fun w hw => LoxError.noConfusion (Fail.lox.inj (Except.error.inj hw))⟩
      | call callee paren args =>
        simp only [evaluate] at h
        simp only [exprOK, Bool.and_eq_true] at hok
        split at h
        · next err st1 hev =>
          cases h
          obtain ⟨h1, h2, _, h4⟩ := ihV st callee _ _ hok.1 hst hev
          exact ⟨h1, h2, fun v hv => Except.noConfusion hv, h4⟩
        · next cv st1 hev =>
          obtain ⟨h1, h2, h3, _⟩ := ihV st callee _ _ hok.1 hst hev
          split at h
          · next err st2 hargs =>
            cases h
            obtain ⟨a1, a2, _, a4⟩ := ihA st1 args _ _ hok.2 h2 hargs
            exact ⟨h1.trans a1, a2, fun v hv => Except.noConfusion hv,
              fun w hw => absurd (by rw [Except.error.inj hw]) (a4 w)⟩
          · next argv st2 hargs =>
            obtain ⟨a1, a2, a3, _⟩ := ihA st1 args _ _ hok.2 h2 hargs
            split at h
            · next err hcc =>
              cases h
              refine ⟨h1.trans a1, a2, fun v hv => Except.noConfusion hv, fun w hw => ?_⟩
              exact (callableCoercePres _ cv paren).2 err hcc w (Except.error.inj hw)
            · next target hcc =>
              split at h
              · cases h
                exact ⟨h1.trans a1, a2, fun v hv => Except.noConfusion hv,
                  fun w hw => LoxError.noConfusion (Fail.lox.inj (Except.error.inj hw))⟩
              · obtain ⟨t1, t2, t3, t4⟩ := ihT st2 target argv _ _
                  ((callableCoercePres st2.insts cv paren).1 (h3 cv rfl) target hcc)
                  (a3 argv rfl) a2 h
                exact ⟨(h1.trans a1).trans t1, t2, t3, t4⟩
      | get obj name =>
        simp only [evaluate] at h
        simp only [exprOK] at hok
        split at h
        · next err st1 hev =>
          cases h
          obtain ⟨h1, h2, _, h4⟩ := ihV st obj _ _ hok hst hev
          exact ⟨h1, h2, fun v hv => Except.noConfusion hv, h4⟩
        · next ov st1 hev =>
          obtain ⟨h1, h2, hx3, hx4⟩ := ihV st obj _ _ hok hst hev
          clear hx3 hx4
          split at h
          · next rr =>
            obtain ⟨g1, g2, g3, g4⟩ := instanceGetPres st1 rr name out st' h2 h
            exact ⟨heapThisPres_trans h1 g1, g2, g3, g4⟩
          · cases h
            exact ⟨h1, h2, fun v hv => Except.noConfusion hv,
              fun w hw => LoxError.noConfusion (Fail.lox.inj (Except.error.inj hw))⟩
      | set obj name value =>
        simp only [evaluate] at h
        simp only [exprOK, Bool.and_eq_true] at hok
        split at h
        · next err st1 hev =>
          cases h
          obtain ⟨h1, h2, _, h4⟩ := ihV st obj _ _ hok.1 hst hev
          exact ⟨h1, h2, fun v hv => Except.noConfusion hv, h4⟩
        · next ov st1 hev =>
          obtain ⟨h1, h2, hx3, hx4⟩ := ihV st obj _ _ hok.1 hst hev
          clear hx3 hx4
          split at h
          · next rr =>
            split at h
            · next err st2 hev2 =>
              cases h
              obtain ⟨g1, g2, _, g4⟩ := ihV st1 value _ _ hok.2 h2 hev2
              exact ⟨h1.trans g1, g2, fun v hv => Except.noConfusion hv, g4⟩
            · next v st2 hev2 =>
              cases h
              obtain ⟨g1, g2, g3, _⟩ := ihV st1 value _ _ hok.2 h2 hev2
              obtain ⟨sp1, sp2⟩ := setPropertyPres st2 rr name v g2 (g3 v rfl)
              exact ⟨heapThisPres_trans (heapThisPres_trans h1 g1)
                  (ThisPres.of_heap_eq sp1.symm), sp2,
                fun u hu => by cases Except.ok.inj hu; exact typesOK_simp.2.2.2.2.2.2.2,
                fun w hw => Except.noConfusion hw⟩
          · cases h
            exact ⟨h1, h2, fun v hv => Except.noConfusion hv,
              fun w hw => Fail.noConfusion (Except.error.inj hw)⟩
      | thisE keyword =>
        simp only [evaluate] at h
        cases h
        obtain ⟨l1, l2⟩ := lookupVariablePres st keyword (.thisE keyword) hst
        exact ⟨ThisPres.refl st, hst, l1, l2⟩
      | superE keyword method =>
        simp only [evaluate] at h
        split at h
        · cases h
          exact ⟨ThisPres.refl st, hst, fun v hv => Except.noConfusion hv,
            fun w hw => Fail.noConfusion (Except.error.inj hw)⟩
        · next dist hd =>
          split at h
          · next err hga =>
            cases h
            refine ⟨ThisPres.refl st, hst, fun v hv => Except.noConfusion hv, fun w hw => ?_⟩
            rw [Except.error.inj hw] at hga
            exact getAtNoReturn _ _ _ _ _ hga
          · next scv hga =>
            split at h
            · next sc =>
              split at h
              · cases h
                exact ⟨ThisPres.refl st, hst, fun v hv => Except.noConfusion hv,
                  fun w hw => Fail.noConfusion (Except.error.inj hw)⟩
              · split at h
                · next err hgt =>
                  cases h
                  refine ⟨ThisPres.refl st, hst, fun v hv => Except.noConfusion hv,
                    fun w hw => ?_⟩
                  rw [Except.error.inj hw] at hgt
                  exact getAtNoReturn _ _ _ _ _ hgt
                · next thisv hgt =>
                  split at h
                  · next m hm =>
                    simp only [LoxFunction.bind] at h
                    cases h
                    have hscOK : classOK sc = true := by
                      have := getAtOK _ _ _ _ _ hst.1 hga
                      rwa [typesOK_simp.2.1] at this
                    have hmOK : typesOK (.callable m) = true :=
                      findMethodOK sc hscOK method.lexeme _ hm
                    refine ⟨heapThisPres_append _ _,
                      ⟨heapOK_append hst.1 ?_, hst.2⟩, ?_,
                      fun w hw => Except.noConfusion hw⟩
                    · intro p hp
                      rcases List.mem_singleton.mp hp with rfl
                      exact getAtOK _ _ _ _ _ hst.1 hgt
                    · intro v hv
                      cases Except.ok.inj hv
                      rw [typesOK_simp.1, funcOK_body] at hmOK
                      rw [typesOK_simp.1]
                      simpa [funcOK] using hmOK
                  · cases h
                    exact ⟨ThisPres.refl st, hst, fun v hv => Except.noConfusion hv,
                      fun w hw => LoxError.noConfusion (Fail.lox.inj (Except.error.inj hw))⟩
            · cases h
              exact ⟨ThisPres.refl st, hst, fun v hv => Except.noConfusion hv,
                fun w hw => Fail.noConfusion (Except.error.inj hw)⟩
    · -- ArgsP (fuel + 1)
      intro st es out st' hok hst h
      cases es with
      | nil =>
        simp only [evalArgs] at h
        cases h
        refine ⟨ThisPres.refl st, hst, ?_, fun w hw => Except.noConfusion hw⟩
        intro vs hv u hu
        cases Except.ok.inj hv
        exact absurd hu (List.not_mem_nil u)
      | cons a rest =>
        simp only [evalArgs] at h
        simp only [exprsOK, Bool.and_eq_true] at hok
        split at h
        · next err st1 hev =>
          cases h
          obtain ⟨h1, h2, _, h4⟩ := ihV st a _ _ hok.1 hst hev
          exact ⟨h1, h2, fun vs hv => Except.noConfusion hv,
            fun w hw => absurd (by rw [Except.error.inj hw]) (h4 w)⟩
        · next v st1 hev =>
          obtain ⟨h1, h2, h3, h4x⟩ := ihV st a _ _ hok.1 hst hev
          clear h4x
          split at h
          · next err st2 hargs =>
            cases h
            obtain ⟨a1, a2, _, a4⟩ := ihA st1 rest _ _ hok.2 h2 hargs
            exact ⟨h1.trans a1, a2, fun vs hv => Except.noConfusion hv, a4⟩
          · next vs st2 hargs =>
            cases h
            obtain ⟨a1, a2, a3, a4x⟩ := ihA st1 rest _ _ hok.2 h2 hargs
            clear a4x
            refine ⟨h1.trans a1, a2, ?_, fun w hw => Except.noConfusion hw⟩
            intro ws hws u hu
            cases Except.ok.inj hws
            rcases List.mem_cons.mp hu with rfl | hu2
            · exact h3 u rfl
            · exact a3 vs rfl u hu2
    · -- CtP (fuel + 1)
      intro st t args out st' hok hargs hst h
      cases t with
      | ctFunc f =>
        simp only [callTarget] at h
        exact ihF st f args _ _ (by simpa [ctOK] using hok) hargs hst h
      | ctClass c =>
        simp only [callTarget] at h
        exact ihC st c args _ _ (by simpa [ctOK] using hok) hargs hst h
      | ctNative i =>
        simp only [callTarget] at h
        cases h
        exact ⟨ThisPres.refl st, hst,
          fun v hv => by cases Except.ok.inj hv; exact typesOK_simp.2.2.1 _,
          fun w hw => Except.noConfusion hw⟩
    · -- CfP (fuel + 1)
      intro st f args out st' hfok hargs hst h
      simp only [callFunction] at h
      split at h
      · rename_i e hbp
        cases h
        refine ⟨ThisPres.refl st, hst, fun v hv => Except.noConfusion hv, fun w hw => ?_⟩
        rw [Except.error.inj hw] at hbp
        exact bindParamsNoReturn _ _ _ _ hbp
      · rename_i vals hbp
        have hvals : frameValsOK vals :=
          bindParamsOK args f.params [] vals hargs
            (fun p hp => absurd hp (List.not_mem_nil p)) hbp
        have hst1 : storeOK { st with heap := st.heap ++ [⟨vals, some f.closure⟩] } :=
          ⟨heapOK_append hst.1 hvals, hst.2⟩
        have hbodyOK : stmtsOK f.body = true := by rw [← funcOK_body]; exact hfok
        split at h
        · rename_i typ st2 hEB
          obtain ⟨b1, b2, b3⟩ := ihB _ f.body _ _ _ hbodyOK hst1 hEB
          have hpres : heapThisPres st.heap st2.heap :=
            heapThisPres_trans (heapThisPres_append _ _) b1
          split at h
          · cases h
            exact ⟨hpres, b2, fun v hv => getAtOK _ _ _ _ _ b2.1 hv,
              fun w hw => getAtNoReturn _ _ _ _ _ hw⟩
          · cases h
            exact ⟨hpres, b2,
              fun v hv => by cases Except.ok.inj hv; exact (b3 typ rfl).1,
              fun w hw => Except.noConfusion hw⟩
        · rename_i err st2 hexcl hEB
          cases h
          obtain ⟨b1, b2, b3⟩ := ihB _ f.body _ _ _ hbodyOK hst1 hEB
          exact ⟨heapThisPres_trans (heapThisPres_append _ _) b1, b2,
            fun v hv => Except.noConfusion hv,
            fun w hw => hexcl w (Except.error.inj hw)⟩
        · rename_i u st2 hEB
          obtain ⟨b1, b2, b3⟩ := ihB _ f.body _ _ _ hbodyOK hst1 hEB
          have hpres : heapThisPres st.heap st2.heap :=
            heapThisPres_trans (heapThisPres_append _ _) b1
          split at h
          · cases h
            exact ⟨hpres, b2, fun v hv => getAtOK _ _ _ _ _ b2.1 hv,
              fun w hw => getAtNoReturn _ _ _ _ _ hw⟩
          · cases h
            exact ⟨hpres, b2,
              fun v hv => by cases Except.ok.inj hv; exact typesOK_simp.2.2.2.2.2.2.2,
              fun w hw => Except.noConfusion hw⟩
    · -- CcP (fuel + 1)
      intro st c args out st' hcok hargs hst h
      simp only [callClass, LoxClass.new_instance] at h
      have hst1 : storeOK { st with insts := st.insts ++ [⟨c, []⟩] } :=
        ⟨hst.1, instsOK_append hst.2 hcok (fun p hp => absurd hp (List.not_mem_nil p))⟩
      split at h
      · rename_i initializer hfm
        simp only [LoxFunction.bind] at h
        have hiOK : typesOK (.callable initializer) = true :=
          findMethodOK c hcok "init" _ hfm
        rw [typesOK_simp.1] at hiOK
        have hbOK : funcOK (.mk initializer.name initializer.params initializer.body st.heap.length initializer.is_initializer) = true := by
          rw [funcOK_body] at hiOK
          simpa [funcOK] using hiOK
        have hst2 : storeOK { st with insts := st.insts ++ [⟨c, []⟩], heap := st.heap ++ [⟨[("this", Types.classInstance st.insts.length)], some initializer.closure⟩] } := by
          refine ⟨heapOK_append hst1.1 ?_, hst1.2⟩
          intro p hp
          rcases List.mem_singleton.mp hp with rfl
          exact typesOK_simp.2.2.2.2.2.2.1 _
        obtain ⟨f1, f2, f3, f4⟩ := ihF _ _ args _ _ hbOK hargs hst2 h
        exact ⟨heapThisPres_trans (heapThisPres_append _ _) f1, f2, f3, f4⟩
      · rename_i hexcl hfm
        cases h
        exact ⟨ThisPres.refl st, hst1,
          fun v hv => by cases Except.ok.inj hv; exact typesOK_simp.2.2.2.2.2.2.1 _,
          fun w hw => Except.noConfusion hw⟩

/-- The frame just appended by LoxFunction.bind answers thisLook with the
bound receiver. -/
theorem thisLook_append_self (h : List EnvFrame) (t : Types) (p : Option Nat) :
    thisLook (h ++ [⟨[("this", t)], p⟩]) h.length = some (some t) := by
  unfold thisLook
  rw [List.get?_eq_getElem?, List.getElem?_append_right (Nat.le_refl _)]
  simp [lookupVals]

/-- LoxFunction.call on an initializer whose body's reachable top-level
returns are all bare yields the this binding of the closure frame. -/
theorem callFunctionInit (fuel : Nat) (st : Interp) (f : LoxFunction)
    (args : List Types) (v : Types) (st' : Interp) (t : Types)
    (hinit : f.is_initializer = true) (hbare : bareTopList f.body = true)
    (hfok : funcOK f = true) (hargs : ∀ a ∈ args, typesOK a = true)
    (hst : storeOK st) (hthis : thisLook st.heap f.closure = some (some t))
    (h : callFunction fuel st f args = (.ok v, st')) : v = t := by
  cases fuel with
  | zero =>
    simp only [callFunction] at h
    exact Except.noConfusion (congrArg Prod.fst h)
  | succ fuel =>
    simp only [callFunction] at h
    split at h
    · exact Except.noConfusion (congrArg Prod.fst h)
    · rename_i vals hbp
      have hvals : frameValsOK vals :=
        bindParamsOK args f.params [] vals hargs
          (fun p hp => absurd hp (List.not_mem_nil p)) hbp
      have hst1 : storeOK { st with heap := st.heap ++ [⟨vals, some f.closure⟩] } :=
        ⟨heapOK_append hst.1 hvals, hst.2⟩
      have hthis1 : thisLook (st.heap ++ [⟨vals, some f.closure⟩]) f.closure =
          some (some t) := heapThisPres_append st.heap _ f.closure t hthis
      have hbodyOK : stmtsOK f.body = true := by rw [← funcOK_body]; exact hfok
      split at h
      · rename_i typ st2 hEB
        obtain ⟨b1, b2, b3⟩ := (interpPres fuel).2.2.1 _ f.body _ _ _ hbodyOK hst1 hEB
        have hnil : typ = Types.nil := (b3 typ rfl).2 hbare
        subst hnil
        have hcond : (f.is_initializer && Types.peq Types.nil Types.nil) = true := by
          rw [hinit]; rfl
        rw [if_pos hcond] at h
        have hthis2 : thisLook st2.heap f.closure = some (some t) :=
          b1 f.closure t hthis1
        have hget : Environment.get_at st2.heap thisToken f.closure 0 = .ok t :=
          getAtThisHit st2.heap f.closure t hthis2
        have := congrArg Prod.fst h
        rw [hget] at this
        exact (Except.ok.inj this).symm
      · rename_i err st2 hexcl hEB
        exact Except.noConfusion (congrArg Prod.fst h)
      · rename_i u st2 hEB
        obtain ⟨b1, b2, b3⟩ := (interpPres fuel).2.2.1 _ f.body _ _ _ hbodyOK hst1 hEB
        rw [if_pos hinit] at h
        have hthis2 : thisLook st2.heap f.closure = some (some t) :=
          b1 f.closure t (heapThisPres_append st.heap _ f.closure t hthis)
        have hget : Environment.get_at st2.heap thisToken f.closure 0 = .ok t :=
          getAtThisHit st2.heap f.closure t hthis2
        have := congrArg Prod.fst h
        rw [hget] at this
        exact (Except.ok.inj this).symm

/-- Resolver.define does not change the function kind. -/
theorem define_kind (st : RState) (n : Token) :
    (Resolver.define st n).function_kind = st.function_kind := by
  unfold Resolver.define
  split <;> rfl

/-- scopeInsert does not change the function kind. -/
theorem scopeInsert_kind (st : RState) (n : String) (b : Bool) :
    (scopeInsert st n b).function_kind = st.function_kind := by
  unfold scopeInsert
  split <;> rfl

/-- Resolver.declare does not change the function kind. -/
theorem declare_kind (st : RState) (n : Token) (st' : RState)
    (h : Resolver.declare st n = .ok st') : st'.function_kind = st.function_kind := by
  unfold Resolver.declare at h
  split at h
  · cases Except.ok.inj h; rfl
  · split at h
    · exact Except.noConfusion h
    · cases Except.ok.inj h; rfl

/-- declareParams does not change the function kind. -/
theorem declareParams_kind :
    ∀ (ps : List Token) (st st' : RState),
      declareParams st ps = .ok st' → st'.function_kind = st.function_kind := by
  intro ps
  induction ps with
  | nil => intro st st' h; cases Except.ok.inj h; rfl
  | cons p rest ih =>
    intro st st' h
    simp only [declareParams, bind, Except.bind] at h
    split at h
    · exact Except.noConfusion h
    · rename_i st1 hd
      rw [ih _ st' h, define_kind, declare_kind st p st1 hd]

/-- The resolver never changes the function kind of the state it returns:
every kind switch (resolve_function) restores the enclosing kind before
returning. -/
theorem resolverKindPres : ∀ fuel,
    (∀ st s st', resolveStmt fuel st s = .ok st' → st'.function_kind = st.function_kind)
    ∧ (∀ st ss st', resolveStmts fuel st ss = .ok st' → st'.function_kind = st.function_kind)
    ∧ (∀ st e st', resolveExpr fuel st e = .ok st' → st'.function_kind = st.function_kind)
    ∧ (∀ st es st', resolveExprs fuel st es = .ok st' → st'.function_kind = st.function_kind)
    ∧ (∀ st ms st', resolveMethods fuel st ms = .ok st' → st'.function_kind = st.function_kind)
    ∧ (∀ st ps body k st', resolveFunction fuel st ps body k = .ok st' →
        st'.function_kind = st.function_kind) := by
  intro fuel
  induction fuel with
  | zero =>
    refine ⟨?_, ?_, ?_, ?_, ?_, ?_⟩
    · intro st s st' h; exact Except.noConfusion h
    · intro st ss st' h; exact Except.noConfusion h
    · intro st e st' h; exact Except.noConfusion h
    · intro st es st' h; exact Except.noConfusion h
    · intro st ms st' h; exact Except.noConfusion h
    · intro st ps body k st' h; exact Except.noConfusion h
  | succ fuel ih =>
    obtain ⟨ihS, ihSS, ihX, ihXS, ihM, ihFn⟩ := ih
    refine ⟨?_, ?_, ?_, ?_, ?_, ?_⟩
    · intro st s st' h
      cases s with
      | sFunction name params body =>
        simp only [resolveStmt, bind, Except.bind] at h
        split at h
        · exact Except.noConfusion h
        · rename_i st1 hd
          rw [ihFn _ _ _ _ _ h, define_kind, declare_kind st name st1 hd]
      | sExpr e =>
        simp only [resolveStmt] at h
        exact ihX st e st' h
      | sIf c t e =>
        simp only [resolveStmt, bind, Except.bind] at h
        split at h
        · exact Except.noConfusion h
        · rename_i st1 hc
          split at h
          · exact Except.noConfusion h
          · rename_i st2 ht
            cases e with
            | some b => rw [ihS _ _ _ h, ihS _ _ _ ht, ihX _ _ _ hc]
            | none => cases Except.ok.inj h; rw [ihS _ _ _ ht, ihX _ _ _ hc]
      | sPrint e =>
        simp only [resolveStmt] at h
        exact ihX st e st' h
      | sReturn keyword value =>
        simp only [resolveStmt] at h
        split at h
        · exact Except.noConfusion h
        · split at h
          · exact Except.noConfusion h
          · cases Except.ok.inj h; rfl
        · split at h
          · exact ihX st _ st' h
          · cases Except.ok.inj h; rfl
      | sWhile c b =>
        simp only [resolveStmt, bind, Except.bind] at h
        split at h
        · exact Except.noConfusion h
        · rename_i st1 hc
          rw [ihS _ _ _ h, ihX _ _ _ hc]
      | sVar name expr =>
        simp only [resolveStmt, bind, Except.bind] at h
        split at h
        · exact Except.noConfusion h
        · rename_i st1 hd
          split at h
          · exact Except.noConfusion h
          · rename_i st2 hi
            cases Except.ok.inj h
            rw [define_kind]
            cases expr with
            | some e0 => rw [ihX _ _ _ hi, declare_kind st name st1 hd]
            | none =>
              have h12 : st1 = st2 := Except.ok.inj hi
              rw [← h12, declare_kind st name st1 hd]
      | sBlock stmts =>
        simp only [resolveStmt, bind, Except.bind] at h
        split at h
        · exact Except.noConfusion h
        · rename_i st1 hs
          cases Except.ok.inj h
          show st1.function_kind = st.function_kind
          have hb := ihSS (Resolver.beginScope st) stmts st1 hs
          exact hb
      | sClass name superclass methods =>
        simp only [resolveStmt, bind, Except.bind] at h
        split at h
        · exact Except.noConfusion h
        · rename_i st2 hd
          split at h
          · exact Except.noConfusion h
          · rename_i st5 h5
            split at h
            · exact Except.noConfusion h
            · rename_i st7 h7
              cases Except.ok.inj h
              have k7 : st7.function_kind = st5.function_kind := by
                have hm := ihM _ _ _ h7
                rw [scopeInsert_kind] at hm
                exact hm
              have k5 : st5.function_kind = st2.function_kind := by
                split at h5
                · cases Except.ok.inj h5
                  exact define_kind st2 name
                · split at h5
                  · split at h5
                    · exact Except.noConfusion h5
                    · split at h5
                      · exact Except.noConfusion h5
                      · rename_i st4 h4
                        cases Except.ok.inj h5
                        rw [scopeInsert_kind]
                        show st4.function_kind = st2.function_kind
                        have hx := ihX _ _ _ h4
                        rw [hx]
                        exact define_kind st2 name
                  · exact Except.noConfusion h5
              have k2 : st2.function_kind = st.function_kind := by
                have hk := declare_kind _ name st2 hd
                exact hk
              split
              · show st7.function_kind = st.function_kind
                rw [k7, k5, k2]
              · show st7.function_kind = st.function_kind
                rw [k7, k5, k2]
    · intro st ss st' h
      cases ss with
      | nil =>
        simp only [resolveStmts] at h
        rw [Except.ok.inj h]
      | cons s rest =>
        simp only [resolveStmts, bind, Except.bind] at h
        split at h
        · exact Except.noConfusion h
        · rename_i st1 hs
          rw [ihSS _ _ _ h, ihS _ _ _ hs]
    · intro st e st' h
      cases e with
      | «variable» name =>
        simp only [resolveExpr] at h
        split at h
        · split at h
          · split at h
            · exact Except.noConfusion h
            · cases Except.ok.inj h
              rfl
          · cases Except.ok.inj h
            rfl
        · cases Except.ok.inj h
          rfl
      | assignment name value =>
        simp only [resolveExpr, bind, Except.bind] at h
        split at h
        · exact Except.noConfusion h
        · rename_i st1 hv
          cases Except.ok.inj h
          show st1.function_kind = st.function_kind
          exact ihX _ _ _ hv
      | binary l op r =>
        simp only [resolveExpr, bind, Except.bind] at h
        split at h
        · exact Except.noConfusion h
        · rename_i st1 hl
          rw [ihX _ _ _ h, ihX _ _ _ hl]
      | logical l op r =>
        simp only [resolveExpr, bind, Except.bind] at h
        split at h
        · exact Except.noConfusion h
        · rename_i st1 hl
          rw [ihX _ _ _ h, ihX _ _ _ hl]
      | call callee paren args =>
        simp only [resolveExpr, bind, Except.bind] at h
        split at h
        · exact Except.noConfusion h
        · rename_i st1 hc
          rw [ihXS _ _ _ h, ihX _ _ _ hc]
      | grouping g =>
        simp only [resolveExpr] at h
        exact ihX st g st' h
      | literal v =>
        simp only [resolveExpr] at h
        rw [Except.ok.inj h]
      | unary op r =>
        simp only [resolveExpr] at h
        exact ihX st r st' h
      | get obj name =>
        simp only [resolveExpr] at h
        exact ihX st obj st' h
      | set obj name value =>
        simp only [resolveExpr, bind, Except.bind] at h
        split at h
        · exact Except.noConfusion h
        · rename_i st1 ho
          rw [ihX _ _ _ h, ihX _ _ _ ho]
      | thisE keyword =>
        simp only [resolveExpr] at h
        split at h
        · exact Except.noConfusion h
        · cases Except.ok.inj h
          rfl
      | superE keyword method =>
        simp only [resolveExpr] at h
        split at h
        · exact Except.noConfusion h
        · exact Except.noConfusion h
        · cases Except.ok.inj h
          rfl
    · intro st es st' h
      cases es with
      | nil =>
        simp only [resolveExprs] at h
        rw [Except.ok.inj h]
      | cons e rest =>
        simp only [resolveExprs, bind, Except.bind] at h
        split at h
        · exact Except.noConfusion h
        · rename_i st1 he
          rw [ihXS _ _ _ h, ihX _ _ _ he]
    · intro st ms st' h
      cases ms with
      | nil =>
        simp only [resolveMethods] at h
        rw [Except.ok.inj h]
      | cons m rest =>
        cases m with
        | sFunction mname params body =>
          simp only [resolveMethods, bind, Except.bind] at h
          split at h
          · exact Except.noConfusion h
          · rename_i st1 hf
            rw [ihM _ _ _ h, ihFn _ _ _ _ _ hf]
        | sExpr e =>
          simp only [resolveMethods] at h
          exact Except.noConfusion h
        | sPrint e =>
          simp only [resolveMethods] at h
          exact Except.noConfusion h
        | sVar n e =>
          simp only [resolveMethods] at h
          exact Except.noConfusion h
        | sBlock ss =>
          simp only [resolveMethods] at h
          exact Except.noConfusion h
        | sIf c t e =>
          simp only [resolveMethods] at h
          exact Except.noConfusion h
        | sWhile c b =>
          simp only [resolveMethods] at h
          exact Except.noConfusion h
        | sReturn k v =>
          simp only [resolveMethods] at h
          exact Except.noConfusion h
        | sClass n s mm =>
          simp only [resolveMethods] at h
          exact Except.noConfusion h
    · intro st ps body k st' h
      simp only [resolveFunction, bind, Except.bind] at h
      split at h
      · exact Except.noConfusion h
      · rename_i st2 hp
        split at h
        · exact Except.noConfusion h
        · rename_i st3 hb
          cases Except.ok.inj h
          rfl

/-- Inside a body resolved with the Initializer function kind, resolution
succeeds only when every reachable top-level return of the statement is
bare: a return with a value is a resolution error (Stmt::Return arm of
Resolver::resolve_stmt). -/
theorem resolverInitBare : ∀ fuel,
    (∀ st s st', st.function_kind = .fInitializer →
      resolveStmt fuel st s = .ok st' → bareTop s = true)
    ∧ (∀ st ss st', st.function_kind = .fInitializer →
      resolveStmts fuel st ss = .ok st' → bareTopList ss = true) := by
  intro fuel
  induction fuel with
  | zero =>
    constructor
    · intro st s st' _ h; exact Except.noConfusion h
    · intro st ss st' _ h; exact Except.noConfusion h
  | succ fuel ih =>
    obtain ⟨ihS, ihSS⟩ := ih
    constructor
    · intro st s st' hk h
      cases s with
      | sExpr e => simp [bareTop]
      | sPrint e => simp [bareTop]
      | sVar name expr => simp [bareTop]
      | sFunction name params body => simp [bareTop]
      | sClass name superclass methods => simp [bareTop]
      | sBlock stmts =>
        simp only [resolveStmt, bind, Except.bind] at h
        split at h
        · exact Except.noConfusion h
        · rename_i st1 hs
          simp only [bareTop]
          exact ihSS (Resolver.beginScope st) stmts st1 hk hs
      | sIf c t e =>
        simp only [resolveStmt, bind, Except.bind] at h
        split at h
        · exact Except.noConfusion h
        · rename_i st1 hc
          split at h
          · exact Except.noConfusion h
          · rename_i st2 ht
            have hk1 : st1.function_kind = .fInitializer := by
              rw [(resolverKindPres fuel).2.2.1 st c st1 hc, hk]
            have hbt : bareTop t = true := ihS st1 t st2 hk1 ht
            have hk2 : st2.function_kind = .fInitializer := by
              rw [(resolverKindPres fuel).1 st1 t st2 ht, hk1]
            simp only [bareTop, Bool.and_eq_true]
            refine ⟨hbt, ?_⟩
            cases e with
            | some b =>
              simp only [optBareTop]
              exact ihS st2 b st' hk2 h
            | none => simp [optBareTop]
      | sWhile c b =>
        simp only [resolveStmt, bind, Except.bind] at h
        split at h
        · exact Except.noConfusion h
        · rename_i st1 hc
          have hk1 : st1.function_kind = .fInitializer := by
            rw [(resolverKindPres fuel).2.2.1 st c st1 hc, hk]
          simp only [bareTop]
          exact ihS st1 b st' hk1 h
      | sReturn keyword value =>
        simp only [resolveStmt, hk] at h
        split at h
        · exact Except.noConfusion h
        · rename_i hni
          simp only [bareTop]
          cases value with
          | some e0 => simp at hni
          | none => rfl
    · intro st ss st' hk h
      cases ss with
      | nil => simp [bareTopList]
      | cons s rest =>
        simp only [resolveStmts, bind, Except.bind] at h
        split at h
        · exact Except.noConfusion h
        · rename_i st1 hs
          have hk1 : st1.function_kind = .fInitializer := by
            rw [(resolverKindPres fuel).1 st s st1 hs, hk]
          simp only [bareTopList, Bool.and_eq_true]
          exact ⟨ihS st s st1 hk hs, ihSS st1 rest st' hk1 h⟩

/-- C5: for every program that passes resolution, a class call that runs the
class's init method returns the just-created instance — both on fall-through
and on a bare return (the bareTopList hypothesis, which the third conjunct
shows is exactly what resolution enforces inside an initializer) — and a
return with a value directly inside an init body is rejected by the
resolver with a resolution error before any evaluation. -/
theorem c5_initializer_returns_instance :
    (∀ fuel st c args init v st',
        storeOK st → classOK c = true →
        LoxClass.find_method c "init" = some (.callable init) →
        init.is_initializer = true →
        bareTopList init.body = true →
        (∀ a ∈ args, typesOK a = true) →
        callClass fuel st c args = (.ok v, st') →
        v = Types.classInstance st.insts.length)
    ∧ (∀ fuel st keyword e, st.function_kind = .fInitializer →
        resolveStmt (fuel + 1) st (.sReturn keyword (some e)) =
          .error (.resolution keyword.line "Cannot return a value from an initializer"))
    ∧ (∀ fuel st s st', st.function_kind = .fInitializer →
        resolveStmt fuel st s = .ok st' → bareTop s = true) := by
  refine ⟨?_, ?_, fun fuel => (resolverInitBare fuel).1⟩
  · intro fuel st c args init v st' hst hcok hfm hinit hbare hargs h
    cases fuel with
    | zero =>
      simp only [callClass] at h
      exact Except.noConfusion (congrArg Prod.fst h)
    | succ fuel =>
      simp only [callClass, LoxClass.new_instance] at h
      split at h
      · rename_i initializer hfm2
        have hii : initializer = init := by
          rw [hfm2] at hfm
          exact Types.callable.inj (Option.some.inj hfm)
        subst hii
        simp only [LoxFunction.bind] at h
        have hiOK := findMethodOK c hcok "init" _ hfm2
        rw [typesOK_simp.1, funcOK_body] at hiOK
        have hfokb : funcOK (.mk initializer.name initializer.params initializer.body st.heap.length initializer.is_initializer) = true := by
          simpa [funcOK] using hiOK
        have hst2 : storeOK { st with insts := st.insts ++ [⟨c, []⟩], heap := st.heap ++ [⟨[("this", Types.classInstance st.insts.length)], some initializer.closure⟩] } := by
          refine ⟨heapOK_append hst.1 ?_,
            instsOK_append hst.2 hcok (fun p hp => absurd hp (List.not_mem_nil p))⟩
          intro p hp
          rcases List.mem_singleton.mp hp with rfl
          exact typesOK_simp.2.2.2.2.2.2.1 _
        exact callFunctionInit fuel _ (.mk initializer.name initializer.params initializer.body st.heap.length initializer.is_initializer) args v st' (Types.classInstance st.insts.length)
          hinit hbare hfokb hargs hst2
          (thisLook_append_self st.heap _ (some initializer.closure)) h
      · have hv := Except.ok.inj (congrArg Prod.fst h)
        exact hv.symm
  · intro fuel st keyword e hk
    simp only [resolveStmt, hk, Option.isSome, if_true]

/-- The init token of the C5 witness class. -/
def c5InitTok : Token := ⟨.identifier "init", "init", 1⟩

/-- The return token of the C5 witness class's bare return. -/
def c5RetTok : Token := ⟨.kwReturn, "return", 2⟩

/-- The initializer of the C5 witness class: init() { return; }. -/
def c5Init : LoxFunction := .mk c5InitTok [] [.sReturn c5RetTok none] 0 true

/-- The C5 witness class Foo with the single method init() { return; }. -/
def c5Class : LoxClass := .mk "Foo" [("init", .callable c5Init)] none

/-- The state after the C5 witness call. -/
def c5Final : Interp := (callClass 10 (Interp.new 0) c5Class []).2

/-- A resolver state inside an initializer of a class body. -/
def c5RState : RState := ⟨[], .fInitializer, .cClass, []⟩

/-- Witness for c5_initializer_returns_instance: calling class Foo, whose
init body is the bare return, yields instance 0 — the fresh instance — and
the resolver rejects return of a literal inside an initializer while
accepting the bare return (whose body is then bare). -/
theorem c5_witness :
    Types.classInstance 0 = Types.classInstance (Interp.new 0).insts.length
    ∧ resolveStmt 1 c5RState (.sReturn c5RetTok (some (.literal c5RetTok))) =
        .error (.resolution 2 "Cannot return a value from an initializer")
    ∧ bareTop (.sReturn c5RetTok none) = true :=
  ⟨c5_initializer_returns_instance.1 10 (Interp.new 0) c5Class [] c5Init
      (.classInstance 0) c5Final
      ⟨fun f hf => by
          rcases List.mem_singleton.mp hf with rfl
          intro p hp
          rcases List.mem_singleton.mp hp with rfl
          exact typesOK_simp.2.2.2.2.2.1 _,
        fun i hi => absurd hi (List.not_mem_nil i)⟩
      (by rw [show c5Class = .mk "Foo" [("init", .callable c5Init)] none from rfl, classOK_mk]
          simp [methodsOK, typesOK, funcOK, stmtsOK, stmtOK, optExprOK, c5Init])
      (by rw [show c5Class = .mk "Foo" [("init", .callable c5Init)] none from rfl, find_method_mk]; rfl)
      rfl
      (by simp [bareTopList, bareTop, Option.isNone])
      (fun a ha => absurd ha (List.not_mem_nil a))
      rfl,
    c5_initializer_returns_instance.2.1 0 c5RState c5RetTok (.literal c5RetTok) rfl,
    c5_initializer_returns_instance.2.2 1 c5RState (.sReturn c5RetTok none) c5RState
      rfl rfl⟩
